import Mathlib

/-!
# Vectorized comparison builtins (`expression/builtin_compare_vec.go`)

A shallow embedding of the batch evaluation of `GREATEST`, `LEAST`, the Integer
relational operators and `INTERVAL`, together with theorems about them.

Conventions of the embedding

* A Go `error` is a value of `Error`; the `nil` error is `none`.
* A column is a list of null flags and a list of stored values.  A row that
  is null still has a stored value.
* An operand sub-expression is represented by what its evaluation on the
  current input batch does: it fails with an error, or it overwrites the
  column it is given with the column of its values.
* Every call returns an `Outcome`: the error, the final content of the
  `result` column of the caller, the state of the buffer pool and the list of the
  observable events of the call, oldest first.
* Reading a slice outside its bounds (a run-time panic in Go) is modelled as
  doing nothing for that row; `b.args[j]` for a missing operand is modelled
  as the error `errIndexOutOfRange`.  The theorems assume columns of `n` rows
  and enough operands, where neither happens.
-/

namespace Expression

/-! ## Errors, columns, the pool, operands -/

/-- A Go `error` value, identified by its message. -/
structure Error where
  msg : String
deriving DecidableEq, Repr

/-- Stands for the run-time panic of `b.args[j]` with `j` out of range. -/
def errIndexOutOfRange : Error := ⟨"index out of range"⟩

/-- Modelled from the spec: `chunk.Column` is not among the sources.  §3: an
ordered sequence of row slots holding values of one domain "plus one null flag
per slot"; the null flag "is independent of and overrides any stored value at
that slot".  `nulls[i] = true` means row `i` is null. -/
structure Column (α : Type) where
  nulls : List Bool
  data : List α
deriving DecidableEq, Repr

namespace Column

variable {α : Type}

/-- The column with no rows (a freshly allocated buffer). -/
def empty : Column α := ⟨[], []⟩

/-- Says that `c` holds exactly `n` rows. -/
def HasRows (c : Column α) (n : Nat) : Prop := c.nulls.length = n ∧ c.data.length = n

instance (c : Column α) (n : Nat) : Decidable (c.HasRows n) := by
  unfold HasRows; infer_instance

/-- Modelled from the spec: `Column.IsNull(i)`, the null-test of §6. -/
def IsNull (c : Column α) (i : Nat) : Bool := (c.nulls[i]?).getD false

/-- Modelled from the spec: `Column.SetNull(i, isNull)`, the null-set of §6. -/
def SetNull (c : Column α) (i : Nat) (isNull : Bool) : Column α :=
  { c with nulls := c.nulls.set i isNull }

/-- Row-wise OR of the null flags of `src` into the null flags `dst`. -/
def orNulls : List Bool → List Bool → List Bool
  | [], _ => []
  | d :: ds, [] => d :: ds
  | d :: ds, s :: ss => (d || s) :: orNulls ds ss

/-- Modelled from the spec: `Column.MergeNulls(cols...)`.  §4.2: "for every
row `i`, sets `dst.null(i) := dst.null(i) OR src1.null(i) OR ...`". -/
def MergeNulls (c : Column α) (cols : List (Column α)) : Column α :=
  cols.foldl (fun c col => { c with nulls := orNulls c.nulls col.nulls }) c

/-- Modelled from the spec: `Column.ResizeInt64(n, isNull)`: the column gets
`n` rows whose null flags all are `isNull`; the stored values are whatever the
storage held (here: the old values, then `fill`). -/
def Resize (c : Column α) (fill : α) (n : Nat) (isNull : Bool) : Column α :=
  ⟨List.replicate n isNull, (c.data ++ List.replicate n fill).take n⟩

/-- Modelled from the spec: `Column.AppendNull()`, append-only construction of
§6: one more row, null, whose stored value is the zero value `zero`. -/
def AppendNull (c : Column α) (zero : α) : Column α :=
  ⟨c.nulls ++ [true], c.data ++ [zero]⟩

/-- Modelled from the spec: `Column.AppendString(s)`: one more row, not null,
holding `s`. -/
def Append (c : Column α) (v : α) : Column α :=
  ⟨c.nulls ++ [false], c.data ++ [v]⟩

/-- Modelled from the spec: `Column.ReserveString(n)`, §6 "reset row count to
zero keeping capacity". -/
def Reserve (_c : Column α) (_n : Nat) : Column α := ⟨[], []⟩

/-- Modelled from the spec: `src.CopyConstruct(dst)`, the deep-copy-into of
§6: the content `dst` has afterwards. -/
def CopyConstruct (src : Column α) (_dst : Column α) : Column α := src

end Column

/-- Modelled from the spec: the scratch buffer pool behind `b.bufAllocator`
(§4.1) is not among the sources.  `get` returns a column "either freshly
allocated or reclaimed from a prior release" and "fails only on allocation
failure"; `put` "returns it to the pool for future reuse".  `free` is the
stack of released columns (with the content they were released with),
`fresh` the number of allocations that still succeed, `allocErr` the error
of a failed allocation and `leased` the number of outstanding leases. -/
structure Pool (α : Type) where
  free : List (Column α)
  fresh : Nat
  allocErr : Error
  leased : Nat
deriving DecidableEq, Repr

namespace Pool

variable {α : Type}

/-- Models `bufAllocator.get(evalType, n)`: the leased column, or the error,
and the pool afterwards. -/
def get (p : Pool α) : Except Error (Column α) × Pool α :=
  match p.free with
  | c :: rest => (.ok c, { p with free := rest, leased := p.leased + 1 })
  | [] =>
    match p.fresh with
    | 0 => (.error p.allocErr, p)
    | k + 1 => (.ok Column.empty, { p with fresh := k, leased := p.leased + 1 })

/-- Models `bufAllocator.put(buf)`. -/
def put (p : Pool α) (buf : Column α) : Pool α :=
  { p with free := buf :: p.free, leased := p.leased - 1 }

end Pool

/-- An operand sub-expression `b.args[j]`, seen from this file.
`VecEval` is the outcome of its batch entry point (`VecEvalInt`,
`VecEvalString`, ...) on the current input: an error, or the column it writes
over the whole output column.  `Eval row` is its row-at-a-time evaluation
(`EvalInt(ctx, row)`): an error, or the value, `none` for null.
`unsigned` is `mysql.HasUnsignedFlag(GetType().Flag)`. -/
structure Expr (α : Type) where
  VecEval : Except Error (Column α)
  Eval : Nat → Except Error (Option α)
  unsigned : Bool

/-- The observable steps of one batch call. -/
inductive Event where
  /-- The `k`-th `bufAllocator.get` of the call (from 0). -/
  | get (k : Nat)
  /-- The `bufAllocator.put` of the column leased by the `k`-th `get`. -/
  | put (k : Nat)
  /-- The call `b.args[j].VecEvalXxx(b.ctx, input, ...)`. -/
  | eval (j : Nat)
  /-- The call `b.binSearch(..., b.args[1:], input.GetRow(i))`. -/
  | binSearch (i : Nat)
  /-- The call `src.CopyConstruct(result)`. -/
  | copyConstruct
deriving DecidableEq, Repr

/-- What a batch call leaves behind: the returned error, the `result` column
of the caller (of values `α`), the pool (of columns of `β`) and the events. -/
structure Outcome (α β : Type) where
  err : Option Error
  result : Column α
  pool : Pool β
  log : List Event

/-- The state of the body of a call between the lease and the deferred
release: error, `result`, the leased buffer and the events so far. -/
structure Body (α : Type) where
  err : Option Error
  result : Column α
  buf : Column α
  log : List Event

/-- The call `errors.Errorf(msg)`. -/
def errors.Errorf (msg : String) : Error := ⟨msg⟩

/-- The call `b.args[j].VecEvalXxx(b.ctx, input, col)`: the error, or the new
content of `col`. -/
def vecEvalArg {α : Type} (args : List (Expr α)) (j : Nat) : Except Error (Column α) :=
  match args[j]? with
  | some a => a.VecEval
  | none => .error errIndexOutOfRange

/-- The flag `mysql.HasUnsignedFlag(b.args[j].GetType().Flag)`. -/
def hasUnsignedFlag {α : Type} (args : List (Expr α)) (j : Nat) : Bool :=
  match args[j]? with
  | some a => a.unsigned
  | none => false

/-! ## `GREATEST` / `LEAST` over fixed-width domains -/

section Fixed

variable {α : Type}

/-- The row loop of the fixed-width reductions (lines 114-122, 150-157,
197-204, 574-581, 79-87): `for i := 0; i < n; i++`, a null row of `result` is
skipped, otherwise `result[i] = buf[i]` when `better buf[i] result[i]`. -/
def updateRows (better : α → α → Bool) (n : Nat) (buf result : Column α) : Column α :=
  (List.range n).foldl (fun result i =>
    if result.IsNull i then result
    else
      match buf.data[i]?, result.data[i]? with
      | some v, some cur =>
        if better v cur then { result with data := result.data.set i v } else result
      | _, _ => result) result

/-- One fold step in the bulk form: `result.MergeNulls(buf)`, then the row
loop. -/
def mergeStep (better : α → α → Bool) (n : Nat) (buf result : Column α) : Column α :=
  updateRows better n buf (result.MergeNulls [buf])

/-- One fold step of `builtinGreatestDecimalSig.vecEvalDecimal` (lines
41-52), whose null handling is inline: a null row of `result` is skipped, a
null row of `buf` makes the row of `result` null, otherwise the value is
replaced when `v.Compare(&d64s[i]) > 0`. -/
def greatestDecimalStep (Compare : α → α → Int) (n : Nat)
    (buf result : Column α) : Column α :=
  (List.range n).foldl (fun result i =>
    if result.IsNull i then result
    else if buf.IsNull i then result.SetNull i true
    else
      match buf.data[i]?, result.data[i]? with
      | some v, some cur =>
        if Compare v cur > 0 then { result with data := result.data.set i v } else result
      | _, _ => result) result

/-- The loop `for j := 1; j < len(b.args); j++` over the operands from `j`
on: operand `j` is evaluated into `buf`; an error ends the call, otherwise
`step` folds `buf` into `result`. -/
def reduceLoop (step : Column α → Column α → Column α) :
    List (Expr α) → Nat → Body α → Body α
  | [], _, s => s
  | a :: rest, j, s =>
    match a.VecEval with
    | .error err => { s with err := some err, log := s.log ++ [.eval j] }
    | .ok c =>
      reduceLoop step rest (j + 1)
        { s with buf := c, result := step c s.result, log := s.log ++ [.eval j] }

/-- The shape shared by the six fixed-width `GREATEST`/`LEAST` signatures:
lease `buf` (an error ends the call), defer its release, evaluate operand 0
into `result` (an error ends the call), run the loop over the other operands,
and release `buf` on the way out. -/
def reduceFixed (step : Column α → Column α → Column α) (args : List (Expr α))
    (pool : Pool α) (result : Column α) : Outcome α α :=
  match pool.get with
  | (.error err, pool) => ⟨some err, result, pool, [.get 0]⟩
  | (.ok buf, pool) =>
    let s : Body α :=
      match vecEvalArg args 0 with
      | .error err => ⟨some err, result, buf, [.get 0, .eval 0]⟩
      | .ok c => reduceLoop step (args.drop 1) 1 ⟨none, c, buf, [.get 0, .eval 0]⟩
    ⟨s.err, s.result, pool.put s.buf, s.log ++ [.put 0]⟩

end Fixed

/-- Embeds `builtinGreatestDecimalSig.vecEvalDecimal` (lines 25-55);
`Compare` is `MyDecimal.Compare`, `n` is `input.NumRows()`. -/
def builtinGreatestDecimalSig.vecEvalDecimal {D : Type} (Compare : D → D → Int)
    (args : List (Expr D)) (n : Nat) (pool : Pool D) (result : Column D) : Outcome D D :=
  reduceFixed (greatestDecimalStep Compare n) args pool result

/-- Embeds `builtinLeastDecimalSig.vecEvalDecimal` (lines 61-90): the value
is replaced when `v.Compare(&d64s[i]) < 0`. -/
def builtinLeastDecimalSig.vecEvalDecimal {D : Type} (Compare : D → D → Int)
    (args : List (Expr D)) (n : Nat) (pool : Pool D) (result : Column D) : Outcome D D :=
  reduceFixed (mergeStep (fun v cur => decide (Compare v cur < 0)) n) args pool result

/-- Embeds `builtinLeastIntSig.vecEvalInt` (lines 96-125): the value is
replaced when `v < i64s[i]`, the values read as signed 64-bit integers. -/
def builtinLeastIntSig.vecEvalInt (args : List (Expr Int)) (n : Nat) (pool : Pool Int)
    (result : Column Int) : Outcome Int Int :=
  reduceFixed (mergeStep (fun v cur => decide (v < cur)) n) args pool result

/-- Embeds `builtinGreatestIntSig.vecEvalInt` (lines 131-160): the value is
replaced when `v[i] > i64s[i]`. -/
def builtinGreatestIntSig.vecEvalInt (args : List (Expr Int)) (n : Nat) (pool : Pool Int)
    (result : Column Int) : Outcome Int Int :=
  reduceFixed (mergeStep (fun v cur => decide (v > cur)) n) args pool result

/-- Embeds `builtinLeastRealSig.vecEvalReal` (lines 178-207): the value is
replaced when `v[i] < f64s[i]` on `float64`. -/
def builtinLeastRealSig.vecEvalReal (args : List (Expr Float)) (n : Nat) (pool : Pool Float)
    (result : Column Float) : Outcome Float Float :=
  reduceFixed (mergeStep (fun v cur => decide (v < cur)) n) args pool result

/-- Embeds `builtinGreatestRealSig.vecEvalReal` (lines 555-584): the value is
replaced when `v[i] > f64s[i]` on `float64`. -/
def builtinGreatestRealSig.vecEvalReal (args : List (Expr Float)) (n : Nat) (pool : Pool Float)
    (result : Column Float) : Outcome Float Float :=
  reduceFixed (mergeStep (fun v cur => decide (v > cur)) n) args pool result

/-! ## `GREATEST` / `LEAST` over strings -/

/-- Modelled from the spec: `types.CompareString` is not among the sources;
§4.5 asks for "byte-wise comparison".  A string is the list of its bytes; the
result is negative, zero or positive as `x` is below, equal to or above `y`
in the lexicographic order of the bytes. -/
def CompareString : List Nat → List Nat → Int
  | [], [] => 0
  | [], _ :: _ => -1
  | _ :: _, [] => 1
  | a :: x, b :: y => if a < b then -1 else if b < a then 1 else CompareString x y

/-- The three columns the string reduction works on. -/
inductive Ref where
  | result
  | buf1
  | buf2
deriving DecidableEq, Repr

/-- The content of the three columns. -/
structure Heap where
  result : Column (List Nat)
  buf1 : Column (List Nat)
  buf2 : Column (List Nat)

/-- Reads the column a pointer refers to. -/
def Heap.read (h : Heap) : Ref → Column (List Nat)
  | .result => h.result
  | .buf1 => h.buf1
  | .buf2 => h.buf2

/-- Replaces the content of the column a pointer refers to. -/
def Heap.write (h : Heap) (r : Ref) (c : Column (List Nat)) : Heap :=
  match r with
  | .result => { h with result := c }
  | .buf1 => { h with buf1 := c }
  | .buf2 => { h with buf2 := c }

/-- The state of the string reduction: the three columns and the pointers
`src`, `arg`, `dst`. -/
structure StringState where
  err : Option Error
  heap : Heap
  src : Ref
  arg : Ref
  dst : Ref
  log : List Event

/-- The row loop of the string reductions (lines 238-250, 622-634): a null
marker is appended to `dst` when `src` or `arg` is null at the row, otherwise
`srcStr` when `keepSrc srcStr argStr`, else `argStr`. -/
def stringRows (keepSrc : List Nat → List Nat → Bool) (n : Nat)
    (src arg dst : Column (List Nat)) : Column (List Nat) :=
  (List.range n).foldl (fun dst i =>
    if src.IsNull i || arg.IsNull i then dst.AppendNull []
    else
      match src.data[i]?, arg.data[i]? with
      | some srcStr, some argStr =>
        if keepSrc srcStr argStr then dst.Append srcStr else dst.Append argStr
      | _, _ => dst) dst

/-- The body of the loop of the string reductions once operand `j` has been
evaluated to the column `c` (lines 235-253, 619-637): `arg` holds `c`, the
rows are appended to `dst`, `src` and `dst` are swapped, then
`arg.ReserveString(n)` and `dst.ReserveString(n)`. -/
def stringIter (keepSrc : List Nat → List Nat → Bool) (n : Nat) (j : Nat)
    (c : Column (List Nat)) (s : StringState) : StringState :=
  let h := s.heap.write s.arg c
  let h := h.write s.dst (stringRows keepSrc n (h.read s.src) (h.read s.arg) (h.read s.dst))
  let src := s.dst
  let dst := s.src
  let h := h.write s.arg ((h.read s.arg).Reserve n)
  let h := h.write dst ((h.read dst).Reserve n)
  { s with heap := h, src := src, dst := dst, log := s.log ++ [.eval j] }

/-- The loop `for j := 1; j < len(b.args); j++` of the string reductions
(lines 234-254, 618-638) over the operands from `j` on: evaluate operand `j`
into `arg` (an error ends the call), then run the body. -/
def stringLoop (keepSrc : List Nat → List Nat → Bool) (n : Nat) :
    List (Expr (List Nat)) → Nat → StringState → StringState
  | [], _, s => s
  | a :: rest, j, s =>
    match a.VecEval with
    | .error err => { s with err := some err, log := s.log ++ [.eval j] }
    | .ok c => stringLoop keepSrc n rest (j + 1) (stringIter keepSrc n j c s)

/-- The tail of the string reductions (lines 255-258, 639-642): when no
operand failed and `len(b.args)%2 == 0`, `src.CopyConstruct(result)`. -/
def stringFinish (k : Nat) (s : StringState) : StringState :=
  match s.err with
  | some _ => s
  | none =>
    if k % 2 = 0 then
      { s with
        heap := s.heap.write .result ((s.heap.read s.src).CopyConstruct s.heap.result)
        log := s.log ++ [.copyConstruct] }
    else s

/-- The shape shared by `builtinLeastStringSig.vecEvalString` and
`builtinGreatestStringSig.vecEvalString`: operand 0 is evaluated into
`result`, then `buf1` and `buf2` are leased (their release deferred), then
the loop and the tail run with `src = result`, `arg = buf1`, `dst = buf2`. -/
def reduceString (keepSrc : List Nat → List Nat → Bool) (args : List (Expr (List Nat)))
    (n : Nat) (pool : Pool (List Nat)) (result : Column (List Nat)) :
    Outcome (List Nat) (List Nat) :=
  match vecEvalArg args 0 with
  | .error err => ⟨some err, result, pool, [.eval 0]⟩
  | .ok c =>
    match pool.get with
    | (.error err, pool) => ⟨some err, c, pool, [.eval 0, .get 0]⟩
    | (.ok buf1, pool) =>
      match pool.get with
      | (.error err, pool) => ⟨some err, c, pool.put buf1, [.eval 0, .get 0, .get 1, .put 0]⟩
      | (.ok buf2, pool) =>
        let s := stringFinish args.length
          (stringLoop keepSrc n (args.drop 1) 1
            ⟨none, ⟨c, buf1, buf2⟩, .result, .buf1, .buf2, [.eval 0, .get 0, .get 1]⟩)
        ⟨s.err, s.heap.result, (pool.put s.heap.buf2).put s.heap.buf1, s.log ++ [.put 1, .put 0]⟩

/-- Embeds `builtinLeastStringSig.vecEvalString` (lines 213-259): `srcStr` is
kept when `types.CompareString(srcStr, argStr) < 0`. -/
def builtinLeastStringSig.vecEvalString (args : List (Expr (List Nat))) (n : Nat)
    (pool : Pool (List Nat)) (result : Column (List Nat)) : Outcome (List Nat) (List Nat) :=
  reduceString (fun srcStr argStr => decide (CompareString srcStr argStr < 0)) args n pool result

/-- Embeds `builtinGreatestStringSig.vecEvalString` (lines 598-643): `srcStr`
is kept when `types.CompareString(srcStr, argStr) > 0`. -/
def builtinGreatestStringSig.vecEvalString (args : List (Expr (List Nat))) (n : Nat)
    (pool : Pool (List Nat)) (result : Column (List Nat)) : Outcome (List Nat) (List Nat) :=
  reduceString (fun srcStr argStr => decide (CompareString srcStr argStr > 0)) args n pool result

/-! ## Integer relational operators -/

/-- The 64-bit pattern of a signed value read as unsigned (`uint64(x)`). -/
def toUint64 (x : Int) : Nat := (x % 2 ^ 64).toNat

/-- The slice `c.Int64s()`: the stored values read as signed. -/
def Column.Int64s (c : Column Int) : List Int := c.data

/-- The slice `c.Uint64s()`: the stored values read as unsigned. -/
def Column.Uint64s (c : Column Int) : List Nat := c.data.map toUint64

/-- The four delta kernels `types.VecCompareUU`, `VecCompareUI`,
`VecCompareIU` and `VecCompareII`, which are not among the sources: each
takes the two operand slices and the slice `res` and returns the content of
`res` afterwards. -/
structure CompareKernels where
  VecCompareUU : List Nat → List Nat → List Int → List Int
  VecCompareUI : List Nat → List Int → List Int → List Int
  VecCompareIU : List Int → List Nat → List Int → List Int
  VecCompareII : List Int → List Int → List Int → List Int

/-- The contract of a delta kernel (§4.3 step 3): at every row both operands
and `res` have, the delta written to `res` has the sign of the difference of
the two values. -/
def SignOfDifference {A B : Type} (toA : A → Int) (toB : B → Int)
    (kernel : List A → List B → List Int → List Int) : Prop :=
  ∀ (x : List A) (y : List B) (res : List Int) (i : Nat) (a : A) (b : B),
    x[i]? = some a → y[i]? = some b → i < res.length →
      ∃ d, (kernel x y res)[i]? = some d ∧ Int.sign d = Int.sign (toA a - toB b)

/-- The contract of the four kernels together. -/
def CompareKernels.Correct (K : CompareKernels) : Prop :=
  SignOfDifference (fun a : Nat => (a : Int)) (fun b : Nat => (b : Int)) K.VecCompareUU ∧
  SignOfDifference (fun a : Nat => (a : Int)) (fun b : Int => b) K.VecCompareUI ∧
  SignOfDifference (fun a : Int => a) (fun b : Nat => (b : Int)) K.VecCompareIU ∧
  SignOfDifference (fun a : Int => a) (fun b : Int => b) K.VecCompareII

/-- Embeds `vecResOfLT` (lines 472-481). -/
def vecResOfLT (res : List Int) : List Int :=
  res.map fun d => if d < 0 then 1 else 0

/-- Embeds `vecResOfLE` (lines 483-492). -/
def vecResOfLE (res : List Int) : List Int :=
  res.map fun d => if d ≤ 0 then 1 else 0

/-- Embeds `vecResOfGT` (lines 494-503). -/
def vecResOfGT (res : List Int) : List Int :=
  res.map fun d => if d > 0 then 1 else 0

/-- Embeds `vecCompareInt` (lines 506-517): the `switch` over the pair of
flags; the last branch is the `switch` with no case taken. -/
def vecCompareInt (K : CompareKernels) (isUnsigned0 isUnsigned1 : Bool)
    (largs rargs result : Column Int) : Column Int :=
  if isUnsigned0 && isUnsigned1 then
    { result with data := K.VecCompareUU largs.Uint64s rargs.Uint64s result.Int64s }
  else if isUnsigned0 && !isUnsigned1 then
    { result with data := K.VecCompareUI largs.Uint64s rargs.Int64s result.Int64s }
  else if !isUnsigned0 && isUnsigned1 then
    { result with data := K.VecCompareIU largs.Int64s rargs.Uint64s result.Int64s }
  else if !isUnsigned0 && !isUnsigned1 then
    { result with data := K.VecCompareII largs.Int64s rargs.Int64s result.Int64s }
  else result

/-- The shape shared by `builtinGTIntSig.vecEvalInt`,
`builtinLEIntSig.vecEvalInt` and `builtinLTIntSig.vecEvalInt`: lease `buf0`,
evaluate operand 0 into it, lease `buf1`, evaluate operand 1 into it (each of
the four can end the call with its error), then
`result.ResizeInt64(n, false)`, `vecCompareInt`,
`result.MergeNulls(buf0, buf1)` and the collapse `vecResOf` of the deltas;
the deferred releases run on every way out. -/
def compareInt (vecResOf : List Int → List Int) (K : CompareKernels)
    (args : List (Expr Int)) (n : Nat) (pool : Pool Int) (result : Column Int) :
    Outcome Int Int :=
  match pool.get with
  | (.error err, pool) => ⟨some err, result, pool, [.get 0]⟩
  | (.ok buf0, pool) =>
    match vecEvalArg args 0 with
    | .error err => ⟨some err, result, pool.put buf0, [.get 0, .eval 0, .put 0]⟩
    | .ok buf0 =>
      match pool.get with
      | (.error err, pool) =>
        ⟨some err, result, pool.put buf0, [.get 0, .eval 0, .get 1, .put 0]⟩
      | (.ok buf1, pool) =>
        match vecEvalArg args 1 with
        | .error err =>
          ⟨some err, result, (pool.put buf1).put buf0,
            [.get 0, .eval 0, .get 1, .eval 1, .put 1, .put 0]⟩
        | .ok buf1 =>
          let result := result.Resize 0 n false
          let result :=
            vecCompareInt K (hasUnsignedFlag args 0) (hasUnsignedFlag args 1) buf0 buf1 result
          let result := result.MergeNulls [buf0, buf1]
          let result := { result with data := vecResOf result.Int64s }
          ⟨none, result, (pool.put buf1).put buf0,
            [.get 0, .eval 0, .get 1, .eval 1, .put 1, .put 0]⟩

/-- Embeds `builtinGTIntSig.vecEvalInt` (lines 281-307). -/
def builtinGTIntSig.vecEvalInt (K : CompareKernels) (args : List (Expr Int)) (n : Nat)
    (pool : Pool Int) (result : Column Int) : Outcome Int Int :=
  compareInt vecResOfGT K args n pool result

/-- Embeds `builtinLEIntSig.vecEvalInt` (lines 404-430). -/
def builtinLEIntSig.vecEvalInt (K : CompareKernels) (args : List (Expr Int)) (n : Nat)
    (pool : Pool Int) (result : Column Int) : Outcome Int Int :=
  compareInt vecResOfLE K args n pool result

/-- Embeds `builtinLTIntSig.vecEvalInt` (lines 444-470). -/
def builtinLTIntSig.vecEvalInt (K : CompareKernels) (args : List (Expr Int)) (n : Nat)
    (pool : Pool Int) (result : Column Int) : Outcome Int Int :=
  compareInt vecResOfLT K args n pool result

/-! ## `INTERVAL` -/

/-- The state of a row loop that can end the call: error, `result`, events. -/
structure Progress where
  err : Option Error
  result : Column Int
  log : List Event

/-- The row loop of `builtinIntervalIntSig.vecEvalInt` (lines 352-363) over
the rows still to visit: a null row becomes a non-null `-1`; otherwise
`binSearch` runs for the row, its error ends the call, its index is stored. -/
def intervalIntRows (binSearch : Int → Bool → List (Expr Int) → Nat → Except Error Int)
    (args : List (Expr Int)) : List Nat → Progress → Progress
  | [], s => s
  | i :: rows, s =>
    match s.result.data[i]? with
    | none => intervalIntRows binSearch args rows s
    | some v =>
      if s.result.IsNull i then
        let result := s.result.SetNull i false
        intervalIntRows binSearch args rows
          { s with result := { result with data := result.data.set i (-1) } }
      else
        match binSearch v (hasUnsignedFlag args 0) (args.drop 1) i with
        | .error err => { s with err := some err, log := s.log ++ [.binSearch i] }
        | .ok idx =>
          intervalIntRows binSearch args rows
            { s with
              result := { s.result with data := s.result.data.set i idx }
              log := s.log ++ [.binSearch i] }

/-- Embeds `builtinIntervalIntSig.vecEvalInt` (lines 345-365).  `binSearch`
is the method `b.binSearch(target, isUint1, args, row)`, which is not among
the sources; the row `input.GetRow(i)` is passed as `i`. -/
def builtinIntervalIntSig.vecEvalInt
    (binSearch : Int → Bool → List (Expr Int) → Nat → Except Error Int)
    (args : List (Expr Int)) (_n : Nat) (pool : Pool Int) (result : Column Int) :
    Outcome Int Int :=
  match vecEvalArg args 0 with
  | .error err => ⟨some err, result, pool, [.eval 0]⟩
  | .ok c =>
    let s := intervalIntRows binSearch args (List.range c.Int64s.length) ⟨none, c, [.eval 0]⟩
    ⟨s.err, s.result, pool, s.log⟩

/-- The row loop of `builtinIntervalRealSig.vecEvalInt` (lines 386-396): a
null row of `buf` stores `-1`; otherwise `binSearch` runs for the row, its
error ends the call, its index is stored. -/
def intervalRealRows {F : Type} (binSearch : F → List (Expr F) → Nat → Except Error Int)
    (args : List (Expr F)) (buf : Column F) : List Nat → Progress → Progress
  | [], s => s
  | i :: rows, s =>
    if buf.IsNull i then
      intervalRealRows binSearch args buf rows
        { s with result := { s.result with data := s.result.data.set i (-1) } }
    else
      match buf.data[i]? with
      | none => intervalRealRows binSearch args buf rows s
      | some f =>
        match binSearch f (args.drop 1) i with
        | .error err => { s with err := some err, log := s.log ++ [.binSearch i] }
        | .ok idx =>
          intervalRealRows binSearch args buf rows
            { s with
              result := { s.result with data := s.result.data.set i idx }
              log := s.log ++ [.binSearch i] }

/-- Embeds `builtinIntervalRealSig.vecEvalInt` (lines 371-398), for any type
`F` of `float64` values.  `binSearch` is the method
`b.binSearch(target, args, row)`, which is not among the sources. -/
def builtinIntervalRealSig.vecEvalInt {F : Type}
    (binSearch : F → List (Expr F) → Nat → Except Error Int)
    (args : List (Expr F)) (n : Nat) (pool : Pool F) (result : Column Int) :
    Outcome Int F :=
  match pool.get with
  | (.error err, pool) => ⟨some err, result, pool, [.get 0]⟩
  | (.ok buf, pool) =>
    match vecEvalArg args 0 with
    | .error err => ⟨some err, result, pool.put buf, [.get 0, .eval 0, .put 0]⟩
    | .ok buf =>
      let result := result.Resize 0 n false
      let s := intervalRealRows binSearch args buf (List.range n)
        ⟨none, result, [.get 0, .eval 0]⟩
      ⟨s.err, s.result, pool.put buf, s.log ++ [.put 0]⟩

/-! ## The `vectorized()` flags and the signatures without a batch path -/

/-- The body `return errors.Errorf("not implemented")` shared by the batch
entry points of the signatures that are not vectorized: nothing is leased,
no operand is evaluated, `result` is not touched. -/
def notImplemented {α β : Type} (pool : Pool β) (result : Column α) : Outcome α β :=
  ⟨some (errors.Errorf "not implemented"), result, pool, []⟩

/-- Embeds `builtinGreatestDecimalSig.vectorized` (lines 57-59). -/
def builtinGreatestDecimalSig.vectorized : Bool := true

/-- Embeds `builtinLeastDecimalSig.vectorized` (lines 92-94). -/
def builtinLeastDecimalSig.vectorized : Bool := true

/-- Embeds `builtinLeastIntSig.vectorized` (lines 127-129). -/
def builtinLeastIntSig.vectorized : Bool := true

/-- Embeds `builtinGreatestIntSig.vectorized` (lines 162-164). -/
def builtinGreatestIntSig.vectorized : Bool := true

/-- Embeds `builtinGEIntSig.vectorized` (lines 166-168). -/
def builtinGEIntSig.vectorized : Bool := false

/-- Embeds `builtinGEIntSig.vecEvalInt` (lines 170-172). -/
def builtinGEIntSig.vecEvalInt {α : Type} (_args : List (Expr α)) (_n : Nat) (pool : Pool α)
    (result : Column α) : Outcome α α :=
  notImplemented pool result

/-- Embeds `builtinLeastRealSig.vectorized` (lines 174-176). -/
def builtinLeastRealSig.vectorized : Bool := true

/-- Embeds `builtinLeastStringSig.vectorized` (lines 209-211). -/
def builtinLeastStringSig.vectorized : Bool := true

/-- Embeds `builtinEQIntSig.vectorized` (lines 261-263). -/
def builtinEQIntSig.vectorized : Bool := false

/-- Embeds `builtinEQIntSig.vecEvalInt` (lines 265-267). -/
def builtinEQIntSig.vecEvalInt {α : Type} (_args : List (Expr α)) (_n : Nat) (pool : Pool α)
    (result : Column α) : Outcome α α :=
  notImplemented pool result

/-- Embeds `builtinNEIntSig.vectorized` (lines 269-271). -/
def builtinNEIntSig.vectorized : Bool := false

/-- Embeds `builtinNEIntSig.vecEvalInt` (lines 273-275). -/
def builtinNEIntSig.vecEvalInt {α : Type} (_args : List (Expr α)) (_n : Nat) (pool : Pool α)
    (result : Column α) : Outcome α α :=
  notImplemented pool result

/-- Embeds `builtinGTIntSig.vectorized` (lines 277-279). -/
def builtinGTIntSig.vectorized : Bool := true

/-- Embeds `builtinCoalesceDurationSig.vectorized` (lines 309-311). -/
def builtinCoalesceDurationSig.vectorized : Bool := false

/-- Embeds `builtinCoalesceDurationSig.vecEvalDuration` (lines 313-315). -/
def builtinCoalesceDurationSig.vecEvalDuration {α : Type} (_args : List (Expr α)) (_n : Nat)
    (pool : Pool α) (result : Column α) : Outcome α α :=
  notImplemented pool result

/-- Embeds `builtinNullEQIntSig.vectorized` (lines 317-319). -/
def builtinNullEQIntSig.vectorized : Bool := false

/-- Embeds `builtinNullEQIntSig.vecEvalInt` (lines 321-323). -/
def builtinNullEQIntSig.vecEvalInt {α : Type} (_args : List (Expr α)) (_n : Nat)
    (pool : Pool α) (result : Column α) : Outcome α α :=
  notImplemented pool result

/-- Embeds `builtinCoalesceRealSig.vectorized` (lines 325-327). -/
def builtinCoalesceRealSig.vectorized : Bool := false

/-- Embeds `builtinCoalesceRealSig.vecEvalReal` (lines 329-331). -/
def builtinCoalesceRealSig.vecEvalReal {α : Type} (_args : List (Expr α)) (_n : Nat)
    (pool : Pool α) (result : Column α) : Outcome α α :=
  notImplemented pool result

/-- Embeds `builtinCoalesceStringSig.vectorized` (lines 333-335). -/
def builtinCoalesceStringSig.vectorized : Bool := false

/-- Embeds `builtinCoalesceStringSig.vecEvalString` (lines 337-339). -/
def builtinCoalesceStringSig.vecEvalString {α : Type} (_args : List (Expr α)) (_n : Nat)
    (pool : Pool α) (result : Column α) : Outcome α α :=
  notImplemented pool result

/-- Embeds `builtinIntervalIntSig.vectorized` (lines 341-343). -/
def builtinIntervalIntSig.vectorized : Bool := true

/-- Embeds `builtinIntervalRealSig.vectorized` (lines 367-369). -/
def builtinIntervalRealSig.vectorized : Bool := true

/-- Embeds `builtinLEIntSig.vectorized` (lines 400-402). -/
def builtinLEIntSig.vectorized : Bool := true

/-- Embeds `builtinCoalesceDecimalSig.vectorized` (lines 432-434). -/
def builtinCoalesceDecimalSig.vectorized : Bool := false

/-- Embeds `builtinCoalesceDecimalSig.vecEvalDecimal` (lines 436-438). -/
def builtinCoalesceDecimalSig.vecEvalDecimal {α : Type} (_args : List (Expr α)) (_n : Nat)
    (pool : Pool α) (result : Column α) : Outcome α α :=
  notImplemented pool result

/-- Embeds `builtinLTIntSig.vectorized` (lines 440-442). -/
def builtinLTIntSig.vectorized : Bool := true

/-- Embeds `builtinCoalesceIntSig.vectorized` (lines 519-521). -/
def builtinCoalesceIntSig.vectorized : Bool := false

/-- Embeds `builtinCoalesceIntSig.vecEvalInt` (lines 523-525). -/
def builtinCoalesceIntSig.vecEvalInt {α : Type} (_args : List (Expr α)) (_n : Nat)
    (pool : Pool α) (result : Column α) : Outcome α α :=
  notImplemented pool result

/-- Embeds `builtinGreatestTimeSig.vectorized` (lines 527-529). -/
def builtinGreatestTimeSig.vectorized : Bool := false

/-- Embeds `builtinGreatestTimeSig.vecEvalString` (lines 531-533). -/
def builtinGreatestTimeSig.vecEvalString {α : Type} (_args : List (Expr α)) (_n : Nat)
    (pool : Pool α) (result : Column α) : Outcome α α :=
  notImplemented pool result

/-- Embeds `builtinCoalesceTimeSig.vectorized` (lines 535-537). -/
def builtinCoalesceTimeSig.vectorized : Bool := false

/-- Embeds `builtinCoalesceTimeSig.vecEvalTime` (lines 539-541). -/
def builtinCoalesceTimeSig.vecEvalTime {α : Type} (_args : List (Expr α)) (_n : Nat)
    (pool : Pool α) (result : Column α) : Outcome α α :=
  notImplemented pool result

/-- Embeds `builtinCoalesceJSONSig.vectorized` (lines 543-545). -/
def builtinCoalesceJSONSig.vectorized : Bool := false

/-- Embeds `builtinCoalesceJSONSig.vecEvalJSON` (lines 547-549). -/
def builtinCoalesceJSONSig.vecEvalJSON {α : Type} (_args : List (Expr α)) (_n : Nat)
    (pool : Pool α) (result : Column α) : Outcome α α :=
  notImplemented pool result

/-- Embeds `builtinGreatestRealSig.vectorized` (lines 551-553). -/
def builtinGreatestRealSig.vectorized : Bool := true

/-- Embeds `builtinLeastTimeSig.vectorized` (lines 586-588). -/
def builtinLeastTimeSig.vectorized : Bool := false

/-- Embeds `builtinLeastTimeSig.vecEvalString` (lines 590-592). -/
def builtinLeastTimeSig.vecEvalString {α : Type} (_args : List (Expr α)) (_n : Nat)
    (pool : Pool α) (result : Column α) : Outcome α α :=
  notImplemented pool result

/-- Embeds `builtinGreatestStringSig.vectorized` (lines 594-596). -/
def builtinGreatestStringSig.vectorized : Bool := true

/-! ## Helpers for stating the theorems and for examples -/

/-- An operand whose batch evaluation succeeds and writes the column `c`;
at a row it evaluates to the value `c` holds there. -/
def Expr.ofColumn {α : Type} (c : Column α) : Expr α :=
  { VecEval := .ok c
    Eval := fun i =>
      match c.nulls[i]?, c.data[i]? with
      | some false, some v => .ok (some v)
      | _, _ => .ok none
    unsigned := false }

/-- An operand whose batch evaluation fails with `e`. -/
def Expr.failing {α : Type} (e : Error) : Expr α :=
  { VecEval := .error e, Eval := fun _ => .error e, unsigned := false }

/-- A column given row by row, `none` for a null row (stored value `zero`). -/
def Column.ofRows {α : Type} (zero : α) (vals : List (Option α)) : Column α :=
  ⟨vals.map Option.isNone, vals.map (·.getD zero)⟩

/-- A pool with no released column and `k` allocations left. -/
def Pool.ofFresh {α : Type} (k : Nat) : Pool α := ⟨[], k, ⟨"out of memory"⟩, 0⟩

/-- Says that the next `k` leases succeed. -/
def Pool.CanLease {α : Type} (p : Pool α) (k : Nat) : Prop := k ≤ p.free.length + p.fresh

/-- Says that every operand evaluates without an error to a column of `n`
rows, the columns being `cols` in the order of the operands. -/
def Evaluates {α : Type} (args : List (Expr α)) (cols : List (Column α)) (n : Nat) : Prop :=
  args.map (·.VecEval) = cols.map Except.ok ∧ ∀ c ∈ cols, c.HasRows n

/-- The values the columns hold at row `i`. -/
def rowValues {α : Type} (cols : List (Column α)) (i : Nat) : List α :=
  cols.filterMap (·.data[i]?)

/-- Says that some column is null at row `i`. -/
def anyNull {α : Type} (cols : List (Column α)) (i : Nat) : Bool :=
  cols.any (·.IsNull i)

/-- The slot of row `j`: its null flag and its stored value, when it has them. -/
def Column.row {α : Type} (c : Column α) (j : Nat) : Option Bool × Option α :=
  (c.nulls[j]?, c.data[j]?)

/-- The contract of one fold step of a fixed-width reduction on columns of `n`
rows: the row count is kept, a row is null afterwards iff it was null in
`result` or is null in `buf`, and the stored value is replaced by that of
`buf` exactly when neither is null and `better` holds. -/
def FoldsRows {α : Type} (better : α → α → Bool) (n : Nat)
    (step : Column α → Column α → Column α) : Prop :=
  ∀ buf result : Column α, buf.HasRows n → result.HasRows n →
    (step buf result).HasRows n ∧
    ∀ (i : Nat) (v cur : α), buf.data[i]? = some v → result.data[i]? = some cur →
      (step buf result).IsNull i = (result.IsNull i || buf.IsNull i) ∧
      (step buf result).data[i]? =
        some (if (result.IsNull i || buf.IsNull i) then cur
          else if better v cur then v else cur)

/-- The part of `FoldsRows` that the result of a reduction depends on: the
row count, the null flags, and the stored value of the rows that are not null
afterwards. -/
def PicksRows {α : Type} (better : α → α → Bool) (n : Nat)
    (step : Column α → Column α → Column α) : Prop :=
  ∀ buf result : Column α, buf.HasRows n → result.HasRows n →
    (step buf result).HasRows n ∧
    ∀ (i : Nat) (v cur : α), buf.data[i]? = some v → result.data[i]? = some cur →
      (step buf result).IsNull i = (result.IsNull i || buf.IsNull i) ∧
      ((result.IsNull i || buf.IsNull i) = false →
        (step buf result).data[i]? = some (if better v cur then v else cur))

/-- The running best after folding the values `vs` into `x`: a value replaces
the best when `better` says so. -/
def foldBest {α : Type} (better : α → α → Bool) (x : α) (vs : List α) : α :=
  vs.foldl (fun cur v => if better v cur then v else cur) x

/-! ## Concrete inputs -/

/-- Two Integer operand columns of two rows: `(3, -1)` and `(2, NULL)`. -/
def sampleIntCols : List (Column Int) :=
  [Column.ofRows 0 [some 3, some (-1)], Column.ofRows 0 [some 2, none]]

/-- Two Decimal operand columns of two rows, the decimals written as integers:
`(3, -1)` and `(2, NULL)`. -/
def sampleDecimalCols : List (Column Int) :=
  [Column.ofRows 0 [some 3, some (-1)], Column.ofRows 0 [some 2, none]]

/-- A three-way comparison, standing for `MyDecimal.Compare` on the sample. -/
def sampleCompare (a b : Int) : Int := Int.sign (a - b)

/-- Says that the next `k` leases succeed and return columns with no rows. -/
def Pool.LeasesEmpty {α : Type} (p : Pool α) (k : Nat) : Prop :=
  k ≤ p.free.length + p.fresh ∧ ∀ c ∈ p.free.take k, c = Column.empty

/-- One step of the string reductions seen as a function of the columns
`arg` and `src`: the column built in a `dst` that starts with no rows. -/
def stringStep (keepSrc : List Nat → List Nat → Bool) (n : Nat)
    (arg src : Column (List Nat)) : Column (List Nat) :=
  stringRows keepSrc n src arg Column.empty

/-- Three String operand columns of two rows, the strings as lists of bytes:
`("b", "a")`, `("ab", NULL)` and `("a", "c")`. -/
def sampleStringCols : List (Column (List Nat)) :=
  [Column.ofRows [] [some [98], some [97]], Column.ofRows [] [some [97, 98], none],
    Column.ofRows [] [some [97], some [99]]]

/-- The operands of a first call `GREATEST("a", "b")` / `LEAST("a", "b")` on
one row. -/
def firstCallArgs : List (Expr (List Nat)) :=
  [Expr.ofColumn (Column.ofRows [] [some [97]]), Expr.ofColumn (Column.ofRows [] [some [98]])]

/-- The operands of a second call `GREATEST("x", "y")` / `LEAST("x", "y")` on
one row. -/
def secondCallArgs : List (Expr (List Nat)) :=
  [Expr.ofColumn (Column.ofRows [] [some [120]]), Expr.ofColumn (Column.ofRows [] [some [121]])]

/-- The mathematical integer a stored 64-bit pattern stands for: read as
unsigned when the flag of the operand is set, as signed otherwise. -/
def readAs (isUnsigned : Bool) (x : Int) : Int :=
  if isUnsigned then (toUint64 x : Int) else x

/-- Modelled from the spec: a delta kernel as §4.3 step 3 describes it,
writing at each row both operands have the sign (`-1`, `0` or `1`) of the
difference of the two values. -/
def signKernel {A B : Type} (toA : A → Int) (toB : B → Int) :
    List A → List B → List Int → List Int
  | a :: x, b :: y, _ :: res => Int.sign (toA a - toB b) :: signKernel toA toB x y res
  | _, _, res => res

/-- Modelled from the spec: the four kernels of `types`, each a `signKernel`. -/
def signKernels : CompareKernels :=
  { VecCompareUU := signKernel (fun a : Nat => (a : Int)) (fun b : Nat => (b : Int))
    VecCompareUI := signKernel (fun a : Nat => (a : Int)) (fun b : Int => b)
    VecCompareIU := signKernel (fun a : Int => a) (fun b : Nat => (b : Int))
    VecCompareII := signKernel (fun a : Int => a) (fun b : Int => b) }

/-- The operands of `a < b` on three rows: `a`, flagged unsigned, holds the
bit patterns of `-1`, `0` and `5`; `b`, signed, holds `9223372036854775807`,
`NULL` and `7`. -/
def sampleCompareArgs : List (Expr Int) :=
  [{ Expr.ofColumn (Column.ofRows 0 [some (-1), some 0, some 5]) with unsigned := true },
    Expr.ofColumn (Column.ofRows 0 [some 9223372036854775807, none, some 7])]

/-- The columns `sampleCompareArgs` evaluate to. -/
def sampleCompareCols : List (Column Int) :=
  [Column.ofRows 0 [some (-1), some 0, some 5],
    Column.ofRows 0 [some 9223372036854775807, none, some 7]]

/-- Says that the batch entry point `f` is the body
`return errors.Errorf("not implemented")`: on every input it returns that
error, with `result` and the pool as they were and no event. -/
def IsNotImplemented {α : Type}
    (f : List (Expr α) → Nat → Pool α → Column α → Outcome α α) : Prop :=
  ∀ args n pool result,
    f args n pool result = ⟨some (errors.Errorf "not implemented"), result, pool, []⟩

/-- Says that the batch entry point `f`, called with at least `k` operands,
makes no error of its own: an error it returns is the error of a failed
lease, the error the batch evaluation of an operand returned, or an error from
`search`. -/
def ForwardsErrors {α β γ : Type} (k : Nat)
    (f : List (Expr α) → Nat → Pool β → Column γ → Outcome γ β)
    (search : List (Expr α) → Error → Prop) : Prop :=
  ∀ args n pool result e, k ≤ args.length → (f args n pool result).err = some e →
    e = pool.allocErr ∨ (∃ a ∈ args, a.VecEval = Except.error e) ∨ search args e

/-- No other source of errors. -/
def noSearch {α : Type} (_args : List (Expr α)) (_e : Error) : Prop := False

/-- The errors the boundary search `binSearch` of `builtinIntervalIntSig` can
return on the boundaries of `args`. -/
def searchErrorsInt (binSearch : Int → Bool → List (Expr Int) → Nat → Except Error Int)
    (args : List (Expr Int)) (e : Error) : Prop :=
  ∃ v u i, binSearch v u (args.drop 1) i = Except.error e

/-- The errors the boundary search `binSearch` of `builtinIntervalRealSig`
can return on the boundaries of `args`. -/
def searchErrorsReal {F : Type} (binSearch : F → List (Expr F) → Nat → Except Error Int)
    (args : List (Expr F)) (e : Error) : Prop :=
  ∃ v i, binSearch v (args.drop 1) i = Except.error e

/-- A constant operand: every row evaluates to `v`; its batch evaluation
writes `n` rows holding `v`. -/
def Expr.constant {α : Type} (n : Nat) (v : α) : Expr α :=
  { VecEval := .ok ⟨List.replicate n false, List.replicate n v⟩
    Eval := fun _ => .ok (some v)
    unsigned := false }

/-- The operands of `INTERVAL(t, 1, 3, 5, 9)` on two rows, the target `t`
being `NULL` at row 0 and `5` at row 1. -/
def sampleIntervalArgs : List (Expr Int) :=
  [Expr.ofColumn (Column.ofRows 0 [none, some 5]), Expr.constant 2 1, Expr.constant 2 3,
    Expr.constant 2 5, Expr.constant 2 9]

/-- A stand-in for the boundary search of the Int variant in the examples: it
reads nothing and returns index 0.  The search `binSearch` itself is not among
the sources, and no property of it is assumed anywhere. -/
def sampleIntSearch (_target : Int) (_isUint1 : Bool) (_args : List (Expr Int))
    (_row : Nat) : Except Error Int :=
  .ok 0

/-- A stand-in for the boundary search of the Real variant in the examples,
the reals written as integers: it reads nothing and returns index 0. -/
def sampleRealSearch (_target : Int) (_args : List (Expr Int)) (_row : Nat) :
    Except Error Int :=
  .ok 0

/-- A pool whose next two leases return a column with no rows and a column
that still holds one null row. -/
def staleNullPool : Pool (List Nat) :=
  ⟨[Column.empty, ⟨[true], [[]]⟩], 0, ⟨"out of memory"⟩, 0⟩

/-! ## Failing calls -/

/-- Says that operand `j` is the first operand whose batch evaluation fails,
and that it fails with `e`: the operands before it evaluate to a column. -/
def FirstFailure {α : Type} (args : List (Expr α)) (j : Nat) (e : Error) : Prop :=
  (∃ a, args[j]? = some a ∧ a.VecEval = Except.error e) ∧
  ∀ k, k < j → ∃ a c, args[k]? = some a ∧ a.VecEval = Except.ok c

/-- The number of leases the pool can still grant. -/
def Pool.capacity {α : Type} (p : Pool α) : Nat := p.free.length + p.fresh

/-- The events `eval a`, `eval (a+1)`, ..., `eval (a+len-1)`. -/
def evals (a len : Nat) : List Event := (List.range' a len).map Event.eval

/-- Fail-fast for the shape of the fixed-width `GREATEST`/`LEAST` signatures.
When the lease fails the call returns the error of the pool and does nothing
else.  When the lease succeeds and operand `j` is the first one to fail, with
`e`, the call returns `e`, having evaluated the operands `0 .. j` and nothing
after, and released the leased column. -/
def FailFastFixed {α : Type}
    (f : List (Expr α) → Nat → Pool α → Column α → Outcome α α) : Prop :=
  ∀ args n pool result,
    (pool.capacity = 0 →
      (f args n pool result).err = some pool.allocErr ∧
      (f args n pool result).log = [.get 0]) ∧
    (∀ j e, pool.CanLease 1 → FirstFailure args j e →
      (f args n pool result).err = some e ∧
      (f args n pool result).log = [.get 0] ++ evals 0 (j + 1) ++ [.put 0])

/-- Fail-fast for the shape of the string `GREATEST`/`LEAST` signatures, in
the order of the steps: operand 0, the lease of `buf1`, the lease of `buf2`,
the operands from 1 on.  The call returns the error of the first step that
fails and does nothing after it but release what it had leased. -/
def FailFastString
    (f : List (Expr (List Nat)) → Nat → Pool (List Nat) → Column (List Nat) →
      Outcome (List Nat) (List Nat)) : Prop :=
  ∀ args n pool result,
    (∀ e, FirstFailure args 0 e →
      (f args n pool result).err = some e ∧ (f args n pool result).log = [.eval 0]) ∧
    (∀ c, vecEvalArg args 0 = Except.ok c → pool.capacity = 0 →
      (f args n pool result).err = some pool.allocErr ∧
      (f args n pool result).log = [.eval 0, .get 0]) ∧
    (∀ c, vecEvalArg args 0 = Except.ok c → pool.capacity = 1 →
      (f args n pool result).err = some pool.allocErr ∧
      (f args n pool result).log = [.eval 0, .get 0, .get 1, .put 0]) ∧
    (∀ j e, pool.CanLease 2 → FirstFailure args (j + 1) e →
      (f args n pool result).err = some e ∧
      (f args n pool result).log
        = [.eval 0, .get 0, .get 1] ++ evals 1 (j + 1) ++ [.put 1, .put 0])

/-- Fail-fast for the shape of the Integer relational signatures, in the
order of the steps: the lease of `buf0`, operand 0, the lease of `buf1`,
operand 1.  The call returns the error of the first step that fails and does
nothing after it but release what it had leased. -/
def FailFastCompare
    (f : List (Expr Int) → Nat → Pool Int → Column Int → Outcome Int Int) : Prop :=
  ∀ args n pool result,
    (pool.capacity = 0 →
      (f args n pool result).err = some pool.allocErr ∧
      (f args n pool result).log = [.get 0]) ∧
    (∀ e, pool.CanLease 1 → FirstFailure args 0 e →
      (f args n pool result).err = some e ∧
      (f args n pool result).log = [.get 0, .eval 0, .put 0]) ∧
    (∀ c, vecEvalArg args 0 = Except.ok c → pool.capacity = 1 →
      (f args n pool result).err = some pool.allocErr ∧
      (f args n pool result).log = [.get 0, .eval 0, .get 1, .put 0]) ∧
    (∀ e, pool.CanLease 2 → FirstFailure args 1 e →
      (f args n pool result).err = some e ∧
      (f args n pool result).log = [.get 0, .eval 0, .get 1, .eval 1, .put 1, .put 0])

/-- What the boundary search of `builtinIntervalIntSig.vecEvalInt` returns for
row `r` of the target column `c` (`.ok 0` for a row `c` does not have). -/
def targetSearchInt (binSearch : Int → Bool → List (Expr Int) → Nat → Except Error Int)
    (args : List (Expr Int)) (c : Column Int) (r : Nat) : Except Error Int :=
  match c.data[r]? with
  | some v => binSearch v (hasUnsignedFlag args 0) (args.drop 1) r
  | none => .ok 0

/-- What the boundary search of `builtinIntervalRealSig.vecEvalInt` returns
for row `r` of the target column `c` (`.ok 0` for a row `c` does not have). -/
def targetSearchReal {F : Type} (binSearch : F → List (Expr F) → Nat → Except Error Int)
    (args : List (Expr F)) (c : Column F) (r : Nat) : Except Error Int :=
  match c.data[r]? with
  | some v => binSearch v (args.drop 1) r
  | none => .ok 0

/-- Says that row `i` is the first row at which the boundary search fails,
and that it fails with `e`: the target is not null at row `i`, and at the
rows before `i` where the target is not null the search returns an index. -/
def FirstSearchFailure (isNull : Nat → Bool) (search : Nat → Except Error Int) (i : Nat)
    (e : Error) : Prop :=
  isNull i = false ∧ search i = Except.error e ∧
  ∀ r, r < i → isNull r = false → ∃ idx, search r = Except.ok idx

/-- The events `binSearch r` for the rows `r` among `a .. a+len-1` at which
the target column `c` is not null. -/
def searches {α : Type} (c : Column α) (a len : Nat) : List Event :=
  ((List.range' a len).filter (fun r => !c.IsNull r)).map Event.binSearch

/-- Fail-fast for `builtinIntervalIntSig.vecEvalInt`.  When operand 0 fails
the call returns its error and does nothing else.  When operand 0 evaluates
to `c` and row `i` is the first row at which the boundary search fails, with
`e`, the call returns `e`, the search has run for the non-null rows before
`i` and for row `i` and for no row after, and the rows from `i` on are as
operand 0 wrote them. -/
def FailFastIntervalInt
    (binSearch : Int → Bool → List (Expr Int) → Nat → Except Error Int) : Prop :=
  ∀ args n pool result,
    (∀ e, FirstFailure args 0 e →
      (builtinIntervalIntSig.vecEvalInt binSearch args n pool result).err = some e ∧
      (builtinIntervalIntSig.vecEvalInt binSearch args n pool result).log = [.eval 0]) ∧
    (∀ c i e, vecEvalArg args 0 = Except.ok c → i < c.data.length →
      FirstSearchFailure c.IsNull (targetSearchInt binSearch args c) i e →
      (builtinIntervalIntSig.vecEvalInt binSearch args n pool result).err = some e ∧
      (builtinIntervalIntSig.vecEvalInt binSearch args n pool result).log
        = [.eval 0] ++ searches c 0 i ++ [.binSearch i] ∧
      ∀ r, i ≤ r →
        (builtinIntervalIntSig.vecEvalInt binSearch args n pool result).result.row r = c.row r)

/-- Fail-fast for `builtinIntervalRealSig.vecEvalInt`, in the order of the
steps: the lease, operand 0, the rows.  The call returns the error of the
first step that fails and does nothing after it but release the leased
column; when the boundary search fails first at row `i`, no row after `i` is
searched and the rows from `i` on are as `ResizeInt64` left them. -/
def FailFastIntervalReal {F : Type}
    (binSearch : F → List (Expr F) → Nat → Except Error Int) : Prop :=
  ∀ args n pool result,
    (pool.capacity = 0 →
      (builtinIntervalRealSig.vecEvalInt binSearch args n pool result).err
        = some pool.allocErr ∧
      (builtinIntervalRealSig.vecEvalInt binSearch args n pool result).log = [.get 0]) ∧
    (∀ e, pool.CanLease 1 → FirstFailure args 0 e →
      (builtinIntervalRealSig.vecEvalInt binSearch args n pool result).err = some e ∧
      (builtinIntervalRealSig.vecEvalInt binSearch args n pool result).log
        = [.get 0, .eval 0, .put 0]) ∧
    (∀ c i e, pool.CanLease 1 → vecEvalArg args 0 = Except.ok c → i < n →
      i < c.data.length →
      FirstSearchFailure c.IsNull (targetSearchReal binSearch args c) i e →
      (builtinIntervalRealSig.vecEvalInt binSearch args n pool result).err = some e ∧
      (builtinIntervalRealSig.vecEvalInt binSearch args n pool result).log
        = [.get 0, .eval 0] ++ searches c 0 i ++ [.binSearch i, .put 0] ∧
      ∀ r, i ≤ r →
        (builtinIntervalRealSig.vecEvalInt binSearch args n pool result).result.row r
          = (result.Resize 0 n false).row r)

/-- An operand column holding `5` and `7`, then an operand that fails with
`e`, then one more operand column. -/
def failingSecondArgs (e : Error) : List (Expr Int) :=
  [Expr.ofColumn (Column.ofRows 0 [some 5, some 7]), Expr.failing e,
    Expr.ofColumn (Column.ofRows 0 [some 1, some 2])]

/-! ## The balance of leases and releases -/

/-- Tells the lease and release events from the others. -/
def Event.isLease : Event → Bool
  | .get _ => true
  | .put _ => true
  | _ => false

/-- The lease and release events of a call, in order. -/
def leaseEvents (log : List Event) : List Event := log.filter Event.isLease

/-- Says that the call that started with `pool` and ended as `out` kept lease
and release balanced: the number of outstanding leases and the number of
columns the pool can lend are as before the call, and for every `k` the column
of the `k`-th lease was released exactly once if that lease took place and
succeeded (the `k`-th lease succeeds iff the pool could lend more than `k`
columns), and never otherwise. -/
def Balanced {α β : Type} (pool : Pool β) (out : Outcome α β) : Prop :=
  out.pool.leased = pool.leased ∧ out.pool.capacity = pool.capacity ∧
  ∀ k, out.log.count (Event.put k)
    = if Event.get k ∈ out.log ∧ k < pool.capacity then 1 else 0

/-- Says that the batch entry point `f` keeps lease and release balanced on
every input, whether it returns an error or not. -/
def KeepsBalance {α β γ : Type}
    (f : List (Expr α) → Nat → Pool β → Column γ → Outcome γ β) : Prop :=
  ∀ args n pool result, Balanced pool (f args n pool result)

/-- The state in which the loop of the string reductions starts: `src` is
`result`, `arg` is `buf1`, `dst` is `buf2`. -/
def stringStart (h : Heap) (log : List Event) : StringState :=
  ⟨none, h, .result, .buf1, .buf2, log⟩

/-- Two operands flagged unsigned, of one row: the first holds the bit
pattern `0xFFFFFFFFFFFFFFFF` (stored as the signed `-1`), the second `1`. -/
def unsignedPairArgs : List (Expr Int) :=
  [{ Expr.ofColumn (Column.ofRows 0 [some (-1)]) with unsigned := true },
    { Expr.ofColumn (Column.ofRows 0 [some 1]) with unsigned := true }]

/-- The fold step of `GREATEST` over Decimal written in the bulk form of the
other fixed-width reductions (as lines 78-87 do for `LEAST`):
`result.MergeNulls(buf)`, then the row loop that skips the null rows of
`result` and replaces the value when `v.Compare(&d64s[i]) > 0`. -/
def greatestDecimalBulkStep {α : Type} (Compare : α → α → Int) (n : Nat)
    (buf result : Column α) : Column α :=
  updateRows (fun v cur => decide (Compare v cur > 0)) n buf (result.MergeNulls [buf])

/-! # Theorems -/

/-! ## Loops over the rows -/

theorem foldl_keeps {σ ι : Type} (P : σ → Prop) (f : σ → ι → σ)
    (hstep : ∀ s i, P s → P (f s i)) (l : List ι) (s : σ) (h0 : P s) :
    P (l.foldl f s) := by
  induction l generalizing s with
  | nil => simpa using h0
  | cons i l ih => simpa using ih (f s i) (hstep s i h0)

/-- A loop over the rows `0 .. n-1` whose body at row `i` rewrites the slot of
row `i` by `g i` and leaves the other slots alone rewrites every slot below
`n` by `g` and leaves the slots from `n` on alone. -/
theorem row_foldl_range {α : Type} (f : Column α → Nat → Column α)
    (g : Nat → Option Bool × Option α → Option Bool × Option α)
    (hf : ∀ c i j, (f c i).row j = if j = i then g i (c.row i) else c.row j)
    (n : Nat) (c : Column α) (j : Nat) :
    ((List.range n).foldl f c).row j = if j < n then g j (c.row j) else c.row j := by
  induction n with
  | zero => simp
  | succ n ih =>
    rw [List.range_succ, List.foldl_append]
    simp only [List.foldl_cons, List.foldl_nil]
    rw [hf]
    by_cases hj : j = n
    · subst hj
      rw [if_pos rfl, ih]
      simp
    · rw [if_neg hj, ih]
      by_cases hlt : j < n
      · have : j < n + 1 := by omega
        simp [hlt, this]
      · have : ¬ j < n + 1 := by omega
        simp [hlt, this]

theorem Column.row_eq {α : Type} (c : Column α) (j : Nat) :
    c.row j = (c.nulls[j]?, c.data[j]?) := rfl

theorem Column.isNull_eq {α : Type} (c : Column α) (j : Nat) :
    c.IsNull j = ((c.row j).1).getD false := rfl

theorem Column.orNulls_length (d s : List Bool) : (Column.orNulls d s).length = d.length := by
  induction d generalizing s with
  | nil => simp [Column.orNulls]
  | cons a d ih => cases s <;> simp [Column.orNulls, ih]

theorem Column.orNulls_getElem? (d s : List Bool) (i : Nat) :
    (Column.orNulls d s)[i]? = (d[i]?).map (fun a => a || (s[i]?).getD false) := by
  induction d generalizing s i with
  | nil => simp [Column.orNulls]
  | cons a d ih =>
    cases s with
    | nil => cases i <;> simp [Column.orNulls]
    | cons b s => cases i <;> simp [Column.orNulls, ih]

theorem Column.mergeNulls_one {α : Type} (c b : Column α) :
    c.MergeNulls [b] = { c with nulls := Column.orNulls c.nulls b.nulls } := rfl

/-! ## One fold step of the fixed-width reductions -/

theorem updateRows_row {α : Type} (better : α → α → Bool) (n : Nat) (buf result : Column α)
    (j : Nat) :
    (updateRows better n buf result).row j =
      if j < n then
        ((result.row j).1,
          if ((result.row j).1).getD false then (result.row j).2
          else
            match buf.data[j]?, (result.row j).2 with
            | some v, some cur => some (if better v cur then v else cur)
            | _, _ => (result.row j).2)
      else result.row j := by
  unfold updateRows
  refine row_foldl_range _
    (fun i r => (r.1,
      if (r.1).getD false then r.2
      else
        match buf.data[i]?, r.2 with
        | some v, some cur => some (if better v cur then v else cur)
        | _, _ => r.2)) ?_ n result j
  intro c i k
  by_cases hk : k = i
  · subst hk
    simp only [if_true]
    by_cases hnull : c.IsNull k = true
    · have h2 : ((c.row k).1).getD false = true := by rw [← Column.isNull_eq]; exact hnull
      simp [hnull, h2]
    · have h2 : ¬ ((c.row k).1).getD false = true := by rw [← Column.isNull_eq]; exact hnull
      simp only [hnull, h2, if_false, Bool.false_eq_true]
      cases hb : buf.data[k]? with
      | none => simp [Column.row_eq]
      | some v =>
        cases hc : c.data[k]? with
        | none => simp [Column.row_eq, hc]
        | some cur =>
          have hlt : k < c.data.length := (List.getElem?_eq_some.mp hc).1
          by_cases hbt : better v cur = true
          · simp [Column.row_eq, hc, hbt, List.getElem?_set, hlt]
          · simp [Column.row_eq, hc, hbt]
  · simp only [if_neg hk]
    by_cases hnull : c.IsNull i = true
    · simp [hnull]
    · simp only [hnull, if_false, Bool.false_eq_true]
      cases hb : buf.data[i]? with
      | none => simp
      | some v =>
        cases hc : c.data[i]? with
        | none => simp
        | some cur =>
          by_cases hbt : better v cur = true
          · have : ¬ i = k := fun h => hk h.symm
            simp [Column.row_eq, hbt, List.getElem?_set, this]
          · simp [hbt]

theorem updateRows_hasRows {α : Type} (better : α → α → Bool) (n m : Nat)
    (buf result : Column α) (hr : result.HasRows m) :
    (updateRows better n buf result).HasRows m := by
  unfold updateRows
  refine foldl_keeps (fun c : Column α => c.HasRows m) _ ?_ _ result hr
  intro c i hc
  by_cases hnull : c.IsNull i = true
  · simpa [hnull] using hc
  · simp only [hnull, if_false, Bool.false_eq_true]
    cases hb : buf.data[i]? with
    | none => simpa using hc
    | some v =>
      cases hd : c.data[i]? with
      | none => simpa using hc
      | some cur =>
        by_cases hbt : better v cur = true
        · simp only [hbt, if_true]
          exact ⟨hc.1, by simpa using hc.2⟩
        · simpa [hbt] using hc

theorem mergeStep_foldsRows {α : Type} (better : α → α → Bool) (n : Nat) :
    FoldsRows better n (mergeStep better n) := by
  intro buf result hb hr
  have hm : (result.MergeNulls [buf]).HasRows n := by
    rw [Column.mergeNulls_one]
    exact ⟨by simpa [Column.orNulls_length] using hr.1, hr.2⟩
  refine ⟨updateRows_hasRows better n n buf _ hm, ?_⟩
  intro i v cur hv hcur
  have hi : i < n := by
    have := (List.getElem?_eq_some.mp hcur).1
    rw [hr.2] at this; exact this
  have hrow := updateRows_row better n buf (result.MergeNulls [buf]) i
  rw [if_pos hi] at hrow
  have hmrow : (result.MergeNulls [buf]).row i
      = ((result.nulls[i]?).map (fun a => a || (buf.nulls[i]?).getD false), some cur) := by
    rw [Column.mergeNulls_one, Column.row_eq]
    simp [Column.orNulls_getElem?, hcur]
  have hrn : i < result.nulls.length := by rw [hr.1]; exact hi
  have hrn2 : result.nulls[i]? = some result.nulls[i] := List.getElem?_eq_getElem hrn
  have hnull : (((result.nulls[i]?).map (fun a => a || (buf.nulls[i]?).getD false))).getD false
      = (result.IsNull i || buf.IsNull i) := by
    simp [Column.IsNull, hrn2]
  rw [hmrow] at hrow
  simp only [hnull, hv] at hrow
  constructor
  · unfold mergeStep
    rw [Column.isNull_eq, hrow]; exact hnull
  · have h2 : (updateRows better n buf (result.MergeNulls [buf])).data[i]?
        = ((updateRows better n buf (result.MergeNulls [buf])).row i).2 := rfl
    unfold mergeStep
    rw [h2, hrow]
    by_cases hx : (result.IsNull i || buf.IsNull i) = true
    · simp [hx]
    · simp [hx]

theorem greatestDecimalStep_row {α : Type} (Compare : α → α → Int) (n : Nat)
    (buf result : Column α) (j : Nat) :
    (greatestDecimalStep Compare n buf result).row j =
      if j < n then
        (if ((result.row j).1).getD false then result.row j
          else if buf.IsNull j then (((result.row j).1).map (fun _ => true), (result.row j).2)
          else
            ((result.row j).1,
              match buf.data[j]?, (result.row j).2 with
              | some v, some cur => some (if Compare v cur > 0 then v else cur)
              | _, _ => (result.row j).2))
      else result.row j := by
  unfold greatestDecimalStep
  refine row_foldl_range _
    (fun i r =>
      if (r.1).getD false then r
      else if buf.IsNull i then ((r.1).map (fun _ => true), r.2)
      else
        (r.1,
          match buf.data[i]?, r.2 with
          | some v, some cur => some (if Compare v cur > 0 then v else cur)
          | _, _ => r.2)) ?_ n result j
  intro c i k
  by_cases hk : k = i
  · subst hk
    simp only [if_true]
    by_cases hnull : c.IsNull k = true
    · have h2 : ((c.row k).1).getD false = true := by rw [← Column.isNull_eq]; exact hnull
      simp [hnull, h2]
    · have h2 : ¬ ((c.row k).1).getD false = true := by rw [← Column.isNull_eq]; exact hnull
      simp only [hnull, h2, if_false, Bool.false_eq_true]
      by_cases hbn : buf.IsNull k = true
      · simp only [hbn, if_true]
        simp only [Column.row_eq, Column.SetNull, List.getElem?_set, if_true]
        cases hcn : c.nulls[k]? with
        | none =>
          have : ¬ k < c.nulls.length := by
            intro hlt
            rw [List.getElem?_eq_getElem hlt] at hcn
            exact Option.noConfusion hcn
          simp [this]
        | some b =>
          have : k < c.nulls.length := (List.getElem?_eq_some.mp hcn).1
          simp [this]
      · simp only [hbn, if_false, Bool.false_eq_true]
        cases hb : buf.data[k]? with
        | none => simp [Column.row_eq]
        | some v =>
          cases hc : c.data[k]? with
          | none => simp [Column.row_eq, hc]
          | some cur =>
            have hlt : k < c.data.length := (List.getElem?_eq_some.mp hc).1
            by_cases hbt : Compare v cur > 0
            · simp [Column.row_eq, hc, hbt, List.getElem?_set, hlt]
            · simp [Column.row_eq, hc, hbt]
  · simp only [if_neg hk]
    have hik : ¬ i = k := fun h => hk h.symm
    by_cases hnull : c.IsNull i = true
    · simp [hnull]
    · simp only [hnull, if_false, Bool.false_eq_true]
      by_cases hbn : buf.IsNull i = true
      · simp [hbn, Column.row_eq, Column.SetNull, List.getElem?_set, hik]
      · simp only [hbn, if_false, Bool.false_eq_true]
        cases hb : buf.data[i]? with
        | none => simp
        | some v =>
          cases hc : c.data[i]? with
          | none => simp
          | some cur =>
            by_cases hbt : Compare v cur > 0
            · simp [Column.row_eq, hbt, List.getElem?_set, hik]
            · simp [hbt]

theorem greatestDecimalStep_hasRows {α : Type} (Compare : α → α → Int) (n m : Nat)
    (buf result : Column α) (hr : result.HasRows m) :
    (greatestDecimalStep Compare n buf result).HasRows m := by
  unfold greatestDecimalStep
  refine foldl_keeps (fun c : Column α => c.HasRows m) _ ?_ _ result hr
  intro c i hc
  by_cases hnull : c.IsNull i = true
  · simpa [hnull] using hc
  · simp only [hnull, if_false, Bool.false_eq_true]
    by_cases hbn : buf.IsNull i = true
    · simp only [hbn, if_true]
      exact ⟨by simpa [Column.SetNull] using hc.1, hc.2⟩
    · simp only [hbn, if_false, Bool.false_eq_true]
      cases hb : buf.data[i]? with
      | none => simpa using hc
      | some v =>
        cases hd : c.data[i]? with
        | none => simpa using hc
        | some cur =>
          by_cases hbt : Compare v cur > 0
          · simp only [hbt, if_true]
            exact ⟨hc.1, by simpa using hc.2⟩
          · simpa [hbt] using hc

theorem greatestDecimalStep_foldsRows {α : Type} (Compare : α → α → Int) (n : Nat) :
    FoldsRows (fun v cur => decide (Compare v cur > 0)) n (greatestDecimalStep Compare n) := by
  intro buf result hb hr
  refine ⟨greatestDecimalStep_hasRows Compare n n buf _ hr, ?_⟩
  intro i v cur hv hcur
  have hi : i < n := by
    have := (List.getElem?_eq_some.mp hcur).1
    rw [hr.2] at this; exact this
  have hrow := greatestDecimalStep_row Compare n buf result i
  rw [if_pos hi] at hrow
  have hrn : i < result.nulls.length := by rw [hr.1]; exact hi
  have hrn2 : result.nulls[i]? = some result.nulls[i] := List.getElem?_eq_getElem hrn
  have hR : result.row i = (some result.nulls[i], some cur) := by
    rw [Column.row_eq, hrn2, hcur]
  have hRn : result.IsNull i = result.nulls[i] := by simp [Column.IsNull, hrn2]
  rw [hR] at hrow
  simp only [Option.getD_some, hv, Option.map_some'] at hrow
  have hd : (greatestDecimalStep Compare n buf result).data[i]?
      = ((greatestDecimalStep Compare n buf result).row i).2 := rfl
  rw [Column.isNull_eq, hd, hrow, hRn]
  by_cases h1 : result.nulls[i] = true
  · simp [h1]
  · by_cases h2 : buf.IsNull i = true
    · simp [h1, h2]
    · simp [h1, h2]

/-! ## The fold over the operands -/

theorem FoldsRows.picks {α : Type} {better : α → α → Bool} {n : Nat}
    {step : Column α → Column α → Column α} (h : FoldsRows better n step) :
    PicksRows better n step := by
  intro buf result hb hr
  obtain ⟨h1, h2⟩ := h buf result hb hr
  refine ⟨h1, ?_⟩
  intro i v cur hv hcur
  obtain ⟨hn, hd⟩ := h2 i v cur hv hcur
  refine ⟨hn, ?_⟩
  intro hnn
  rw [hd, hnn]
  simp

theorem fold_rows {α : Type} (better : α → α → Bool) (n : Nat)
    (step : Column α → Column α → Column α) (hstep : PicksRows better n step)
    (cols : List (Column α)) (hcols : ∀ c ∈ cols, c.HasRows n)
    (r0 : Column α) (hr0 : r0.HasRows n) :
    (cols.foldl (fun r c => step c r) r0).HasRows n ∧
    ∀ (i : Nat) (x : α), r0.data[i]? = some x →
      (cols.foldl (fun r c => step c r) r0).IsNull i = (r0.IsNull i || anyNull cols i) ∧
      ((r0.IsNull i || anyNull cols i) = false →
        (cols.foldl (fun r c => step c r) r0).data[i]?
          = some (foldBest better x (rowValues cols i))) := by
  induction cols generalizing r0 with
  | nil =>
    refine ⟨hr0, ?_⟩
    intro i x hx
    simp [anyNull, rowValues, foldBest, hx]
  | cons c cols ih =>
    have hc : c.HasRows n := hcols c (List.mem_cons_self _ _)
    have hrest : ∀ d ∈ cols, d.HasRows n := fun d hd => hcols d (List.mem_cons_of_mem _ hd)
    obtain ⟨h1, h2⟩ := hstep c r0 hc hr0
    obtain ⟨ih1, ih2⟩ := ih hrest (step c r0) h1
    refine ⟨by simpa using ih1, ?_⟩
    intro i x hx
    have hi : i < n := by
      have := (List.getElem?_eq_some.mp hx).1
      rw [hr0.2] at this; exact this
    have hci : i < c.data.length := by rw [hc.2]; exact hi
    obtain ⟨v, hcv⟩ : ∃ v, c.data[i]? = some v := ⟨_, List.getElem?_eq_getElem hci⟩
    have hsi : i < (step c r0).data.length := by rw [h1.2]; exact hi
    obtain ⟨y, hy⟩ : ∃ y, (step c r0).data[i]? = some y := ⟨_, List.getElem?_eq_getElem hsi⟩
    obtain ⟨hn, hd⟩ := h2 i v x hcv hx
    obtain ⟨ihn, ihd⟩ := ih2 i y hy
    simp only [List.foldl_cons]
    constructor
    · rw [ihn, hn]; simp [anyNull, Bool.or_assoc]
    · intro hnn
      have hnn2 : r0.IsNull i = false ∧ c.IsNull i = false ∧ anyNull cols i = false := by
        simpa [anyNull, Bool.or_eq_false_iff] using hnn
      have hy2 := hd (by simp [hnn2.1, hnn2.2.1])
      rw [hy] at hy2
      have hyv : y = if better v x then v else x := Option.some.inj hy2
      have := ihd (by rw [hn]; simp [hnn2.1, hnn2.2.1, hnn2.2.2])
      rw [this, hyv]
      simp [rowValues, foldBest, hcv]

theorem foldBest_extremum {α : Type} (better : α → α → Bool) (le : α → α → Prop)
    (hrefl : ∀ a, le a a) (htrans : ∀ a b c, le a b → le b c → le a c)
    (hyes : ∀ v cur, better v cur = true → le cur v)
    (hno : ∀ v cur, better v cur = false → le v cur) (x : α) (vs : List α) :
    foldBest better x vs ∈ x :: vs ∧ ∀ v ∈ x :: vs, le v (foldBest better x vs) := by
  induction vs generalizing x with
  | nil =>
    refine ⟨by simp [foldBest], ?_⟩
    intro v hv
    have : v = x := by simpa using hv
    subst this
    simpa [foldBest] using hrefl v
  | cons w vs ih =>
    have hunf : foldBest better x (w :: vs)
        = foldBest better (if better w x then w else x) vs := by
      simp [foldBest]
    obtain ⟨hm, hle⟩ := ih (if better w x then w else x)
    have hxw : le x (if better w x then w else x) ∧ le w (if better w x then w else x) := by
      by_cases hb : better w x = true
      · simp only [hb, if_true]; exact ⟨hyes _ _ hb, hrefl _⟩
      · have hb2 : better w x = false := by simpa using hb
        simp only [hb2, if_false, Bool.false_eq_true]; exact ⟨hrefl _, hno _ _ hb2⟩
    rw [hunf]
    constructor
    · rcases List.mem_cons.mp hm with h | h
      · by_cases hb : better w x = true
        · rw [h]; simp [hb]
        · rw [h]; simp [hb]
      · exact List.mem_cons_of_mem _ (List.mem_cons_of_mem _ h)
    · intro v hv
      rcases List.mem_cons.mp hv with h | h
      · subst h
        exact htrans _ _ _ hxw.1 (hle _ (List.mem_cons_self _ _))
      · rcases List.mem_cons.mp h with h | h
        · subst h
          exact htrans _ _ _ hxw.2 (hle _ (List.mem_cons_self _ _))
        · exact hle _ (List.mem_cons_of_mem _ h)

theorem mem_rowValues {α : Type} (cols : List (Column α)) (i : Nat) (v : α) :
    v ∈ rowValues cols i ↔ ∃ c ∈ cols, c.data[i]? = some v := by
  simp [rowValues, List.mem_filterMap]

theorem reduceLoop_ok {α : Type} (step : Column α → Column α → Column α)
    (args : List (Expr α)) (cols : List (Column α))
    (hargs : args.map (·.VecEval) = cols.map Except.ok) (j : Nat) (s : Body α) :
    (reduceLoop step args j s).err = s.err ∧
    (reduceLoop step args j s).result = cols.foldl (fun r c => step c r) s.result := by
  induction args generalizing cols j s with
  | nil =>
    cases cols with
    | nil => simp [reduceLoop]
    | cons c cols => simp at hargs
  | cons a args ih =>
    cases cols with
    | nil => simp at hargs
    | cons c cols =>
      simp only [List.map_cons, List.cons.injEq] at hargs
      obtain ⟨ha, hrest⟩ := hargs
      simp only [reduceLoop, ha, List.foldl_cons]
      exact ih cols hrest _ _

theorem Pool.get_ok {α : Type} (p : Pool α) (k : Nat) (h : p.CanLease (k + 1)) :
    ∃ buf, (p.get).1 = Except.ok buf ∧ (p.get).2.CanLease k := by
  unfold Pool.CanLease at h
  unfold Pool.get
  cases hf : p.free with
  | cons c rest =>
    refine ⟨c, rfl, ?_⟩
    simp only [Pool.CanLease]
    rw [hf] at h
    simp at h ⊢
    omega
  | nil =>
    rw [hf] at h
    cases hn : p.fresh with
    | zero => rw [hn] at h; simp at h
    | succ m =>
      refine ⟨Column.empty, rfl, ?_⟩
      simp only [Pool.CanLease]
      rw [hn] at h
      simp [hf] at h ⊢
      omega

theorem vecEvalArg_zero {α : Type} (a : Expr α) (args : List (Expr α)) :
    vecEvalArg (a :: args) 0 = a.VecEval := by
  simp [vecEvalArg]

theorem reduceFixed_ok {α : Type} (step : Column α → Column α → Column α)
    (args : List (Expr α)) (c0 : Column α) (cols : List (Column α))
    (hargs : args.map (·.VecEval) = (c0 :: cols).map Except.ok)
    (pool : Pool α) (hpool : pool.CanLease 1) (result : Column α) :
    (reduceFixed step args pool result).err = none ∧
    (reduceFixed step args pool result).result = cols.foldl (fun r c => step c r) c0 := by
  obtain ⟨buf, hget, -⟩ := Pool.get_ok pool 0 hpool
  cases args with
  | nil => simp at hargs
  | cons a args =>
    simp only [List.map_cons, List.cons.injEq] at hargs
    obtain ⟨ha, hrest⟩ := hargs
    have hg : pool.get = (Except.ok buf, (pool.get).2) := by
      rw [← hget]
    unfold reduceFixed
    rw [hg]
    simp only [vecEvalArg_zero, ha, List.drop_succ_cons, List.drop_zero]
    have := reduceLoop_ok step args cols hrest 1 ⟨none, c0, buf, [.get 0, .eval 0]⟩
    exact ⟨this.1, this.2⟩

/-- C1: for every row count `n`, `k ≥ 1` Integer operand columns of `n` rows
and every row `i` at which no operand is null, a call whose lease and operand
evaluations succeed returns no error and leaves at `result[i]` a non-null
value that is one of the operand values at row `i` and is, for
`builtinGreatestIntSig.vecEvalInt`, at least every operand value at row `i`
(the maximum), and for `builtinLeastIntSig.vecEvalInt`, at most every operand
value at row `i` (the minimum), the values compared as signed integers. -/
theorem greatest_least_int_row_extremum (n : Nat) (args : List (Expr Int))
    (cols : List (Column Int)) (pool : Pool Int) (result : Column Int) (i : Nat)
    (hk : 1 ≤ cols.length) (hargs : Evaluates args cols n) (hpool : pool.CanLease 1)
    (hi : i < n) (hnn : anyNull cols i = false) :
    (∃ m : Int,
      (builtinGreatestIntSig.vecEvalInt args n pool result).err = none ∧
      (builtinGreatestIntSig.vecEvalInt args n pool result).result.IsNull i = false ∧
      (builtinGreatestIntSig.vecEvalInt args n pool result).result.data[i]? = some m ∧
      (∃ c ∈ cols, c.data[i]? = some m) ∧
      ∀ c ∈ cols, ∀ v, c.data[i]? = some v → v ≤ m) ∧
    (∃ m : Int,
      (builtinLeastIntSig.vecEvalInt args n pool result).err = none ∧
      (builtinLeastIntSig.vecEvalInt args n pool result).result.IsNull i = false ∧
      (builtinLeastIntSig.vecEvalInt args n pool result).result.data[i]? = some m ∧
      (∃ c ∈ cols, c.data[i]? = some m) ∧
      ∀ c ∈ cols, ∀ v, c.data[i]? = some v → m ≤ v) := by
  cases cols with
  | nil => simp at hk
  | cons c0 cols =>
    obtain ⟨hev, hrows⟩ := hargs
    have hc0 : c0.HasRows n := hrows c0 (List.mem_cons_self _ _)
    have hrest : ∀ d ∈ cols, d.HasRows n := fun d hd => hrows d (List.mem_cons_of_mem _ hd)
    obtain ⟨x, hx⟩ : ∃ x, c0.data[i]? = some x :=
      ⟨_, List.getElem?_eq_getElem (by rw [hc0.2]; exact hi)⟩
    have hnn2 : (c0.IsNull i || anyNull cols i) = false := by simpa [anyNull] using hnn
    have hvals : rowValues (c0 :: cols) i = x :: rowValues cols i := by
      simp [rowValues, hx]
    constructor
    · obtain ⟨he, hr⟩ := reduceFixed_ok (mergeStep (fun v cur => decide (v > cur)) n)
        args c0 cols hev pool hpool result
      obtain ⟨-, hf⟩ := fold_rows _ n _ (mergeStep_foldsRows (fun v cur : Int => decide (v > cur)) n).picks
        cols hrest c0 hc0
      obtain ⟨hnull, hval⟩ := hf i x hx
      obtain ⟨hmem, hle⟩ := foldBest_extremum (fun v cur : Int => decide (v > cur))
        (fun a b => a ≤ b) (fun a => le_refl a) (fun a b c => le_trans)
        (fun v cur h => by
          have : v > cur := by simpa using h
          omega)
        (fun v cur h => by
          have : ¬ v > cur := by simpa using h
          omega) x (rowValues cols i)
      refine ⟨foldBest (fun v cur : Int => decide (v > cur)) x (rowValues cols i),
        he, ?_, ?_, ?_, ?_⟩
      · unfold builtinGreatestIntSig.vecEvalInt; rw [hr, hnull, hnn2]
      · unfold builtinGreatestIntSig.vecEvalInt; rw [hr]; exact hval hnn2
      · rw [← hvals] at hmem; exact (mem_rowValues _ _ _).mp hmem
      · intro c hc v hv
        exact hle v (by rw [← hvals]; exact (mem_rowValues _ _ _).mpr ⟨c, hc, hv⟩)
    · obtain ⟨he, hr⟩ := reduceFixed_ok (mergeStep (fun v cur => decide (v < cur)) n)
        args c0 cols hev pool hpool result
      obtain ⟨-, hf⟩ := fold_rows _ n _ (mergeStep_foldsRows (fun v cur : Int => decide (v < cur)) n).picks
        cols hrest c0 hc0
      obtain ⟨hnull, hval⟩ := hf i x hx
      obtain ⟨hmem, hle⟩ := foldBest_extremum (fun v cur : Int => decide (v < cur))
        (fun a b => b ≤ a) (fun a => le_refl a) (fun a b c h1 h2 => le_trans h2 h1)
        (fun v cur h => by
          have : v < cur := by simpa using h
          omega)
        (fun v cur h => by
          have : ¬ v < cur := by simpa using h
          omega) x (rowValues cols i)
      refine ⟨foldBest (fun v cur : Int => decide (v < cur)) x (rowValues cols i),
        he, ?_, ?_, ?_, ?_⟩
      · unfold builtinLeastIntSig.vecEvalInt; rw [hr, hnull, hnn2]
      · unfold builtinLeastIntSig.vecEvalInt; rw [hr]; exact hval hnn2
      · rw [← hvals] at hmem; exact (mem_rowValues _ _ _).mp hmem
      · intro c hc v hv
        exact hle v (by rw [← hvals]; exact (mem_rowValues _ _ _).mpr ⟨c, hc, hv⟩)

/-- The hypotheses of `greatest_least_int_row_extremum` hold for
`GREATEST`/`LEAST` of the columns `(3, -1)` and `(2, NULL)` at row 0. -/
theorem greatest_least_int_row_extremum_witness :
    (1 ≤ sampleIntCols.length ∧ Evaluates (sampleIntCols.map Expr.ofColumn) sampleIntCols 2 ∧
      (Pool.ofFresh 1 : Pool Int).CanLease 1 ∧ 0 < 2 ∧ anyNull sampleIntCols 0 = false) ∧
    ((∃ m : Int,
      (builtinGreatestIntSig.vecEvalInt (sampleIntCols.map Expr.ofColumn) 2 (Pool.ofFresh 1)
        Column.empty).err = none ∧
      (builtinGreatestIntSig.vecEvalInt (sampleIntCols.map Expr.ofColumn) 2 (Pool.ofFresh 1)
        Column.empty).result.IsNull 0 = false ∧
      (builtinGreatestIntSig.vecEvalInt (sampleIntCols.map Expr.ofColumn) 2 (Pool.ofFresh 1)
        Column.empty).result.data[0]? = some m ∧
      (∃ c ∈ sampleIntCols, c.data[0]? = some m) ∧
      ∀ c ∈ sampleIntCols, ∀ v, c.data[0]? = some v → v ≤ m) ∧
    (∃ m : Int,
      (builtinLeastIntSig.vecEvalInt (sampleIntCols.map Expr.ofColumn) 2 (Pool.ofFresh 1)
        Column.empty).err = none ∧
      (builtinLeastIntSig.vecEvalInt (sampleIntCols.map Expr.ofColumn) 2 (Pool.ofFresh 1)
        Column.empty).result.IsNull 0 = false ∧
      (builtinLeastIntSig.vecEvalInt (sampleIntCols.map Expr.ofColumn) 2 (Pool.ofFresh 1)
        Column.empty).result.data[0]? = some m ∧
      (∃ c ∈ sampleIntCols, c.data[0]? = some m) ∧
      ∀ c ∈ sampleIntCols, ∀ v, c.data[0]? = some v → m ≤ v)) :=
  have h1 : 1 ≤ sampleIntCols.length := by decide
  have h2 : Evaluates (sampleIntCols.map Expr.ofColumn) sampleIntCols 2 :=
    ⟨rfl, by decide⟩
  have h3 : (Pool.ofFresh 1 : Pool Int).CanLease 1 := by
    simp [Pool.CanLease, Pool.ofFresh]
  have h4 : anyNull sampleIntCols 0 = false := by decide
  ⟨⟨h1, h2, h3, by decide, h4⟩,
    greatest_least_int_row_extremum 2 (sampleIntCols.map Expr.ofColumn) sampleIntCols
      (Pool.ofFresh 1) Column.empty 0 h1 h2 h3 (by decide) h4⟩

theorem anyNull_iff {α : Type} (cols : List (Column α)) (i : Nat) :
    anyNull cols i = true ↔ ∃ c ∈ cols, c.IsNull i = true := by
  simp [anyNull]

theorem reduceFixed_rows {α : Type} (better : α → α → Bool) (n : Nat)
    (step : Column α → Column α → Column α) (hstep : FoldsRows better n step)
    (args : List (Expr α)) (cols : List (Column α)) (hk : 1 ≤ cols.length)
    (hargs : Evaluates args cols n) (pool : Pool α) (hpool : pool.CanLease 1)
    (result : Column α) :
    (reduceFixed step args pool result).err = none ∧
    (reduceFixed step args pool result).result.HasRows n ∧
    ∀ i, i < n → (reduceFixed step args pool result).result.IsNull i = anyNull cols i := by
  cases cols with
  | nil => simp at hk
  | cons c0 cols =>
    obtain ⟨hev, hrows⟩ := hargs
    have hc0 : c0.HasRows n := hrows c0 (List.mem_cons_self _ _)
    have hrest : ∀ d ∈ cols, d.HasRows n := fun d hd => hrows d (List.mem_cons_of_mem _ hd)
    obtain ⟨he, hr⟩ := reduceFixed_ok step args c0 cols hev pool hpool result
    obtain ⟨hrow, hf⟩ := fold_rows better n step hstep.picks cols hrest c0 hc0
    refine ⟨he, by rw [hr]; exact hrow, ?_⟩
    intro i hi
    obtain ⟨x, hx⟩ : ∃ x, c0.data[i]? = some x :=
      ⟨_, List.getElem?_eq_getElem (by rw [hc0.2]; exact hi)⟩
    rw [hr, (hf i x hx).1]
    simp [anyNull]

/-- C2: for the fixed-width `GREATEST`/`LEAST` signatures over Integer and
Decimal, for every `k ≥ 1` operands of `n` rows and every row `i < n`, a call
whose lease and operand evaluations succeed returns no error, and its result
is null at row `i` if and only if at least one operand is null at row `i`. -/
theorem greatest_least_fixed_null_iff {D : Type} (Compare : D → D → Int) (n i : Nat)
    (argsI : List (Expr Int)) (colsI : List (Column Int)) (poolI : Pool Int)
    (resultI : Column Int)
    (argsD : List (Expr D)) (colsD : List (Column D)) (poolD : Pool D)
    (resultD : Column D)
    (hkI : 1 ≤ colsI.length) (hI : Evaluates argsI colsI n) (hpI : poolI.CanLease 1)
    (hkD : 1 ≤ colsD.length) (hD : Evaluates argsD colsD n) (hpD : poolD.CanLease 1)
    (hi : i < n) :
    ((builtinGreatestIntSig.vecEvalInt argsI n poolI resultI).err = none ∧
      ((builtinGreatestIntSig.vecEvalInt argsI n poolI resultI).result.IsNull i = true ↔
        ∃ c ∈ colsI, c.IsNull i = true)) ∧
    ((builtinLeastIntSig.vecEvalInt argsI n poolI resultI).err = none ∧
      ((builtinLeastIntSig.vecEvalInt argsI n poolI resultI).result.IsNull i = true ↔
        ∃ c ∈ colsI, c.IsNull i = true)) ∧
    ((builtinGreatestDecimalSig.vecEvalDecimal Compare argsD n poolD resultD).err = none ∧
      ((builtinGreatestDecimalSig.vecEvalDecimal Compare argsD n poolD resultD).result.IsNull i
          = true ↔ ∃ c ∈ colsD, c.IsNull i = true)) ∧
    ((builtinLeastDecimalSig.vecEvalDecimal Compare argsD n poolD resultD).err = none ∧
      ((builtinLeastDecimalSig.vecEvalDecimal Compare argsD n poolD resultD).result.IsNull i
          = true ↔ ∃ c ∈ colsD, c.IsNull i = true)) := by
  refine ⟨?_, ?_, ?_, ?_⟩
  · obtain ⟨he, -, hn⟩ := reduceFixed_rows _ n _
      (mergeStep_foldsRows (fun v cur : Int => decide (v > cur)) n) argsI colsI hkI hI poolI hpI
      resultI
    exact ⟨he, by
      unfold builtinGreatestIntSig.vecEvalInt
      rw [hn i hi]; exact anyNull_iff colsI i⟩
  · obtain ⟨he, -, hn⟩ := reduceFixed_rows _ n _
      (mergeStep_foldsRows (fun v cur : Int => decide (v < cur)) n) argsI colsI hkI hI poolI hpI
      resultI
    exact ⟨he, by
      unfold builtinLeastIntSig.vecEvalInt
      rw [hn i hi]; exact anyNull_iff colsI i⟩
  · obtain ⟨he, -, hn⟩ := reduceFixed_rows _ n _
      (greatestDecimalStep_foldsRows Compare n) argsD colsD hkD hD poolD hpD resultD
    exact ⟨he, by
      unfold builtinGreatestDecimalSig.vecEvalDecimal
      rw [hn i hi]; exact anyNull_iff colsD i⟩
  · obtain ⟨he, -, hn⟩ := reduceFixed_rows _ n _
      (mergeStep_foldsRows (fun v cur : D => decide (Compare v cur < 0)) n) argsD colsD hkD hD
      poolD hpD resultD
    exact ⟨he, by
      unfold builtinLeastDecimalSig.vecEvalDecimal
      rw [hn i hi]; exact anyNull_iff colsD i⟩

/-- The hypotheses of `greatest_least_fixed_null_iff` hold for the sample
columns; at row 1, where the second operand is null, the result is null. -/
theorem greatest_least_fixed_null_iff_witness :
    (1 ≤ sampleIntCols.length ∧ Evaluates (sampleIntCols.map Expr.ofColumn) sampleIntCols 2 ∧
      (Pool.ofFresh 1 : Pool Int).CanLease 1 ∧ 1 ≤ sampleDecimalCols.length ∧
      Evaluates (sampleDecimalCols.map Expr.ofColumn) sampleDecimalCols 2 ∧ 1 < 2) ∧
    (builtinGreatestIntSig.vecEvalInt (sampleIntCols.map Expr.ofColumn) 2 (Pool.ofFresh 1)
        Column.empty).result.IsNull 1 = true ∧
    (builtinGreatestDecimalSig.vecEvalDecimal sampleCompare
        (sampleDecimalCols.map Expr.ofColumn) 2 (Pool.ofFresh 1) Column.empty).result.IsNull 1
      = true :=
  have h1 : 1 ≤ sampleIntCols.length := by decide
  have h2 : Evaluates (sampleIntCols.map Expr.ofColumn) sampleIntCols 2 := ⟨rfl, by decide⟩
  have h3 : (Pool.ofFresh 1 : Pool Int).CanLease 1 := by simp [Pool.CanLease, Pool.ofFresh]
  have h4 : 1 ≤ sampleDecimalCols.length := by decide
  have h5 : Evaluates (sampleDecimalCols.map Expr.ofColumn) sampleDecimalCols 2 :=
    ⟨rfl, by decide⟩
  have h := greatest_least_fixed_null_iff sampleCompare 2 1
    (sampleIntCols.map Expr.ofColumn) sampleIntCols (Pool.ofFresh 1) Column.empty
    (sampleDecimalCols.map Expr.ofColumn) sampleDecimalCols (Pool.ofFresh 1) Column.empty
    h1 h2 h3 h4 h5 h3 (by decide)
  ⟨⟨h1, h2, h3, h4, h5, by decide⟩,
    h.1.2.mpr ⟨Column.ofRows 0 [some 2, none], by decide, by decide⟩,
    h.2.2.1.2.mpr ⟨Column.ofRows 0 [some 2, none], by decide, by decide⟩⟩

/-! ## `GREATEST` / `LEAST` over strings -/

theorem CompareString_self (a : List Nat) : CompareString a a = 0 := by
  induction a with
  | nil => simp [CompareString]
  | cons x a ih => simp [CompareString, ih]

theorem CompareString_swap (a b : List Nat) : CompareString b a = - CompareString a b := by
  induction a generalizing b with
  | nil => cases b <;> simp [CompareString]
  | cons x a ih =>
    cases b with
    | nil => simp [CompareString]
    | cons y b =>
      simp only [CompareString]
      by_cases h1 : x < y
      · have h2 : ¬ y < x := by omega
        simp [h1, h2]
      · by_cases h2 : y < x
        · simp [h1, h2]
        · simp [h1, h2, ih]

theorem CompareString_trans (a b c : List Nat) (h1 : CompareString a b ≤ 0)
    (h2 : CompareString b c ≤ 0) : CompareString a c ≤ 0 := by
  induction a generalizing b c with
  | nil => cases c <;> simp [CompareString]
  | cons x a ih =>
    cases b with
    | nil => simp [CompareString] at h1
    | cons y b =>
      cases c with
      | nil => simp [CompareString] at h2
      | cons z c =>
        simp only [CompareString] at h1 h2 ⊢
        by_cases hxy : x < y
        · by_cases hyz : y < z
          · have : x < z := by omega
            simp [this]
          · by_cases hzy : z < y
            · simp [hyz, hzy] at h2
            · have : x < z := by omega
              simp [this]
        · by_cases hyx : y < x
          · simp [hxy, hyx] at h1
          · have hxy2 : x = y := by omega
            subst hxy2
            by_cases hyz : x < z
            · simp [hyz]
            · by_cases hzy : z < x
              · simp [hyz, hzy] at h2
              · simp only [hxy, hyx, hyz, hzy, if_false] at h1 h2 ⊢
                exact ih b c h1 h2

theorem stringRows_eq (keepSrc : List Nat → List Nat → Bool) (n : Nat)
    (src arg dst : Column (List Nat)) (hsrc : n ≤ src.data.length)
    (harg : n ≤ arg.data.length) :
    stringRows keepSrc n src arg dst =
      ⟨dst.nulls ++ (List.range n).map (fun i => src.IsNull i || arg.IsNull i),
        dst.data ++ (List.range n).map (fun i =>
          if (src.IsNull i || arg.IsNull i) then []
          else if keepSrc ((src.data[i]?).getD []) ((arg.data[i]?).getD []) then (src.data[i]?).getD []
          else (arg.data[i]?).getD [])⟩ := by
  unfold stringRows
  induction n with
  | zero => simp
  | succ m ih =>
    rw [List.range_succ, List.foldl_append, ih (by omega) (by omega)]
    simp only [List.foldl_cons, List.foldl_nil, List.map_append, List.map_cons, List.map_nil]
    have hs : src.data[m]? = some ((src.data[m]?).getD []) := by
      rw [List.getElem?_eq_getElem (by omega)]; rfl
    have ha : arg.data[m]? = some ((arg.data[m]?).getD []) := by
      rw [List.getElem?_eq_getElem (by omega)]; rfl
    by_cases hnull : (src.IsNull m || arg.IsNull m) = true
    · simp [hnull, Column.AppendNull]
    · rw [hs, ha]
      by_cases hk : keepSrc ((src.data[m]?).getD []) ((arg.data[m]?).getD []) = true
      · simp [hnull, hk, Column.Append]
      · simp [hnull, hk, Column.Append]

theorem stringStep_picksRows (keepSrc : List Nat → List Nat → Bool) (n : Nat) :
    PicksRows (fun argStr srcStr => !keepSrc srcStr argStr) n (stringStep keepSrc n) := by
  intro arg src harg hsrc
  have heq := stringRows_eq keepSrc n src arg Column.empty (by rw [hsrc.2]) (by rw [harg.2])
  unfold stringStep
  rw [heq]
  refine ⟨⟨by simp [Column.empty], by simp [Column.empty]⟩, ?_⟩
  intro i v cur hv hcur
  have hi : i < n := by
    have := (List.getElem?_eq_some.mp hcur).1
    rw [hsrc.2] at this; exact this
  have hvd : (arg.data[i]?).getD [] = v := by
    rw [hv]; rfl
  have hcd : (src.data[i]?).getD [] = cur := by
    rw [hcur]; rfl
  constructor
  · simp [Column.IsNull, Column.empty, List.getElem?_map, List.getElem?_range hi]
  · intro hnn
    simp only [Column.empty, List.nil_append, List.getElem?_map, List.getElem?_range hi,
      Option.map_some', hnn, hvd, hcd]
    by_cases hk : keepSrc cur v = true
    · simp [hk]
    · simp [hk]

theorem Pool.get_empty {α : Type} (p : Pool α) (k : Nat) (h : p.LeasesEmpty (k + 1)) :
    (p.get).1 = Except.ok Column.empty ∧ (p.get).2.LeasesEmpty k := by
  obtain ⟨hlen, hemp⟩ := h
  unfold Pool.get
  cases hf : p.free with
  | cons c rest =>
    rw [hf] at hlen hemp
    have hc : c = Column.empty := hemp c (by simp)
    refine ⟨by simp [hc], ?_, ?_⟩
    · simp at hlen ⊢; omega
    · intro d hd
      exact hemp d (by simp only [List.take_succ_cons]; exact List.mem_cons_of_mem _ hd)
  | nil =>
    rw [hf] at hlen
    cases hn : p.fresh with
    | zero => rw [hn] at hlen; simp at hlen
    | succ m =>
      rw [hn] at hlen
      refine ⟨rfl, ?_, ?_⟩
      · simp [hf] at hlen ⊢; omega
      · intro d hd
        simp [hf] at hd

theorem stringIter_ok (keepSrc : List Nat → List Nat → Bool) (n j : Nat)
    (c : Column (List Nat)) (s : StringState) (harg : s.arg = .buf1)
    (hsd : (s.src = .result ∧ s.dst = .buf2) ∨ (s.src = .buf2 ∧ s.dst = .result))
    (hdst : s.heap.read s.dst = Column.empty) :
    (stringIter keepSrc n j c s).err = s.err ∧
    (stringIter keepSrc n j c s).arg = .buf1 ∧
    (stringIter keepSrc n j c s).src = s.dst ∧
    (stringIter keepSrc n j c s).dst = s.src ∧
    (stringIter keepSrc n j c s).heap.read s.dst = stringStep keepSrc n c (s.heap.read s.src) ∧
    (stringIter keepSrc n j c s).heap.read s.src = Column.empty := by
  obtain ⟨err, heap, src, arg, dst, log⟩ := s
  simp only at harg hsd hdst
  subst harg
  rcases hsd with ⟨hs, hd⟩ | ⟨hs, hd⟩
  · subst hs; subst hd
    have hb2 : heap.buf2 = Column.empty := by simpa [Heap.read] using hdst
    simp [stringIter, Heap.read, Heap.write, stringStep, hb2, Column.Reserve, Column.empty]
  · subst hs; subst hd
    have hb2 : heap.result = Column.empty := by simpa [Heap.read] using hdst
    simp [stringIter, Heap.read, Heap.write, stringStep, hb2, Column.Reserve, Column.empty]

theorem stringLoop_ok (keepSrc : List Nat → List Nat → Bool) (n : Nat)
    (args : List (Expr (List Nat))) (cols : List (Column (List Nat)))
    (hargs : args.map (·.VecEval) = cols.map Except.ok) (j : Nat) (s : StringState)
    (harg : s.arg = .buf1)
    (hsd : (s.src = .result ∧ s.dst = .buf2) ∨ (s.src = .buf2 ∧ s.dst = .result))
    (hdst : s.heap.read s.dst = Column.empty) (herr : s.err = none) :
    (stringLoop keepSrc n args j s).err = none ∧
    (stringLoop keepSrc n args j s).src = (if cols.length % 2 = 0 then s.src else s.dst) ∧
    (stringLoop keepSrc n args j s).heap.read (stringLoop keepSrc n args j s).src
      = cols.foldl (fun r c => stringStep keepSrc n c r) (s.heap.read s.src) := by
  induction args generalizing cols j s with
  | nil =>
    cases cols with
    | nil => simp [stringLoop, herr]
    | cons c cols => simp at hargs
  | cons a args ih =>
    cases cols with
    | nil => simp at hargs
    | cons c cols =>
      simp only [List.map_cons, List.cons.injEq] at hargs
      obtain ⟨ha, hrest⟩ := hargs
      obtain ⟨e1, e2, e3, e4, e5, e6⟩ := stringIter_ok keepSrc n j c s harg hsd hdst
      have hsd2 : ((stringIter keepSrc n j c s).src = .result ∧
            (stringIter keepSrc n j c s).dst = .buf2) ∨
          ((stringIter keepSrc n j c s).src = .buf2 ∧
            (stringIter keepSrc n j c s).dst = .result) := by
        rw [e3, e4]
        rcases hsd with ⟨hs, hd⟩ | ⟨hs, hd⟩
        · exact Or.inr ⟨hd, hs⟩
        · exact Or.inl ⟨hd, hs⟩
      obtain ⟨h1, h2, h3⟩ := ih cols hrest (j + 1) (stringIter keepSrc n j c s) e2 hsd2
        (by rw [e4]; exact e6) (by rw [e1]; exact herr)
      simp only [stringLoop, ha, List.foldl_cons, List.length_cons]
      refine ⟨h1, ?_, ?_⟩
      · rw [h2, e3, e4]
        by_cases hp : cols.length % 2 = 0
        · have : ¬ (cols.length + 1) % 2 = 0 := by omega
          simp [hp, this]
        · have : (cols.length + 1) % 2 = 0 := by omega
          simp [hp, this]
      · rw [h3, e3, e5]

theorem reduceString_ok (keepSrc : List Nat → List Nat → Bool) (n : Nat)
    (args : List (Expr (List Nat))) (c0 : Column (List Nat)) (cols : List (Column (List Nat)))
    (hargs : args.map (·.VecEval) = (c0 :: cols).map Except.ok)
    (pool : Pool (List Nat)) (hpool : pool.LeasesEmpty 2) (result : Column (List Nat)) :
    (reduceString keepSrc args n pool result).err = none ∧
    (reduceString keepSrc args n pool result).result
      = cols.foldl (fun r c => stringStep keepSrc n c r) c0 := by
  obtain ⟨hg1, hp1⟩ := Pool.get_empty pool 1 hpool
  obtain ⟨hg2, -⟩ := Pool.get_empty (pool.get).2 0 hp1
  have hlen : args.length = cols.length + 1 := by
    have := congrArg List.length hargs
    simpa using this
  cases args with
  | nil => simp at hargs
  | cons a args =>
    simp only [List.map_cons, List.cons.injEq] at hargs
    obtain ⟨ha, hrest⟩ := hargs
    have e1 : pool.get = (Except.ok Column.empty, (pool.get).2) := by rw [← hg1]
    have e2 : (pool.get).2.get = (Except.ok Column.empty, ((pool.get).2.get).2) := by
      rw [← hg2]
    obtain ⟨h1, h2, h3⟩ := stringLoop_ok keepSrc n args cols hrest 1
      ⟨none, ⟨c0, Column.empty, Column.empty⟩, .result, .buf1, .buf2,
        [.eval 0, .get 0, .get 1]⟩ rfl (Or.inl ⟨rfl, rfl⟩) rfl rfl
    unfold reduceString
    rw [vecEvalArg_zero, ha]
    simp only []
    rw [e1]
    simp only []
    rw [e2]
    simp only [List.drop_succ_cons, List.drop_zero]
    simp only [Heap.read] at h3
    by_cases hp : cols.length % 2 = 0
    · have hk : ¬ (a :: args).length % 2 = 0 := by rw [hlen]; omega
      rw [if_pos hp] at h2
      rw [h2] at h3
      simp only [stringFinish, h1, hk, if_false]
      exact ⟨trivial, h3⟩
    · have hk : (a :: args).length % 2 = 0 := by rw [hlen]; omega
      rw [if_neg hp] at h2
      rw [h2] at h3
      simp only [stringFinish, h1, hk, if_true, Heap.write, Column.CopyConstruct, h2, Heap.read]
      exact ⟨trivial, h3⟩

/-- C3: for every `k ≥ 1` String operands and every row count `n`, when the
two leased scratch columns start with no rows and the operand evaluations
succeed, `builtinGreatestStringSig.vecEvalString` (resp.
`builtinLeastStringSig.vecEvalString`) returns no error with the
caller-supplied `result` holding exactly `n` rows; row `i` is null iff some
operand is null at row `i`, and otherwise holds one of the operand strings at
row `i` that no operand string at row `i` is above (resp. below) in the
byte-wise lexicographic order.  This is for every `k`, hence whichever buffer
holds the running best after the last step. -/
theorem greatest_least_string_result (n : Nat) (args : List (Expr (List Nat)))
    (cols : List (Column (List Nat))) (pool : Pool (List Nat)) (result : Column (List Nat))
    (hk : 1 ≤ cols.length) (hargs : Evaluates args cols n) (hpool : pool.LeasesEmpty 2) :
    ((builtinGreatestStringSig.vecEvalString args n pool result).err = none ∧
      (builtinGreatestStringSig.vecEvalString args n pool result).result.HasRows n ∧
      ∀ i, i < n →
        ((builtinGreatestStringSig.vecEvalString args n pool result).result.IsNull i = true ↔
          ∃ c ∈ cols, c.IsNull i = true) ∧
        ((builtinGreatestStringSig.vecEvalString args n pool result).result.IsNull i = false →
          ∃ m, (builtinGreatestStringSig.vecEvalString args n pool result).result.data[i]?
              = some m ∧
            (∃ c ∈ cols, c.data[i]? = some m) ∧
            ∀ c ∈ cols, ∀ v, c.data[i]? = some v → CompareString v m ≤ 0)) ∧
    ((builtinLeastStringSig.vecEvalString args n pool result).err = none ∧
      (builtinLeastStringSig.vecEvalString args n pool result).result.HasRows n ∧
      ∀ i, i < n →
        ((builtinLeastStringSig.vecEvalString args n pool result).result.IsNull i = true ↔
          ∃ c ∈ cols, c.IsNull i = true) ∧
        ((builtinLeastStringSig.vecEvalString args n pool result).result.IsNull i = false →
          ∃ m, (builtinLeastStringSig.vecEvalString args n pool result).result.data[i]?
              = some m ∧
            (∃ c ∈ cols, c.data[i]? = some m) ∧
            ∀ c ∈ cols, ∀ v, c.data[i]? = some v → CompareString m v ≤ 0)) := by
  cases cols with
  | nil => simp at hk
  | cons c0 cols =>
    obtain ⟨hev, hrows⟩ := hargs
    have hc0 : c0.HasRows n := hrows c0 (List.mem_cons_self _ _)
    have hrest : ∀ d ∈ cols, d.HasRows n := fun d hd => hrows d (List.mem_cons_of_mem _ hd)
    constructor
    · obtain ⟨he, hr⟩ := reduceString_ok
        (fun srcStr argStr => decide (CompareString srcStr argStr > 0)) n args c0 cols hev pool
        hpool result
      obtain ⟨hrow, hf⟩ := fold_rows _ n _
        (stringStep_picksRows (fun srcStr argStr => decide (CompareString srcStr argStr > 0)) n)
        cols hrest c0 hc0
      unfold builtinGreatestStringSig.vecEvalString
      rw [hr]
      refine ⟨he, hrow, ?_⟩
      intro i hi
      obtain ⟨x, hx⟩ : ∃ x, c0.data[i]? = some x :=
        ⟨_, List.getElem?_eq_getElem (by rw [hc0.2]; exact hi)⟩
      obtain ⟨hnull, hval⟩ := hf i x hx
      have hany : anyNull (c0 :: cols) i = (c0.IsNull i || anyNull cols i) := by simp [anyNull]
      have hvals : rowValues (c0 :: cols) i = x :: rowValues cols i := by simp [rowValues, hx]
      refine ⟨by rw [hnull, ← hany]; exact anyNull_iff _ i, ?_⟩
      intro hnn
      rw [hnull] at hnn
      obtain ⟨hmem, hle⟩ := foldBest_extremum
        (fun argStr srcStr => !decide (CompareString srcStr argStr > 0))
        (fun a b => CompareString a b ≤ 0) (fun a => by simp [CompareString_self])
        (fun a b c => CompareString_trans a b c)
        (fun v cur h => by
          have : ¬ CompareString cur v > 0 := by simpa using h
          omega)
        (fun v cur h => by
          have h1 : CompareString cur v > 0 := by simpa using h
          have h2 := CompareString_swap cur v
          show CompareString v cur ≤ 0
          omega) x (rowValues cols i)
      refine ⟨_, hval hnn, ?_, ?_⟩
      · rw [← hvals] at hmem; exact (mem_rowValues _ _ _).mp hmem
      · intro c hc v hv
        exact hle v (by rw [← hvals]; exact (mem_rowValues _ _ _).mpr ⟨c, hc, hv⟩)
    · obtain ⟨he, hr⟩ := reduceString_ok
        (fun srcStr argStr => decide (CompareString srcStr argStr < 0)) n args c0 cols hev pool
        hpool result
      obtain ⟨hrow, hf⟩ := fold_rows _ n _
        (stringStep_picksRows (fun srcStr argStr => decide (CompareString srcStr argStr < 0)) n)
        cols hrest c0 hc0
      unfold builtinLeastStringSig.vecEvalString
      rw [hr]
      refine ⟨he, hrow, ?_⟩
      intro i hi
      obtain ⟨x, hx⟩ : ∃ x, c0.data[i]? = some x :=
        ⟨_, List.getElem?_eq_getElem (by rw [hc0.2]; exact hi)⟩
      obtain ⟨hnull, hval⟩ := hf i x hx
      have hany : anyNull (c0 :: cols) i = (c0.IsNull i || anyNull cols i) := by simp [anyNull]
      have hvals : rowValues (c0 :: cols) i = x :: rowValues cols i := by simp [rowValues, hx]
      refine ⟨by rw [hnull, ← hany]; exact anyNull_iff _ i, ?_⟩
      intro hnn
      rw [hnull] at hnn
      obtain ⟨hmem, hle⟩ := foldBest_extremum
        (fun argStr srcStr => !decide (CompareString srcStr argStr < 0))
        (fun a b => CompareString b a ≤ 0) (fun a => by simp [CompareString_self])
        (fun a b c h1 h2 => CompareString_trans c b a h2 h1)
        (fun v cur h => by
          have h1 : ¬ CompareString cur v < 0 := by simpa using h
          have h2 := CompareString_swap cur v
          show CompareString v cur ≤ 0
          omega)
        (fun v cur h => by
          have h1 : CompareString cur v < 0 := by simpa using h
          show CompareString cur v ≤ 0
          omega) x (rowValues cols i)
      refine ⟨_, hval hnn, ?_, ?_⟩
      · rw [← hvals] at hmem; exact (mem_rowValues _ _ _).mp hmem
      · intro c hc v hv
        exact hle v (by rw [← hvals]; exact (mem_rowValues _ _ _).mpr ⟨c, hc, hv⟩)

/-- The hypotheses of `greatest_least_string_result` hold for three String
operands of two rows on a fresh pool. -/
theorem greatest_least_string_result_witness :
    (1 ≤ sampleStringCols.length ∧
      Evaluates (sampleStringCols.map Expr.ofColumn) sampleStringCols 2 ∧
      (Pool.ofFresh 2 : Pool (List Nat)).LeasesEmpty 2) ∧
    (builtinGreatestStringSig.vecEvalString (sampleStringCols.map Expr.ofColumn) 2
      (Pool.ofFresh 2) Column.empty).result.HasRows 2 ∧
    (builtinLeastStringSig.vecEvalString (sampleStringCols.map Expr.ofColumn) 2
      (Pool.ofFresh 2) Column.empty).result.HasRows 2 :=
  have h1 : 1 ≤ sampleStringCols.length := by decide
  have h2 : Evaluates (sampleStringCols.map Expr.ofColumn) sampleStringCols 2 :=
    ⟨rfl, by decide⟩
  have h3 : (Pool.ofFresh 2 : Pool (List Nat)).LeasesEmpty 2 := by
    simp [Pool.LeasesEmpty, Pool.ofFresh]
  have h := greatest_least_string_result 2 (sampleStringCols.map Expr.ofColumn)
    sampleStringCols (Pool.ofFresh 2) Column.empty h1 h2 h3
  ⟨⟨h1, h2, h3⟩, h.1.2.1, h.2.2.1⟩

/-- C4, the code at the failing input: on a fresh pool the call
`GREATEST("x", "y")` (resp. `LEAST`) on one row leaves the one row `"y"`
(resp. `"x"`) in `result`; on the pool left by a first call
`GREATEST("a", "b")` (resp. `LEAST`), whose second scratch column still holds
the answer of that call, the same call leaves two rows in `result`, the first
being the stale `"b"` (resp. `"a"`); on a pool whose second scratch column
holds one null row, it leaves a leading null row in `result`. -/
theorem string_scratch_content_leaks :
    (builtinGreatestStringSig.vecEvalString secondCallArgs 1 (Pool.ofFresh 2)
        Column.empty).result = ⟨[false], [[121]]⟩ ∧
    (builtinGreatestStringSig.vecEvalString secondCallArgs 1
        (builtinGreatestStringSig.vecEvalString firstCallArgs 1 (Pool.ofFresh 2)
          Column.empty).pool Column.empty).result = ⟨[false, false], [[98], [121]]⟩ ∧
    (builtinLeastStringSig.vecEvalString secondCallArgs 1 (Pool.ofFresh 2)
        Column.empty).result = ⟨[false], [[120]]⟩ ∧
    (builtinLeastStringSig.vecEvalString secondCallArgs 1
        (builtinLeastStringSig.vecEvalString firstCallArgs 1 (Pool.ofFresh 2)
          Column.empty).pool Column.empty).result = ⟨[false, false], [[97], [120]]⟩ ∧
    (builtinGreatestStringSig.vecEvalString firstCallArgs 1 (Pool.ofFresh 2)
        Column.empty).pool.free = [Column.empty, ⟨[false], [[98]]⟩] ∧
    (builtinGreatestStringSig.vecEvalString secondCallArgs 1 staleNullPool
        Column.empty).result = ⟨[true, false], [[], [121]]⟩ := by
  decide

/-! ## Integer relational operators -/

theorem signKernel_correct {A B : Type} (toA : A → Int) (toB : B → Int) :
    SignOfDifference toA toB (signKernel toA toB) := by
  intro x
  induction x with
  | nil =>
    intro y res i a b ha
    simp at ha
  | cons a x ih =>
    intro y res i a2 b2 ha hb hi
    cases y with
    | nil => simp at hb
    | cons b y =>
      cases res with
      | nil => simp at hi
      | cons r res =>
        cases i with
        | zero =>
          simp only [List.getElem?_cons_zero, Option.some.injEq] at ha hb
          subst ha; subst hb
          exact ⟨Int.sign (toA a - toB b), by simp [signKernel], Int.sign_sign⟩
        | succ i =>
          simp only [List.getElem?_cons_succ] at ha hb
          obtain ⟨d, hd1, hd2⟩ := ih y res i a2 b2 ha hb (by simpa using hi)
          exact ⟨d, by simpa [signKernel] using hd1, hd2⟩

theorem signKernels_correct : signKernels.Correct :=
  ⟨signKernel_correct _ _, signKernel_correct _ _, signKernel_correct _ _,
    signKernel_correct _ _⟩

theorem hasUnsignedFlag_zero {α : Type} (a : Expr α) (args : List (Expr α)) :
    hasUnsignedFlag (a :: args) 0 = a.unsigned := by
  simp [hasUnsignedFlag]

theorem hasUnsignedFlag_one {α : Type} (a b : Expr α) (args : List (Expr α)) :
    hasUnsignedFlag (a :: b :: args) 1 = b.unsigned := by
  simp [hasUnsignedFlag]

theorem vecEvalArg_one {α : Type} (a b : Expr α) (args : List (Expr α)) :
    vecEvalArg (a :: b :: args) 1 = b.VecEval := by
  simp [vecEvalArg]

theorem compareInt_ok (vecResOf : List Int → List Int) (K : CompareKernels)
    (args : List (Expr Int)) (c0 c1 : Column Int) (n : Nat)
    (hargs : args.map (·.VecEval) = [Except.ok c0, Except.ok c1])
    (pool : Pool Int) (hpool : pool.CanLease 2) (result : Column Int) :
    (compareInt vecResOf K args n pool result).err = none ∧
    (compareInt vecResOf K args n pool result).result =
      { ((vecCompareInt K (hasUnsignedFlag args 0) (hasUnsignedFlag args 1) c0 c1
            (result.Resize 0 n false)).MergeNulls [c0, c1]) with
        data := vecResOf ((vecCompareInt K (hasUnsignedFlag args 0) (hasUnsignedFlag args 1)
            c0 c1 (result.Resize 0 n false)).MergeNulls [c0, c1]).Int64s } := by
  obtain ⟨b0, hg1, hp1⟩ := Pool.get_ok pool 1 hpool
  obtain ⟨b1, hg2, -⟩ := Pool.get_ok (pool.get).2 0 hp1
  have e1 : pool.get = (Except.ok b0, (pool.get).2) := by rw [← hg1]
  have e2 : (pool.get).2.get = (Except.ok b1, ((pool.get).2.get).2) := by rw [← hg2]
  cases args with
  | nil => simp at hargs
  | cons a0 args =>
  cases args with
  | nil => simp at hargs
  | cons a1 args =>
    simp only [List.map_cons, List.cons.injEq] at hargs
    obtain ⟨ha0, ha1, -⟩ := hargs
    unfold compareInt
    rw [e1]
    simp only []
    rw [vecEvalArg_zero, ha0]
    simp only []
    rw [e2]
    simp only []
    rw [vecEvalArg_one, ha1]
    exact ⟨rfl, rfl⟩

theorem vecCompareInt_nulls (K : CompareKernels) (u0 u1 : Bool) (l r res : Column Int) :
    (vecCompareInt K u0 u1 l r res).nulls = res.nulls := by
  cases u0 <;> cases u1 <;> simp [vecCompareInt]

theorem vecCompareInt_delta (K : CompareKernels) (hK : K.Correct) (u0 u1 : Bool)
    (l r res : Column Int) (i : Nat) (a b : Int) (ha : l.data[i]? = some a)
    (hb : r.data[i]? = some b) (hi : i < res.data.length) :
    ∃ d, (vecCompareInt K u0 u1 l r res).data[i]? = some d ∧
      Int.sign d = Int.sign (readAs u0 a - readAs u1 b) := by
  obtain ⟨hUU, hUI, hIU, hII⟩ := hK
  have hua : l.Uint64s[i]? = some (toUint64 a) := by
    simp [Column.Uint64s, List.getElem?_map, ha]
  have hub : r.Uint64s[i]? = some (toUint64 b) := by
    simp [Column.Uint64s, List.getElem?_map, hb]
  cases u0 <;> cases u1
  · simpa [vecCompareInt, readAs] using hII l.Int64s r.Int64s res.Int64s i a b ha hb hi
  · simpa [vecCompareInt, readAs] using
      hIU l.Int64s r.Uint64s res.Int64s i a (toUint64 b) ha hub hi
  · simpa [vecCompareInt, readAs] using
      hUI l.Uint64s r.Int64s res.Int64s i (toUint64 a) b hua hb hi
  · simpa [vecCompareInt, readAs] using
      hUU l.Uint64s r.Uint64s res.Int64s i (toUint64 a) (toUint64 b) hua hub hi

theorem Column.resize_hasRows {α : Type} (c : Column α) (fill : α) (n : Nat) (b : Bool) :
    (c.Resize fill n b).HasRows n := by
  constructor
  · simp [Column.Resize]
  · simp [Column.Resize]

theorem Column.mergeNulls_two_isNull {α : Type} (c b0 b1 : Column α) (i : Nat)
    (hi : i < c.nulls.length) :
    (c.MergeNulls [b0, b1]).IsNull i = (c.IsNull i || b0.IsNull i || b1.IsNull i) := by
  have h : (c.MergeNulls [b0, b1]).nulls
      = Column.orNulls (Column.orNulls c.nulls b0.nulls) b1.nulls := rfl
  simp only [Column.IsNull, h, Column.orNulls_getElem?, List.getElem?_eq_getElem hi]
  simp

theorem sign_eq_cases (d x : Int) (h : Int.sign d = Int.sign x) :
    (d < 0 ↔ x < 0) ∧ (d ≤ 0 ↔ x ≤ 0) ∧ (d > 0 ↔ x > 0) := by
  have hneg : d < 0 ↔ x < 0 := by
    rw [← Int.sign_eq_neg_one_iff_neg, ← Int.sign_eq_neg_one_iff_neg, h]
  have hpos : 0 < d ↔ 0 < x := by
    rw [← Int.sign_eq_one_iff_pos, ← Int.sign_eq_one_iff_pos, h]
  refine ⟨hneg, ?_, hpos⟩
  constructor
  · intro hd
    by_contra hx
    have : 0 < d := hpos.mpr (by omega)
    omega
  · intro hx
    by_contra hd
    have : 0 < x := hpos.mp (by omega)
    omega

theorem compareInt_null (vecResOf : List Int → List Int) (K : CompareKernels)
    (args : List (Expr Int)) (c0 c1 : Column Int) (n i : Nat)
    (hargs : Evaluates args [c0, c1] n) (pool : Pool Int) (hpool : pool.CanLease 2)
    (result : Column Int) (hi : i < n) :
    (compareInt vecResOf K args n pool result).err = none ∧
    (compareInt vecResOf K args n pool result).result.IsNull i
      = (c0.IsNull i || c1.IsNull i) := by
  obtain ⟨he, hr⟩ := compareInt_ok vecResOf K args c0 c1 n hargs.1 pool hpool result
  refine ⟨he, ?_⟩
  rw [hr]
  have h1 : ∀ (c : Column Int) (d : List Int), ({ c with data := d } : Column Int).IsNull i
      = c.IsNull i := fun _ _ => rfl
  rw [h1, Column.mergeNulls_two_isNull _ _ _ _
    (by rw [vecCompareInt_nulls]; simp [Column.Resize]; exact hi)]
  have h2 : (vecCompareInt K (hasUnsignedFlag args 0) (hasUnsignedFlag args 1) c0 c1
      (result.Resize 0 n false)).IsNull i = false := by
    simp [Column.IsNull, vecCompareInt_nulls, Column.Resize, List.getElem?_replicate, hi]
  rw [h2]
  simp

theorem compareInt_row (f : Int → Int) (K : CompareKernels) (hK : K.Correct)
    (args : List (Expr Int)) (c0 c1 : Column Int) (n i : Nat) (a b : Int)
    (hargs : Evaluates args [c0, c1] n) (pool : Pool Int) (hpool : pool.CanLease 2)
    (result : Column Int) (ha : c0.data[i]? = some a) (hb : c1.data[i]? = some b) :
    ∃ d, (compareInt (fun res => res.map f) K args n pool result).result.data[i]?
        = some (f d) ∧
      Int.sign d
        = Int.sign (readAs (hasUnsignedFlag args 0) a - readAs (hasUnsignedFlag args 1) b) := by
  obtain ⟨-, hr⟩ := compareInt_ok (fun res => res.map f) K args c0 c1 n hargs.1 pool hpool result
  have hc0 : c0.HasRows n := hargs.2 c0 (by simp)
  have hi : i < n := by
    have := (List.getElem?_eq_some.mp ha).1
    rw [hc0.2] at this; exact this
  obtain ⟨d, hd1, hd2⟩ := vecCompareInt_delta K hK (hasUnsignedFlag args 0)
    (hasUnsignedFlag args 1) c0 c1 (result.Resize 0 n false) i a b ha hb
    (by rw [(Column.resize_hasRows result 0 n false).2]; exact hi)
  refine ⟨d, ?_, hd2⟩
  rw [hr]
  have h1 : ∀ (c : Column Int) (l : List (Column Int)), (c.MergeNulls l).data = c.data := by
    intro c l
    induction l generalizing c with
    | nil => rfl
    | cons x l ih => simp only [Column.MergeNulls, List.foldl_cons] at ih ⊢; rw [ih]
  simp only [Column.Int64s, h1, List.getElem?_map, hd1, Option.map_some']

/-- C5: for every pair of signedness flags and every row `i` at which both
operands are non-null, with delta kernels that return a value whose sign is
the sign of `A_i - B_i`, a successful call of `builtinLTIntSig.vecEvalInt`
stores 1 iff `A_i < B_i` (else 0), of `builtinLEIntSig.vecEvalInt` 1 iff
`A_i ≤ B_i`, of `builtinGTIntSig.vecEvalInt` 1 iff `A_i > B_i`, where `A_i`
and `B_i` are the 64-bit patterns of the operands read as unsigned when the flag is
set and as signed otherwise; the pattern of `-1` read as unsigned is above 0
and above the maximum signed value. -/
theorem int_compare_signedness (K : CompareKernels) (args : List (Expr Int))
    (c0 c1 : Column Int) (n i : Nat) (a b : Int) (pool : Pool Int) (result : Column Int)
    (hK : K.Correct) (hargs : Evaluates args [c0, c1] n) (hpool : pool.CanLease 2)
    (ha : c0.data[i]? = some a) (hb : c1.data[i]? = some b)
    (hna : c0.IsNull i = false) (hnb : c1.IsNull i = false) :
    ((builtinLTIntSig.vecEvalInt K args n pool result).err = none ∧
      (builtinLTIntSig.vecEvalInt K args n pool result).result.IsNull i = false ∧
      (builtinLTIntSig.vecEvalInt K args n pool result).result.data[i]? =
        some (if readAs (hasUnsignedFlag args 0) a < readAs (hasUnsignedFlag args 1) b
          then 1 else 0)) ∧
    ((builtinLEIntSig.vecEvalInt K args n pool result).err = none ∧
      (builtinLEIntSig.vecEvalInt K args n pool result).result.IsNull i = false ∧
      (builtinLEIntSig.vecEvalInt K args n pool result).result.data[i]? =
        some (if readAs (hasUnsignedFlag args 0) a ≤ readAs (hasUnsignedFlag args 1) b
          then 1 else 0)) ∧
    ((builtinGTIntSig.vecEvalInt K args n pool result).err = none ∧
      (builtinGTIntSig.vecEvalInt K args n pool result).result.IsNull i = false ∧
      (builtinGTIntSig.vecEvalInt K args n pool result).result.data[i]? =
        some (if readAs (hasUnsignedFlag args 0) a > readAs (hasUnsignedFlag args 1) b
          then 1 else 0)) ∧
    (readAs true (-1) > 0 ∧ readAs true (-1) > 2 ^ 63 - 1) := by
  have hc0 : c0.HasRows n := hargs.2 c0 (by simp)
  have hi : i < n := by
    have := (List.getElem?_eq_some.mp ha).1
    rw [hc0.2] at this; exact this
  have hnull : ∀ vecResOf, (compareInt vecResOf K args n pool result).err = none ∧
      (compareInt vecResOf K args n pool result).result.IsNull i = false := by
    intro vecResOf
    obtain ⟨h1, h2⟩ := compareInt_null vecResOf K args c0 c1 n i hargs pool hpool result hi
    exact ⟨h1, by rw [h2, hna, hnb]; rfl⟩
  refine ⟨⟨(hnull _).1, (hnull _).2, ?_⟩, ⟨(hnull _).1, (hnull _).2, ?_⟩,
    ⟨(hnull _).1, (hnull _).2, ?_⟩, ?_⟩
  · obtain ⟨d, hd, hs⟩ := compareInt_row (fun d => if d < 0 then 1 else 0) K hK args c0 c1 n i
      a b hargs pool hpool result ha hb
    have h := (sign_eq_cases _ _ hs).1
    have hd2 : (builtinLTIntSig.vecEvalInt K args n pool result).result.data[i]?
        = some (if d < 0 then 1 else 0) := hd
    rw [hd2]
    by_cases hlt : d < 0
    · have : readAs (hasUnsignedFlag args 0) a < readAs (hasUnsignedFlag args 1) b := by
        have := h.mp hlt; omega
      simp [hlt, this]
    · have : ¬ readAs (hasUnsignedFlag args 0) a < readAs (hasUnsignedFlag args 1) b := by
        intro hc; exact hlt (h.mpr (by omega))
      simp [hlt, this]
  · obtain ⟨d, hd, hs⟩ := compareInt_row (fun d => if d ≤ 0 then 1 else 0) K hK args c0 c1 n i
      a b hargs pool hpool result ha hb
    have h := (sign_eq_cases _ _ hs).2.1
    have hd2 : (builtinLEIntSig.vecEvalInt K args n pool result).result.data[i]?
        = some (if d ≤ 0 then 1 else 0) := hd
    rw [hd2]
    by_cases hlt : d ≤ 0
    · have : readAs (hasUnsignedFlag args 0) a ≤ readAs (hasUnsignedFlag args 1) b := by
        have := h.mp hlt; omega
      simp [hlt, this]
    · have : ¬ readAs (hasUnsignedFlag args 0) a ≤ readAs (hasUnsignedFlag args 1) b := by
        intro hc; exact hlt (h.mpr (by omega))
      simp [hlt, this]
  · obtain ⟨d, hd, hs⟩ := compareInt_row (fun d => if d > 0 then 1 else 0) K hK args c0 c1 n i
      a b hargs pool hpool result ha hb
    have h := (sign_eq_cases _ _ hs).2.2
    have hd2 : (builtinGTIntSig.vecEvalInt K args n pool result).result.data[i]?
        = some (if d > 0 then 1 else 0) := hd
    rw [hd2]
    by_cases hlt : d > 0
    · have : readAs (hasUnsignedFlag args 0) a > readAs (hasUnsignedFlag args 1) b := by
        have := h.mp hlt; omega
      simp [hlt, this]
    · have : ¬ readAs (hasUnsignedFlag args 0) a > readAs (hasUnsignedFlag args 1) b := by
        intro hc; exact hlt (h.mpr (by omega))
      simp [hlt, this]
  · constructor <;> simp [readAs, toUint64]

/-- C6: for the Integer relational signatures `<`, `<=` and `>`, after a
successful batch call the result is null at row `i < n` if and only if the
left operand or the right operand is null at row `i`, whatever the `result`
column held before the call. -/
theorem int_compare_null_iff (K : CompareKernels) (args : List (Expr Int))
    (c0 c1 : Column Int) (n i : Nat) (pool : Pool Int) (result : Column Int)
    (hargs : Evaluates args [c0, c1] n) (hpool : pool.CanLease 2) (hi : i < n) :
    ((builtinLTIntSig.vecEvalInt K args n pool result).err = none ∧
      ((builtinLTIntSig.vecEvalInt K args n pool result).result.IsNull i = true ↔
        c0.IsNull i = true ∨ c1.IsNull i = true)) ∧
    ((builtinLEIntSig.vecEvalInt K args n pool result).err = none ∧
      ((builtinLEIntSig.vecEvalInt K args n pool result).result.IsNull i = true ↔
        c0.IsNull i = true ∨ c1.IsNull i = true)) ∧
    ((builtinGTIntSig.vecEvalInt K args n pool result).err = none ∧
      ((builtinGTIntSig.vecEvalInt K args n pool result).result.IsNull i = true ↔
        c0.IsNull i = true ∨ c1.IsNull i = true)) := by
  have h : ∀ vecResOf, (compareInt vecResOf K args n pool result).err = none ∧
      ((compareInt vecResOf K args n pool result).result.IsNull i = true ↔
        c0.IsNull i = true ∨ c1.IsNull i = true) := by
    intro vecResOf
    obtain ⟨h1, h2⟩ := compareInt_null vecResOf K args c0 c1 n i hargs pool hpool result hi
    exact ⟨h1, by rw [h2]; simp⟩
  exact ⟨h _, h _, h _⟩

/-- The hypotheses of `int_compare_signedness` hold at row 0 of the sample,
where the pattern of `-1` flagged unsigned meets the maximum signed value:
`<` and `<=` store 0 and `>` stores 1. -/
theorem int_compare_signedness_witness :
    (signKernels.Correct ∧ Evaluates sampleCompareArgs sampleCompareCols 3 ∧
      (Pool.ofFresh 2 : Pool Int).CanLease 2) ∧
    (builtinLTIntSig.vecEvalInt signKernels sampleCompareArgs 3 (Pool.ofFresh 2)
      Column.empty).result.data[0]? = some 0 ∧
    (builtinLEIntSig.vecEvalInt signKernels sampleCompareArgs 3 (Pool.ofFresh 2)
      Column.empty).result.data[0]? = some 0 ∧
    (builtinGTIntSig.vecEvalInt signKernels sampleCompareArgs 3 (Pool.ofFresh 2)
      Column.empty).result.data[0]? = some 1 :=
  have h1 : Evaluates sampleCompareArgs sampleCompareCols 3 := ⟨rfl, by decide⟩
  have h2 : (Pool.ofFresh 2 : Pool Int).CanLease 2 := by simp [Pool.CanLease, Pool.ofFresh]
  have h := int_compare_signedness signKernels sampleCompareArgs
    (Column.ofRows 0 [some (-1), some 0, some 5])
    (Column.ofRows 0 [some 9223372036854775807, none, some 7]) 3 0 (-1) 9223372036854775807
    (Pool.ofFresh 2) Column.empty signKernels_correct h1 h2 (by decide) (by decide)
    (by decide) (by decide)
  have e0 : hasUnsignedFlag sampleCompareArgs 0 = true := by decide
  have e1 : hasUnsignedFlag sampleCompareArgs 1 = false := by decide
  ⟨⟨signKernels_correct, h1, h2⟩,
    by simpa [e0, e1, readAs, toUint64] using h.1.2.2,
    by simpa [e0, e1, readAs, toUint64] using h.2.1.2.2,
    by simpa [e0, e1, readAs, toUint64] using h.2.2.1.2.2⟩

/-- The hypotheses of `int_compare_null_iff` hold at row 1 of the sample,
where the right operand is null: the three results are null. -/
theorem int_compare_null_iff_witness :
    (Evaluates sampleCompareArgs sampleCompareCols 3 ∧
      (Pool.ofFresh 2 : Pool Int).CanLease 2 ∧ 1 < 3) ∧
    (builtinLTIntSig.vecEvalInt signKernels sampleCompareArgs 3 (Pool.ofFresh 2)
      Column.empty).result.IsNull 1 = true ∧
    (builtinLEIntSig.vecEvalInt signKernels sampleCompareArgs 3 (Pool.ofFresh 2)
      Column.empty).result.IsNull 1 = true ∧
    (builtinGTIntSig.vecEvalInt signKernels sampleCompareArgs 3 (Pool.ofFresh 2)
      Column.empty).result.IsNull 1 = true :=
  have h1 : Evaluates sampleCompareArgs sampleCompareCols 3 := ⟨rfl, by decide⟩
  have h2 : (Pool.ofFresh 2 : Pool Int).CanLease 2 := by simp [Pool.CanLease, Pool.ofFresh]
  have h := int_compare_null_iff signKernels sampleCompareArgs
    (Column.ofRows 0 [some (-1), some 0, some 5])
    (Column.ofRows 0 [some 9223372036854775807, none, some 7]) 3 1
    (Pool.ofFresh 2) Column.empty h1 h2 (by decide)
  ⟨⟨h1, h2, by decide⟩, h.1.2.mpr (Or.inr (by decide)), h.2.1.2.mpr (Or.inr (by decide)),
    h.2.2.2.mpr (Or.inr (by decide))⟩

/-! ## Where the errors come from -/

theorem Pool.get_error {α : Type} (p : Pool α) (e : Error) (h : (p.get).1 = Except.error e) :
    e = p.allocErr := by
  unfold Pool.get at h
  cases hf : p.free with
  | cons c rest => rw [hf] at h; simp at h
  | nil =>
    rw [hf] at h
    cases hn : p.fresh with
    | zero => rw [hn] at h; simp at h; exact h.symm
    | succ m => rw [hn] at h; simp at h

theorem Pool.get_allocErr {α : Type} (p : Pool α) : (p.get).2.allocErr = p.allocErr := by
  unfold Pool.get
  cases hf : p.free with
  | cons c rest => rfl
  | nil =>
    cases hn : p.fresh with
    | zero => rfl
    | succ m => rfl

theorem vecEvalArg_error {α : Type} (args : List (Expr α)) (j : Nat) (e : Error)
    (hj : j < args.length) (h : vecEvalArg args j = Except.error e) :
    ∃ a ∈ args, a.VecEval = Except.error e := by
  unfold vecEvalArg at h
  rw [List.getElem?_eq_getElem hj] at h
  exact ⟨args[j], List.getElem_mem hj, h⟩

theorem reduceLoop_error {α : Type} (step : Column α → Column α → Column α)
    (args : List (Expr α)) (j : Nat) (s : Body α) (e : Error)
    (h : (reduceLoop step args j s).err = some e) :
    s.err = some e ∨ ∃ a ∈ args, a.VecEval = Except.error e := by
  induction args generalizing j s with
  | nil => exact Or.inl (by simpa [reduceLoop] using h)
  | cons a args ih =>
    cases ha : a.VecEval with
    | error err =>
      simp only [reduceLoop, ha, Option.some.injEq] at h
      exact Or.inr ⟨a, List.mem_cons_self _ _, by rw [ha, h]⟩
    | ok c =>
      simp only [reduceLoop, ha] at h
      rcases ih _ _ h with h1 | ⟨b, hb, hbe⟩
      · exact Or.inl h1
      · exact Or.inr ⟨b, List.mem_cons_of_mem _ hb, hbe⟩

theorem reduceFixed_forwards {α : Type} (step : Nat → Column α → Column α → Column α) :
    ForwardsErrors 1 (fun args n pool result => reduceFixed (step n) args pool result)
      noSearch := by
  intro args n pool result e hk h
  simp only [reduceFixed] at h
  cases hg : pool.get with
  | mk r p =>
    cases r with
    | error err =>
      rw [hg] at h
      simp only [Option.some.injEq] at h
      exact Or.inl (Pool.get_error pool e (by rw [hg, h]))
    | ok buf =>
      rw [hg] at h
      simp only at h
      right; left
      cases h0 : vecEvalArg args 0 with
      | error err =>
        rw [h0] at h
        simp only [Option.some.injEq] at h
        exact vecEvalArg_error args 0 e (by omega) (by rw [h0, h])
      | ok c =>
        rw [h0] at h
        simp only at h
        rcases reduceLoop_error _ _ _ _ e h with h1 | ⟨a, ha, hae⟩
        · simp at h1
        · exact ⟨a, List.mem_of_mem_drop ha, hae⟩

theorem stringLoop_error (keepSrc : List Nat → List Nat → Bool) (n : Nat)
    (args : List (Expr (List Nat))) (j : Nat) (s : StringState) (e : Error)
    (h : (stringLoop keepSrc n args j s).err = some e) :
    s.err = some e ∨ ∃ a ∈ args, a.VecEval = Except.error e := by
  induction args generalizing j s with
  | nil => exact Or.inl (by simpa [stringLoop] using h)
  | cons a args ih =>
    cases ha : a.VecEval with
    | error err =>
      simp only [stringLoop, ha, Option.some.injEq] at h
      exact Or.inr ⟨a, List.mem_cons_self _ _, by rw [ha, h]⟩
    | ok c =>
      simp only [stringLoop, ha] at h
      rcases ih _ _ h with h1 | ⟨b, hb, hbe⟩
      · exact Or.inl (by simpa [stringIter] using h1)
      · exact Or.inr ⟨b, List.mem_cons_of_mem _ hb, hbe⟩

theorem stringFinish_err (k : Nat) (s : StringState) : (stringFinish k s).err = s.err := by
  unfold stringFinish
  cases hs : s.err with
  | some e => simp [hs]
  | none =>
    by_cases hk : k % 2 = 0
    · simp [hk, hs]
    · simp [hk, hs]

theorem reduceString_forwards (keepSrc : List Nat → List Nat → Bool) :
    ForwardsErrors 1 (reduceString keepSrc) noSearch := by
  intro args n pool result e hk h
  simp only [reduceString] at h
  cases h0 : vecEvalArg args 0 with
  | error err =>
    rw [h0] at h
    simp only [Option.some.injEq] at h
    exact Or.inr (Or.inl (vecEvalArg_error args 0 e (by omega) (by rw [h0, h])))
  | ok c =>
    rw [h0] at h
    simp only at h
    cases hg : pool.get with
    | mk r p =>
      rw [hg] at h
      cases r with
      | error err =>
        simp only [Option.some.injEq] at h
        exact Or.inl (Pool.get_error pool e (by rw [hg, h]))
      | ok buf1 =>
        simp only at h
        have hp : p.allocErr = pool.allocErr := by
          have := Pool.get_allocErr pool
          rw [hg] at this; exact this
        cases hg2 : p.get with
        | mk r2 p2 =>
          rw [hg2] at h
          cases r2 with
          | error err =>
            simp only [Option.some.injEq] at h
            exact Or.inl (by rw [← hp]; exact Pool.get_error p e (by rw [hg2, h]))
          | ok buf2 =>
            simp only [stringFinish_err] at h
            rcases stringLoop_error _ _ _ _ _ e h with h1 | ⟨a, ha, hae⟩
            · simp at h1
            · exact Or.inr (Or.inl ⟨a, List.mem_of_mem_drop ha, hae⟩)

theorem compareInt_forwards (vecResOf : List Int → List Int) (K : CompareKernels) :
    ForwardsErrors 2 (compareInt vecResOf K) noSearch := by
  intro args n pool result e hk h
  simp only [compareInt] at h
  cases hg : pool.get with
  | mk r p =>
    rw [hg] at h
    cases r with
    | error err =>
      simp only [Option.some.injEq] at h
      exact Or.inl (Pool.get_error pool e (by rw [hg, h]))
    | ok buf0 =>
      simp only at h
      have hp : p.allocErr = pool.allocErr := by
        have := Pool.get_allocErr pool
        rw [hg] at this; exact this
      cases h0 : vecEvalArg args 0 with
      | error err =>
        rw [h0] at h
        simp only [Option.some.injEq] at h
        exact Or.inr (Or.inl (vecEvalArg_error args 0 e (by omega) (by rw [h0, h])))
      | ok c0 =>
        rw [h0] at h
        simp only at h
        cases hg2 : p.get with
        | mk r2 p2 =>
          rw [hg2] at h
          cases r2 with
          | error err =>
            simp only [Option.some.injEq] at h
            exact Or.inl (by rw [← hp]; exact Pool.get_error p e (by rw [hg2, h]))
          | ok buf1 =>
            simp only at h
            cases h1 : vecEvalArg args 1 with
            | error err =>
              rw [h1] at h
              simp only [Option.some.injEq] at h
              exact Or.inr (Or.inl (vecEvalArg_error args 1 e (by omega) (by rw [h1, h])))
            | ok c1 =>
              rw [h1] at h
              simp at h

theorem intervalIntRows_error
    (binSearch : Int → Bool → List (Expr Int) → Nat → Except Error Int)
    (args : List (Expr Int)) (rows : List Nat) (s : Progress) (e : Error)
    (h : (intervalIntRows binSearch args rows s).err = some e) :
    s.err = some e ∨ searchErrorsInt binSearch args e := by
  induction rows generalizing s with
  | nil => exact Or.inl (by simpa [intervalIntRows] using h)
  | cons i rows ih =>
    unfold intervalIntRows at h
    cases hv : s.result.data[i]? with
    | none =>
      rw [hv] at h
      exact ih _ h
    | some v =>
      rw [hv] at h
      simp only at h
      by_cases hn : s.result.IsNull i = true
      · rw [if_pos hn] at h
        rcases ih _ h with h1 | h1
        · exact Or.inl h1
        · exact Or.inr h1
      · rw [if_neg hn] at h
        cases hb : binSearch v (hasUnsignedFlag args 0) (List.drop 1 args) i with
        | error err =>
          rw [hb] at h
          simp only [Option.some.injEq] at h
          exact Or.inr ⟨v, _, i, by rw [hb, h]⟩
        | ok idx =>
          rw [hb] at h
          rcases ih _ h with h1 | h1
          · exact Or.inl h1
          · exact Or.inr h1

theorem intervalRealRows_error {F : Type}
    (binSearch : F → List (Expr F) → Nat → Except Error Int)
    (args : List (Expr F)) (buf : Column F) (rows : List Nat) (s : Progress) (e : Error)
    (h : (intervalRealRows binSearch args buf rows s).err = some e) :
    s.err = some e ∨ searchErrorsReal binSearch args e := by
  induction rows generalizing s with
  | nil => exact Or.inl (by simpa [intervalRealRows] using h)
  | cons i rows ih =>
    unfold intervalRealRows at h
    by_cases hn : buf.IsNull i = true
    · rw [if_pos hn] at h
      rcases ih _ h with h1 | h1
      · exact Or.inl h1
      · exact Or.inr h1
    · rw [if_neg hn] at h
      cases hv : buf.data[i]? with
      | none =>
        rw [hv] at h
        exact ih _ h
      | some v =>
        rw [hv] at h
        simp only at h
        cases hb : binSearch v (List.drop 1 args) i with
        | error err =>
          rw [hb] at h
          simp only [Option.some.injEq] at h
          exact Or.inr ⟨v, i, by rw [hb, h]⟩
        | ok idx =>
          rw [hb] at h
          rcases ih _ h with h1 | h1
          · exact Or.inl h1
          · exact Or.inr h1

theorem intervalInt_forwards
    (binSearch : Int → Bool → List (Expr Int) → Nat → Except Error Int) :
    ForwardsErrors 1 (builtinIntervalIntSig.vecEvalInt binSearch)
      (searchErrorsInt binSearch) := by
  intro args n pool result e hk h
  simp only [builtinIntervalIntSig.vecEvalInt] at h
  cases h0 : vecEvalArg args 0 with
  | error err =>
    rw [h0] at h
    simp only [Option.some.injEq] at h
    exact Or.inr (Or.inl (vecEvalArg_error args 0 e (by omega) (by rw [h0, h])))
  | ok c =>
    rw [h0] at h
    simp only at h
    rcases intervalIntRows_error _ _ _ _ e h with h1 | h1
    · simp at h1
    · exact Or.inr (Or.inr h1)

theorem intervalReal_forwards {F : Type}
    (binSearch : F → List (Expr F) → Nat → Except Error Int) :
    ForwardsErrors 1 (builtinIntervalRealSig.vecEvalInt binSearch)
      (searchErrorsReal binSearch) := by
  intro args n pool result e hk h
  simp only [builtinIntervalRealSig.vecEvalInt] at h
  cases hg : pool.get with
  | mk r p =>
    rw [hg] at h
    cases r with
    | error err =>
      simp only [Option.some.injEq] at h
      exact Or.inl (Pool.get_error pool e (by rw [hg, h]))
    | ok buf =>
      simp only at h
      cases h0 : vecEvalArg args 0 with
      | error err =>
        rw [h0] at h
        simp only [Option.some.injEq] at h
        exact Or.inr (Or.inl (vecEvalArg_error args 0 e (by omega) (by rw [h0, h])))
      | ok c =>
        rw [h0] at h
        simp only at h
        rcases intervalRealRows_error _ _ _ _ _ e h with h1 | h1
        · simp at h1
        · exact Or.inr (Or.inr h1)

/-- C7, as stated, fails: `builtinGreatestIntSig` is vectorized, and called
with an operand whose batch evaluation returns the "not implemented" error
(as an operand that is itself one of the 13 signatures without a batch path
does) it returns that error. -/
theorem vectorized_returns_not_implemented :
    builtinGreatestIntSig.vectorized = true ∧
    (builtinGreatestIntSig.vecEvalInt [Expr.failing (errors.Errorf "not implemented")] 1
      (Pool.ofFresh 1) Column.empty).err = some (errors.Errorf "not implemented") := by
  decide

/-- C7, amended: each of the 13 signatures whose `vectorized()` returns false
returns the "not implemented" error for every input batch and every output
column, without a lease, without evaluating any operand and without
modifying the output column (no event, `result` and the pool unchanged);
each of the 13 signatures whose `vectorized()` returns true makes no error of
its own: called with the operands it indexes, an error it returns is the
error of a failed lease, of the batch evaluation of an operand or of the boundary
search. -/
theorem not_vectorized_fails_vectorized_forwards :
    ((builtinGEIntSig.vectorized = false ∧ ∀ α, IsNotImplemented (α := α) builtinGEIntSig.vecEvalInt) ∧
      (builtinEQIntSig.vectorized = false ∧ ∀ α, IsNotImplemented (α := α) builtinEQIntSig.vecEvalInt) ∧
      (builtinNEIntSig.vectorized = false ∧ ∀ α, IsNotImplemented (α := α) builtinNEIntSig.vecEvalInt) ∧
      (builtinNullEQIntSig.vectorized = false ∧
        ∀ α, IsNotImplemented (α := α) builtinNullEQIntSig.vecEvalInt) ∧
      (builtinCoalesceIntSig.vectorized = false ∧
        ∀ α, IsNotImplemented (α := α) builtinCoalesceIntSig.vecEvalInt) ∧
      (builtinCoalesceRealSig.vectorized = false ∧
        ∀ α, IsNotImplemented (α := α) builtinCoalesceRealSig.vecEvalReal) ∧
      (builtinCoalesceDecimalSig.vectorized = false ∧
        ∀ α, IsNotImplemented (α := α) builtinCoalesceDecimalSig.vecEvalDecimal) ∧
      (builtinCoalesceStringSig.vectorized = false ∧
        ∀ α, IsNotImplemented (α := α) builtinCoalesceStringSig.vecEvalString) ∧
      (builtinCoalesceDurationSig.vectorized = false ∧
        ∀ α, IsNotImplemented (α := α) builtinCoalesceDurationSig.vecEvalDuration) ∧
      (builtinCoalesceTimeSig.vectorized = false ∧
        ∀ α, IsNotImplemented (α := α) builtinCoalesceTimeSig.vecEvalTime) ∧
      (builtinCoalesceJSONSig.vectorized = false ∧
        ∀ α, IsNotImplemented (α := α) builtinCoalesceJSONSig.vecEvalJSON) ∧
      (builtinGreatestTimeSig.vectorized = false ∧
        ∀ α, IsNotImplemented (α := α) builtinGreatestTimeSig.vecEvalString) ∧
      (builtinLeastTimeSig.vectorized = false ∧
        ∀ α, IsNotImplemented (α := α) builtinLeastTimeSig.vecEvalString)) ∧
    ((builtinGreatestDecimalSig.vectorized = true ∧ ∀ (D : Type) (Compare : D → D → Int),
        ForwardsErrors 1 (builtinGreatestDecimalSig.vecEvalDecimal Compare) noSearch) ∧
      (builtinLeastDecimalSig.vectorized = true ∧ ∀ (D : Type) (Compare : D → D → Int),
        ForwardsErrors 1 (builtinLeastDecimalSig.vecEvalDecimal Compare) noSearch) ∧
      (builtinGreatestIntSig.vectorized = true ∧
        ForwardsErrors 1 builtinGreatestIntSig.vecEvalInt noSearch) ∧
      (builtinLeastIntSig.vectorized = true ∧
        ForwardsErrors 1 builtinLeastIntSig.vecEvalInt noSearch) ∧
      (builtinGreatestRealSig.vectorized = true ∧
        ForwardsErrors 1 builtinGreatestRealSig.vecEvalReal noSearch) ∧
      (builtinLeastRealSig.vectorized = true ∧
        ForwardsErrors 1 builtinLeastRealSig.vecEvalReal noSearch) ∧
      (builtinGreatestStringSig.vectorized = true ∧
        ForwardsErrors 1 builtinGreatestStringSig.vecEvalString noSearch) ∧
      (builtinLeastStringSig.vectorized = true ∧
        ForwardsErrors 1 builtinLeastStringSig.vecEvalString noSearch) ∧
      (builtinLTIntSig.vectorized = true ∧
        ∀ K, ForwardsErrors 2 (builtinLTIntSig.vecEvalInt K) noSearch) ∧
      (builtinLEIntSig.vectorized = true ∧
        ∀ K, ForwardsErrors 2 (builtinLEIntSig.vecEvalInt K) noSearch) ∧
      (builtinGTIntSig.vectorized = true ∧
        ∀ K, ForwardsErrors 2 (builtinGTIntSig.vecEvalInt K) noSearch) ∧
      (builtinIntervalIntSig.vectorized = true ∧ ∀ binSearch,
        ForwardsErrors 1 (builtinIntervalIntSig.vecEvalInt binSearch)
          (searchErrorsInt binSearch)) ∧
      (builtinIntervalRealSig.vectorized = true ∧
        ∀ (F : Type) (binSearch : F → List (Expr F) → Nat → Except Error Int),
          ForwardsErrors 1 (builtinIntervalRealSig.vecEvalInt binSearch)
            (searchErrorsReal binSearch))) := by
  refine ⟨⟨⟨rfl, fun _ _ _ _ _ => rfl⟩, ⟨rfl, fun _ _ _ _ _ => rfl⟩, ⟨rfl, fun _ _ _ _ _ => rfl⟩,
    ⟨rfl, fun _ _ _ _ _ => rfl⟩, ⟨rfl, fun _ _ _ _ _ => rfl⟩, ⟨rfl, fun _ _ _ _ _ => rfl⟩,
    ⟨rfl, fun _ _ _ _ _ => rfl⟩, ⟨rfl, fun _ _ _ _ _ => rfl⟩, ⟨rfl, fun _ _ _ _ _ => rfl⟩,
    ⟨rfl, fun _ _ _ _ _ => rfl⟩, ⟨rfl, fun _ _ _ _ _ => rfl⟩, ⟨rfl, fun _ _ _ _ _ => rfl⟩,
    ⟨rfl, fun _ _ _ _ _ => rfl⟩⟩, ?_⟩
  refine ⟨⟨rfl, fun D Compare => reduceFixed_forwards (greatestDecimalStep Compare)⟩,
    ⟨rfl, fun D Compare =>
      reduceFixed_forwards (mergeStep (fun v cur => decide (Compare v cur < 0)))⟩,
    ⟨rfl, reduceFixed_forwards (mergeStep (fun v cur : Int => decide (v > cur)))⟩,
    ⟨rfl, reduceFixed_forwards (mergeStep (fun v cur : Int => decide (v < cur)))⟩,
    ⟨rfl, reduceFixed_forwards (mergeStep (fun v cur : Float => decide (v > cur)))⟩,
    ⟨rfl, reduceFixed_forwards (mergeStep (fun v cur : Float => decide (v < cur)))⟩,
    ⟨rfl, reduceString_forwards _⟩, ⟨rfl, reduceString_forwards _⟩,
    ⟨rfl, fun K => compareInt_forwards vecResOfLT K⟩,
    ⟨rfl, fun K => compareInt_forwards vecResOfLE K⟩,
    ⟨rfl, fun K => compareInt_forwards vecResOfGT K⟩,
    ⟨rfl, intervalInt_forwards⟩, ⟨rfl, fun F binSearch => intervalReal_forwards binSearch⟩⟩

/-- The second half of `not_vectorized_fails_vectorized_forwards` at a call
of `builtinGreatestIntSig.vecEvalInt` whose operand fails: the error returned
is the one of the operand. -/
theorem not_vectorized_fails_vectorized_forwards_witness :
    (1 ≤ [Expr.failing (α := Int) ⟨"boom"⟩].length ∧
      (builtinGreatestIntSig.vecEvalInt [Expr.failing ⟨"boom"⟩] 1 (Pool.ofFresh 1)
        Column.empty).err = some ⟨"boom"⟩) ∧
    ((⟨"boom"⟩ : Error) = (Pool.ofFresh 1 : Pool Int).allocErr ∨
      (∃ a ∈ [Expr.failing (α := Int) ⟨"boom"⟩], a.VecEval = Except.error ⟨"boom"⟩) ∨
      noSearch [Expr.failing (α := Int) ⟨"boom"⟩] ⟨"boom"⟩) :=
  ⟨⟨by decide, by decide⟩,
    not_vectorized_fails_vectorized_forwards.2.2.2.1.2 [Expr.failing ⟨"boom"⟩] 1
      (Pool.ofFresh 1) Column.empty ⟨"boom"⟩ (by decide) (by decide)⟩

/-- C8, as stated, fails: on the operands of `sampleCompareArgs` the batch
entry point of `builtinGEIntSig` does not succeed, it returns the
"not implemented" error, and it stores neither 1 nor 0 at any row, the
`result` column staying as it was (here: without rows). -/
theorem ge_int_batch_call_fails :
    (builtinGEIntSig.vecEvalInt sampleCompareArgs 3 (Pool.ofFresh 2) Column.empty).err
      = some (errors.Errorf "not implemented") ∧
    (builtinGEIntSig.vecEvalInt sampleCompareArgs 3 (Pool.ofFresh 2) Column.empty).result.data[2]?
      = none := by
  decide

/-- C8, amended: the Integer `>=` operator has no batch path:
`builtinGEIntSig.vectorized()` returns false, and its batch entry point
returns the "not implemented" error for every input, with no lease, no
operand evaluated and the `result` column unchanged. -/
theorem ge_int_not_vectorized {α : Type} (args : List (Expr α)) (n : Nat) (pool : Pool α)
    (result : Column α) :
    builtinGEIntSig.vectorized = false ∧
    (builtinGEIntSig.vecEvalInt args n pool result).err
      = some (errors.Errorf "not implemented") ∧
    (builtinGEIntSig.vecEvalInt args n pool result).result = result ∧
    (builtinGEIntSig.vecEvalInt args n pool result).pool = pool ∧
    (builtinGEIntSig.vecEvalInt args n pool result).log = [] :=
  ⟨rfl, rfl, rfl, rfl, rfl⟩

/-! ## `INTERVAL` -/

theorem intervalIntRows_other
    (binSearch : Int → Bool → List (Expr Int) → Nat → Except Error Int)
    (args : List (Expr Int)) (i : Nat) (rows : List Nat) (s : Progress) (hi : i ∉ rows) :
    (intervalIntRows binSearch args rows s).result.row i = s.result.row i ∧
    (Event.binSearch i ∈ (intervalIntRows binSearch args rows s).log →
      Event.binSearch i ∈ s.log) := by
  induction rows generalizing s with
  | nil => simp [intervalIntRows]
  | cons j rows ih =>
    have hji : j ≠ i := fun h => hi (by rw [h]; exact List.mem_cons_self _ _)
    have hrest : i ∉ rows := fun h => hi (List.mem_cons_of_mem _ h)
    unfold intervalIntRows
    cases hv : s.result.data[j]? with
    | none => exact ih s hrest
    | some v =>
      simp only
      by_cases hn : s.result.IsNull j = true
      · rw [if_pos hn]
        obtain ⟨h1, h2⟩ := ih
          { s with result := { (s.result.SetNull j false) with
              data := (s.result.SetNull j false).data.set j (-1) } } hrest
        refine ⟨?_, h2⟩
        rw [h1]
        simp [Column.row_eq, Column.SetNull, List.getElem?_set, hji]
      · rw [if_neg hn]
        cases hb : binSearch v (hasUnsignedFlag args 0) (List.drop 1 args) j with
        | error err =>
          refine ⟨rfl, ?_⟩
          intro hmem
          simp only [List.mem_append, List.mem_singleton, Event.binSearch.injEq] at hmem
          rcases hmem with h | h
          · exact h
          · exact absurd h.symm hji
        | ok idx =>
          obtain ⟨h1, h2⟩ := ih
            { s with result := { s.result with data := s.result.data.set j idx }
                     log := s.log ++ [.binSearch j] } hrest
          refine ⟨?_, ?_⟩
          · rw [h1]
            simp [Column.row_eq, List.getElem?_set, hji]
          · intro hmem
            have := h2 hmem
            simp only [List.mem_append, List.mem_singleton, Event.binSearch.injEq] at this
            rcases this with h | h
            · exact h
            · exact absurd h.symm hji

theorem intervalIntRows_null
    (binSearch : Int → Bool → List (Expr Int) → Nat → Except Error Int)
    (args : List (Expr Int)) (i : Nat) (rows : List Nat) (s : Progress)
    (hnodup : rows.Nodup) (hi : i ∈ rows) (hnull : s.result.IsNull i = true)
    (hlen : i < s.result.data.length) (hlog : Event.binSearch i ∉ s.log)
    (hok : (intervalIntRows binSearch args rows s).err = none) :
    (intervalIntRows binSearch args rows s).result.row i = (some false, some (-1)) ∧
    Event.binSearch i ∉ (intervalIntRows binSearch args rows s).log := by
  induction rows generalizing s with
  | nil => simp at hi
  | cons j rows ih =>
    obtain ⟨hj, hnd⟩ := List.nodup_cons.mp hnodup
    unfold intervalIntRows at hok ⊢
    by_cases hji : j = i
    · subst hji
      have hv : s.result.data[j]? = some s.result.data[j] := List.getElem?_eq_getElem hlen
      rw [hv] at hok ⊢
      simp only [hnull, if_true] at hok ⊢
      obtain ⟨h1, h2⟩ := intervalIntRows_other binSearch args j rows
        { s with result := { (s.result.SetNull j false) with
            data := (s.result.SetNull j false).data.set j (-1) } } hj
      have hnl : j < s.result.nulls.length := by
        by_contra hc
        have : s.result.nulls[j]? = none := List.getElem?_eq_none (by omega)
        simp [Column.IsNull, this] at hnull
      refine ⟨?_, fun hmem => hlog (h2 hmem)⟩
      rw [h1]
      simp [Column.row_eq, Column.SetNull, List.getElem?_set, hnl, hlen]
    · have hmem : i ∈ rows := by
        rcases List.mem_cons.mp hi with h | h
        · exact absurd h.symm hji
        · exact h
      cases hv : s.result.data[j]? with
      | none =>
        rw [hv] at hok
        exact ih s hnd hmem hnull hlen hlog hok
      | some v =>
        rw [hv] at hok
        simp only at hok ⊢
        by_cases hn : s.result.IsNull j = true
        · rw [if_pos hn] at hok ⊢
          refine ih _ hnd hmem ?_ ?_ hlog hok
          · simpa [Column.IsNull, Column.SetNull, List.getElem?_set, hji] using hnull
          · simpa [Column.SetNull] using hlen
        · rw [if_neg hn] at hok ⊢
          cases hb : binSearch v (hasUnsignedFlag args 0) (List.drop 1 args) j with
          | error err => rw [hb] at hok; simp at hok
          | ok idx =>
            rw [hb] at hok
            simp only at hok ⊢
            refine ih _ hnd hmem ?_ ?_ ?_ hok
            · simpa [Column.IsNull] using hnull
            · simpa using hlen
            · intro hm
              simp only [List.mem_append, List.mem_singleton, Event.binSearch.injEq] at hm
              rcases hm with h | h
              · exact hlog h
              · exact hji h.symm

theorem intervalRealRows_other {F : Type}
    (binSearch : F → List (Expr F) → Nat → Except Error Int)
    (args : List (Expr F)) (buf : Column F) (i : Nat) (rows : List Nat) (s : Progress)
    (hi : i ∉ rows) :
    (intervalRealRows binSearch args buf rows s).result.row i = s.result.row i ∧
    (Event.binSearch i ∈ (intervalRealRows binSearch args buf rows s).log →
      Event.binSearch i ∈ s.log) := by
  induction rows generalizing s with
  | nil => simp [intervalRealRows]
  | cons j rows ih =>
    have hji : j ≠ i := fun h => hi (by rw [h]; exact List.mem_cons_self _ _)
    have hrest : i ∉ rows := fun h => hi (List.mem_cons_of_mem _ h)
    unfold intervalRealRows
    by_cases hn : buf.IsNull j = true
    · rw [if_pos hn]
      obtain ⟨h1, h2⟩ := ih
        { s with result := { s.result with data := s.result.data.set j (-1) } } hrest
      refine ⟨?_, h2⟩
      rw [h1]
      simp [Column.row_eq, List.getElem?_set, hji]
    · rw [if_neg hn]
      cases hv : buf.data[j]? with
      | none => exact ih s hrest
      | some v =>
        simp only
        cases hb : binSearch v (List.drop 1 args) j with
        | error err =>
          refine ⟨rfl, ?_⟩
          intro hmem
          simp only [List.mem_append, List.mem_singleton, Event.binSearch.injEq] at hmem
          rcases hmem with h | h
          · exact h
          · exact absurd h.symm hji
        | ok idx =>
          obtain ⟨h1, h2⟩ := ih
            { s with result := { s.result with data := s.result.data.set j idx }
                     log := s.log ++ [.binSearch j] } hrest
          refine ⟨?_, ?_⟩
          · rw [h1]
            simp [Column.row_eq, List.getElem?_set, hji]
          · intro hmem
            have := h2 hmem
            simp only [List.mem_append, List.mem_singleton, Event.binSearch.injEq] at this
            rcases this with h | h
            · exact h
            · exact absurd h.symm hji

theorem intervalRealRows_null {F : Type}
    (binSearch : F → List (Expr F) → Nat → Except Error Int)
    (args : List (Expr F)) (buf : Column F) (i : Nat) (rows : List Nat) (s : Progress)
    (hnodup : rows.Nodup) (hi : i ∈ rows) (hnull : buf.IsNull i = true)
    (hflag : s.result.nulls[i]? = some false)
    (hlen : i < s.result.data.length) (hlog : Event.binSearch i ∉ s.log)
    (hok : (intervalRealRows binSearch args buf rows s).err = none) :
    (intervalRealRows binSearch args buf rows s).result.row i = (some false, some (-1)) ∧
    Event.binSearch i ∉ (intervalRealRows binSearch args buf rows s).log := by
  induction rows generalizing s with
  | nil => simp at hi
  | cons j rows ih =>
    obtain ⟨hj, hnd⟩ := List.nodup_cons.mp hnodup
    unfold intervalRealRows at hok ⊢
    by_cases hji : j = i
    · subst hji
      simp only [hnull, if_true] at hok ⊢
      obtain ⟨h1, h2⟩ := intervalRealRows_other binSearch args buf j rows
        { s with result := { s.result with data := s.result.data.set j (-1) } } hj
      refine ⟨?_, fun hmem => hlog (h2 hmem)⟩
      rw [h1]
      simp [Column.row_eq, List.getElem?_set, hflag, hlen]
    · have hmem : i ∈ rows := by
        rcases List.mem_cons.mp hi with h | h
        · exact absurd h.symm hji
        · exact h
      by_cases hn : buf.IsNull j = true
      · rw [if_pos hn] at hok ⊢
        refine ih _ hnd hmem ?_ ?_ hlog hok
        · simpa using hflag
        · simpa using hlen
      · rw [if_neg hn] at hok ⊢
        cases hv : buf.data[j]? with
        | none =>
          rw [hv] at hok
          exact ih s hnd hmem hflag hlen hlog hok
        | some v =>
          rw [hv] at hok
          simp only at hok ⊢
          cases hb : binSearch v (List.drop 1 args) j with
          | error err => rw [hb] at hok; simp at hok
          | ok idx =>
            rw [hb] at hok
            simp only at hok ⊢
            refine ih _ hnd hmem ?_ ?_ ?_ hok
            · simpa using hflag
            · simpa using hlen
            · intro hm
              simp only [List.mem_append, List.mem_singleton, Event.binSearch.injEq] at hm
              rcases hm with h | h
              · exact hlog h
              · exact hji h.symm

/-- C9: for both `INTERVAL` variants, for every row `i` at which the target
operand (of `n` rows) is null, a successful call leaves `result[i] = -1` with
the null flag of `result` at row `i` cleared, and `binSearch`, the only place
where the boundary sub-expressions `b.args[1:]` are evaluated, is not called
for that row.  `F` is the type of the `float64` values. -/
theorem interval_null_target {F : Type}
    (binSearchInt : Int → Bool → List (Expr Int) → Nat → Except Error Int)
    (binSearchReal : F → List (Expr F) → Nat → Except Error Int)
    (argsInt : List (Expr Int)) (argsReal : List (Expr F)) (target : Column Int)
    (targetReal : Column F) (n i : Nat) (poolInt : Pool Int) (poolReal : Pool F)
    (resultInt resultReal : Column Int)
    (hInt : vecEvalArg argsInt 0 = Except.ok target) (hrowsInt : target.HasRows n)
    (hReal : vecEvalArg argsReal 0 = Except.ok targetReal)
    (hi : i < n) (hnullInt : target.IsNull i = true) (hnullReal : targetReal.IsNull i = true)
    (hokInt : (builtinIntervalIntSig.vecEvalInt binSearchInt argsInt n poolInt resultInt).err
      = none)
    (hokReal : (builtinIntervalRealSig.vecEvalInt binSearchReal argsReal n poolReal
      resultReal).err = none) :
    ((builtinIntervalIntSig.vecEvalInt binSearchInt argsInt n poolInt resultInt).result.data[i]?
        = some (-1) ∧
      (builtinIntervalIntSig.vecEvalInt binSearchInt argsInt n poolInt resultInt).result.IsNull i
        = false ∧
      Event.binSearch i ∉
        (builtinIntervalIntSig.vecEvalInt binSearchInt argsInt n poolInt resultInt).log) ∧
    ((builtinIntervalRealSig.vecEvalInt binSearchReal argsReal n poolReal
        resultReal).result.data[i]? = some (-1) ∧
      (builtinIntervalRealSig.vecEvalInt binSearchReal argsReal n poolReal
        resultReal).result.IsNull i = false ∧
      Event.binSearch i ∉
        (builtinIntervalRealSig.vecEvalInt binSearchReal argsReal n poolReal resultReal).log) := by
  constructor
  · unfold builtinIntervalIntSig.vecEvalInt at hokInt ⊢
    rw [hInt] at hokInt ⊢
    simp only at hokInt ⊢
    obtain ⟨h1, h2⟩ := intervalIntRows_null binSearchInt argsInt i
      (List.range target.Int64s.length) ⟨none, target, [.eval 0]⟩ (List.nodup_range _)
      (by rw [List.mem_range]; show i < target.data.length; rw [hrowsInt.2]; exact hi)
      hnullInt (by show i < target.data.length; rw [hrowsInt.2]; exact hi) (by simp) hokInt
    rw [Column.row_eq] at h1
    have h3 := congrArg Prod.fst h1
    have h4 := congrArg Prod.snd h1
    simp only at h3 h4
    exact ⟨h4, by simp [Column.IsNull, h3], h2⟩
  · unfold builtinIntervalRealSig.vecEvalInt at hokReal ⊢
    cases hg : poolReal.get with
    | mk r p =>
      rw [hg] at hokReal
      cases r with
      | error err => simp at hokReal
      | ok buf =>
        simp only at hokReal ⊢
        rw [hReal] at hokReal ⊢
        simp only at hokReal ⊢
        obtain ⟨h1, h2⟩ := intervalRealRows_null binSearchReal argsReal targetReal i
          (List.range n) ⟨none, resultReal.Resize 0 n false, [.get 0, .eval 0]⟩
          (List.nodup_range _) (by rw [List.mem_range]; exact hi) hnullReal
          (by simp [Column.Resize, List.getElem?_replicate, hi])
          (by simp [Column.Resize]; exact hi) (by simp) hokReal
        rw [Column.row_eq] at h1
        have h3 := congrArg Prod.fst h1
        have h4 := congrArg Prod.snd h1
        simp only at h3 h4
        refine ⟨h4, by simp [Column.IsNull, h3], ?_⟩
        intro hmem
        simp only [List.mem_append, List.mem_singleton] at hmem
        rcases hmem with h | h
        · exact h2 h
        · exact Event.noConfusion h

/-- The hypotheses of `interval_null_target` hold at row 0 of
`INTERVAL(t, 1, 3, 5, 9)` with `t = (NULL, 5)`. -/
theorem interval_null_target_witness :
    (vecEvalArg sampleIntervalArgs 0 = Except.ok (Column.ofRows 0 [none, some 5]) ∧
      (Column.ofRows (0 : Int) [none, some 5]).HasRows 2 ∧ 0 < 2 ∧
      (Column.ofRows (0 : Int) [none, some 5]).IsNull 0 = true ∧
      (builtinIntervalIntSig.vecEvalInt sampleIntSearch sampleIntervalArgs 2
        (Pool.ofFresh 0) Column.empty).err = none ∧
      (builtinIntervalRealSig.vecEvalInt sampleRealSearch sampleIntervalArgs 2
        (Pool.ofFresh 1) Column.empty).err = none) ∧
    ((builtinIntervalIntSig.vecEvalInt sampleIntSearch sampleIntervalArgs 2
        (Pool.ofFresh 0) Column.empty).result.data[0]? = some (-1) ∧
      (builtinIntervalIntSig.vecEvalInt sampleIntSearch sampleIntervalArgs 2
        (Pool.ofFresh 0) Column.empty).result.IsNull 0 = false ∧
      Event.binSearch 0 ∉
        (builtinIntervalIntSig.vecEvalInt sampleIntSearch sampleIntervalArgs 2
          (Pool.ofFresh 0) Column.empty).log) ∧
    ((builtinIntervalRealSig.vecEvalInt sampleRealSearch sampleIntervalArgs 2
        (Pool.ofFresh 1) Column.empty).result.data[0]? = some (-1) ∧
      (builtinIntervalRealSig.vecEvalInt sampleRealSearch sampleIntervalArgs 2
        (Pool.ofFresh 1) Column.empty).result.IsNull 0 = false ∧
      Event.binSearch 0 ∉
        (builtinIntervalRealSig.vecEvalInt sampleRealSearch sampleIntervalArgs 2
          (Pool.ofFresh 1) Column.empty).log) :=
  have h1 : vecEvalArg sampleIntervalArgs 0 = Except.ok (Column.ofRows 0 [none, some 5]) := rfl
  have h2 : (Column.ofRows (0 : Int) [none, some 5]).HasRows 2 := by decide
  have h3 : (Column.ofRows (0 : Int) [none, some 5]).IsNull 0 = true := by decide
  have h4 : (builtinIntervalIntSig.vecEvalInt sampleIntSearch
      sampleIntervalArgs 2 (Pool.ofFresh 0) Column.empty).err = none := by decide
  have h5 : (builtinIntervalRealSig.vecEvalInt sampleRealSearch sampleIntervalArgs 2
      (Pool.ofFresh 1) Column.empty).err = none := by decide
  ⟨⟨h1, h2, by decide, h3, h4, h5⟩,
    interval_null_target sampleIntSearch sampleRealSearch sampleIntervalArgs
      sampleIntervalArgs (Column.ofRows 0 [none, some 5]) (Column.ofRows 0 [none, some 5]) 2 0
      (Pool.ofFresh 0) (Pool.ofFresh 1) Column.empty Column.empty h1 h2 h1 (by decide) h3 h3
      h4 h5⟩

/-! ## Failing calls stop at the first failure -/

theorem FirstFailure.zero {α : Type} {a : Expr α} {rest : List (Expr α)} {e : Error}
    (h : FirstFailure (a :: rest) 0 e) : a.VecEval = Except.error e := by
  obtain ⟨⟨b, hb, hbe⟩, -⟩ := h
  simp only [List.getElem?_cons_zero, Option.some.injEq] at hb
  rw [hb]; exact hbe

theorem FirstFailure.succ {α : Type} {a : Expr α} {rest : List (Expr α)} {j : Nat}
    {e : Error} (h : FirstFailure (a :: rest) (j + 1) e) :
    (∃ c, a.VecEval = Except.ok c) ∧ FirstFailure rest j e := by
  obtain ⟨⟨b, hb, hbe⟩, hk⟩ := h
  refine ⟨?_, ⟨b, by simpa using hb, hbe⟩, ?_⟩
  · obtain ⟨a2, c, ha2, hc⟩ := hk 0 (by omega)
    simp only [List.getElem?_cons_zero, Option.some.injEq] at ha2
    exact ⟨c, by rw [ha2]; exact hc⟩
  · intro k hkj
    obtain ⟨a2, c, ha2, hc⟩ := hk (k + 1) (by omega)
    exact ⟨a2, c, by simpa using ha2, hc⟩

theorem FirstFailure.vecEvalArg {α : Type} {args : List (Expr α)} {j : Nat} {e : Error}
    (h : FirstFailure args j e) : vecEvalArg args j = Except.error e := by
  obtain ⟨⟨b, hb, hbe⟩, -⟩ := h
  simp [Expression.vecEvalArg, hb, hbe]

theorem FirstFailure.vecEvalArg_before {α : Type} {args : List (Expr α)} {j k : Nat}
    {e : Error} (h : FirstFailure args j e) (hk : k < j) :
    ∃ c, Expression.vecEvalArg args k = Except.ok c := by
  obtain ⟨a, c, ha, hc⟩ := h.2 k hk
  exact ⟨c, by simp [Expression.vecEvalArg, ha, hc]⟩

theorem FirstFailure.drop_one {α : Type} {args : List (Expr α)} {j : Nat} {e : Error}
    (h : FirstFailure args (j + 1) e) : FirstFailure (args.drop 1) j e := by
  cases args with
  | nil =>
    obtain ⟨⟨b, hb, -⟩, -⟩ := h
    simp at hb
  | cons a rest => exact h.succ.2

theorem evals_succ (a len : Nat) : evals a (len + 1) = Event.eval a :: evals (a + 1) len := by
  simp [evals, List.range'_succ]

theorem reduceLoop_fail {α : Type} (step : Column α → Column α → Column α)
    (args : List (Expr α)) (j : Nat) (e : Error) (hf : FirstFailure args j e) (j0 : Nat)
    (s : Body α) :
    (reduceLoop step args j0 s).err = some e ∧
    (reduceLoop step args j0 s).log = s.log ++ evals j0 (j + 1) := by
  induction args generalizing j j0 s with
  | nil =>
    obtain ⟨⟨b, hb, -⟩, -⟩ := hf
    simp at hb
  | cons a rest ih =>
    cases j with
    | zero =>
      have ha := hf.zero
      simp [reduceLoop, ha, evals]
    | succ j =>
      obtain ⟨⟨c, hc⟩, hrest⟩ := hf.succ
      obtain ⟨h1, h2⟩ := ih j hrest (j0 + 1)
        { s with buf := c, result := step c s.result, log := s.log ++ [.eval j0] }
      simp only [reduceLoop, hc]
      refine ⟨h1, ?_⟩
      rw [h2, evals_succ j0 (j + 1)]
      simp

theorem Pool.get_of_capacity_zero {α : Type} (p : Pool α) (h : p.capacity = 0) :
    p.get = (Except.error p.allocErr, p) := by
  unfold Pool.capacity at h
  have h1 : p.free = [] := List.length_eq_zero.mp (by omega)
  have h2 : p.fresh = 0 := by omega
  unfold Pool.get
  rw [h1, h2]

theorem Pool.get_capacity {α : Type} (p : Pool α) (k : Nat) (h : p.capacity = k + 1) :
    ∃ buf, p.get = (Except.ok buf, (p.get).2) ∧ (p.get).2.capacity = k ∧
      (p.get).2.allocErr = p.allocErr ∧ (p.get).2.leased = p.leased + 1 := by
  unfold Pool.capacity at h
  unfold Pool.get
  cases hf : p.free with
  | cons c rest =>
    rw [hf] at h
    refine ⟨c, rfl, ?_, rfl, rfl⟩
    simp [Pool.capacity] at h ⊢
    omega
  | nil =>
    rw [hf] at h
    cases hn : p.fresh with
    | zero => rw [hn] at h; simp at h
    | succ m =>
      rw [hn] at h
      refine ⟨Column.empty, rfl, ?_, rfl, rfl⟩
      simp [Pool.capacity, hf] at h ⊢
      omega

theorem reduceFixed_failFast {α : Type} (step : Nat → Column α → Column α → Column α) :
    FailFastFixed (fun args n pool result => reduceFixed (step n) args pool result) := by
  intro args n pool result
  constructor
  · intro h0
    simp [reduceFixed, Pool.get_of_capacity_zero pool h0]
  · intro j e hp hf
    obtain ⟨buf, hget, -⟩ := Pool.get_ok pool 0 hp
    have hg : pool.get = (Except.ok buf, (pool.get).2) := by rw [← hget]
    simp only [reduceFixed]
    rw [hg]
    simp only
    cases j with
    | zero =>
      rw [hf.vecEvalArg]
      simp [evals]
    | succ j =>
      obtain ⟨c, hc⟩ := hf.vecEvalArg_before (Nat.succ_pos j)
      rw [hc]
      simp only
      obtain ⟨h1, h2⟩ := reduceLoop_fail (step n) (args.drop 1) j e hf.drop_one 1
        ⟨none, c, buf, [.get 0, .eval 0]⟩
      refine ⟨h1, ?_⟩
      rw [h2, evals_succ 0 (j + 1)]
      simp

theorem stringLoop_fail (keepSrc : List Nat → List Nat → Bool) (n : Nat)
    (args : List (Expr (List Nat))) (j : Nat) (e : Error) (hf : FirstFailure args j e)
    (j0 : Nat) (s : StringState) :
    (stringLoop keepSrc n args j0 s).err = some e ∧
    (stringLoop keepSrc n args j0 s).log = s.log ++ evals j0 (j + 1) := by
  induction args generalizing j j0 s with
  | nil =>
    obtain ⟨⟨b, hb, -⟩, -⟩ := hf
    simp at hb
  | cons a rest ih =>
    cases j with
    | zero =>
      have ha := hf.zero
      simp [stringLoop, ha, evals]
    | succ j =>
      obtain ⟨⟨c, hc⟩, hrest⟩ := hf.succ
      obtain ⟨h1, h2⟩ := ih j hrest (j0 + 1) (stringIter keepSrc n j0 c s)
      simp only [stringLoop, hc]
      refine ⟨h1, ?_⟩
      rw [h2, evals_succ j0 (j + 1)]
      simp [stringIter]

theorem reduceString_failFast (keepSrc : List Nat → List Nat → Bool) :
    FailFastString (reduceString keepSrc) := by
  intro args n pool result
  refine ⟨?_, ?_, ?_, ?_⟩
  · intro e hf
    simp [reduceString, hf.vecEvalArg]
  · intro c hc h0
    simp [reduceString, hc, Pool.get_of_capacity_zero pool h0]
  · intro c hc h1
    obtain ⟨buf, hg, hcap, herr, -⟩ := Pool.get_capacity pool 0 h1
    simp only [reduceString, hc]
    rw [hg]
    simp only
    rw [Pool.get_of_capacity_zero _ hcap]
    simp [herr]
  · intro j e hp hf
    obtain ⟨c, hc⟩ := hf.vecEvalArg_before (Nat.succ_pos j)
    obtain ⟨b1, hg1, hp1⟩ := Pool.get_ok pool 1 hp
    obtain ⟨b2, hg2, -⟩ := Pool.get_ok (pool.get).2 0 hp1
    have e1 : pool.get = (Except.ok b1, (pool.get).2) := by rw [← hg1]
    have e2 : (pool.get).2.get = (Except.ok b2, ((pool.get).2.get).2) := by rw [← hg2]
    obtain ⟨h1, h2⟩ := stringLoop_fail keepSrc n (args.drop 1) j e hf.drop_one 1
      ⟨none, ⟨c, b1, b2⟩, .result, .buf1, .buf2, [.eval 0, .get 0, .get 1]⟩
    simp only [reduceString, hc]
    rw [e1]
    simp only
    rw [e2]
    simp only [stringFinish_err]
    refine ⟨h1, ?_⟩
    have hfin : ∀ s : StringState, s.err = some e → stringFinish args.length s = s := by
      intro s hs
      simp [stringFinish, hs]
    rw [hfin _ h1, h2]

theorem compareInt_failFast (vecResOf : List Int → List Int) (K : CompareKernels) :
    FailFastCompare (compareInt vecResOf K) := by
  intro args n pool result
  refine ⟨?_, ?_, ?_, ?_⟩
  · intro h0
    simp [compareInt, Pool.get_of_capacity_zero pool h0]
  · intro e hp hf
    obtain ⟨b0, hg, -⟩ := Pool.get_ok pool 0 hp
    have e1 : pool.get = (Except.ok b0, (pool.get).2) := by rw [← hg]
    simp only [compareInt]
    rw [e1]
    simp [hf.vecEvalArg]
  · intro c hc h1
    obtain ⟨buf, hg, hcap, herr, -⟩ := Pool.get_capacity pool 0 h1
    simp only [compareInt]
    rw [hg]
    simp only [hc]
    rw [Pool.get_of_capacity_zero _ hcap]
    simp [herr]
  · intro e hp hf
    obtain ⟨c, hc⟩ := hf.vecEvalArg_before (Nat.zero_lt_one)
    obtain ⟨b1, hg1, hp1⟩ := Pool.get_ok pool 1 hp
    obtain ⟨b2, hg2, -⟩ := Pool.get_ok (pool.get).2 0 hp1
    have e1 : pool.get = (Except.ok b1, (pool.get).2) := by rw [← hg1]
    have e2 : (pool.get).2.get = (Except.ok b2, ((pool.get).2.get).2) := by rw [← hg2]
    simp only [compareInt]
    rw [e1]
    simp only [hc]
    rw [e2]
    simp [hf.vecEvalArg]

theorem searches_zero {α : Type} (c : Column α) (a : Nat) : searches c a 0 = [] := by
  simp [searches]

theorem searches_succ {α : Type} (c : Column α) (a len : Nat) :
    searches c a (len + 1)
      = (if c.IsNull a then [] else [Event.binSearch a]) ++ searches c (a + 1) len := by
  by_cases h : c.IsNull a = true
  · simp [searches, List.range'_succ, h]
  · simp [searches, List.range'_succ, h]

theorem intervalIntRows_fail
    (binSearch : Int → Bool → List (Expr Int) → Nat → Except Error Int)
    (args : List (Expr Int)) (c : Column Int) (i : Nat) (e : Error)
    (hi : i < c.data.length)
    (hf : FirstSearchFailure c.IsNull (targetSearchInt binSearch args c) i e)
    (len a : Nat) (s : Progress) (ha : a ≤ i) (hlen : i < a + len)
    (hrows : ∀ r, a ≤ r → s.result.row r = c.row r) :
    (intervalIntRows binSearch args (List.range' a len) s).err = some e ∧
    (intervalIntRows binSearch args (List.range' a len) s).log
      = s.log ++ searches c a (i - a) ++ [.binSearch i] ∧
    ∀ r, i ≤ r →
      (intervalIntRows binSearch args (List.range' a len) s).result.row r = c.row r := by
  induction len generalizing a s with
  | zero => omega
  | succ len ih =>
    rw [List.range'_succ]
    unfold intervalIntRows
    have hrow := hrows a (le_refl a)
    have hda : a < c.data.length := by omega
    obtain ⟨v, hv⟩ : ∃ v, c.data[a]? = some v := ⟨_, List.getElem?_eq_getElem hda⟩
    have hsv : s.result.data[a]? = some v := by
      have := congrArg Prod.snd hrow
      simp only [Column.row_eq] at this
      rw [this, hv]
    have hsn : s.result.IsNull a = c.IsNull a := by
      rw [Column.isNull_eq, Column.isNull_eq, hrow]
    rw [hsv]
    simp only
    by_cases hai : a = i
    · subst hai
      obtain ⟨hnn, hse, -⟩ := hf
      have hb : binSearch v (hasUnsignedFlag args 0) (List.drop 1 args) a = Except.error e := by
        simpa [targetSearchInt, hv] using hse
      rw [hsn, hnn, hb]
      simp only [Bool.false_eq_true, if_false]
      refine ⟨trivial, by simp [searches_zero], ?_⟩
      intro r hr
      exact hrows r hr
    · have hlt : a < i := by omega
      have hsub : i - a = (i - (a + 1)) + 1 := by omega
      by_cases hn : c.IsNull a = true
      · rw [hsn, if_pos hn]
        obtain ⟨h1, h2, h3⟩ := ih (a + 1)
          { s with result := { (s.result.SetNull a false) with
              data := (s.result.SetNull a false).data.set a (-1) } }
          (by omega) (by omega)
          (by
            intro r hr
            have hne : ¬ a = r := by omega
            rw [← hrows r (by omega)]
            simp [Column.row_eq, Column.SetNull, List.getElem?_set, hne])
        refine ⟨h1, ?_, h3⟩
        rw [h2, hsub, searches_succ, hn]
        simp
      · rw [hsn, if_neg hn]
        have hn2 : c.IsNull a = false := by simpa using hn
        obtain ⟨idx, hidx⟩ := hf.2.2 a hlt hn2
        have hb : binSearch v (hasUnsignedFlag args 0) (List.drop 1 args) a = Except.ok idx := by
          simpa [targetSearchInt, hv] using hidx
        rw [hb]
        simp only
        obtain ⟨h1, h2, h3⟩ := ih (a + 1)
          { s with result := { s.result with data := s.result.data.set a idx }
                   log := s.log ++ [.binSearch a] }
          (by omega) (by omega)
          (by
            intro r hr
            have hne : ¬ a = r := by omega
            rw [← hrows r (by omega)]
            simp [Column.row_eq, List.getElem?_set, hne])
        refine ⟨h1, ?_, h3⟩
        rw [h2, hsub, searches_succ, hn2]
        simp

theorem intervalInt_failFast
    (binSearch : Int → Bool → List (Expr Int) → Nat → Except Error Int) :
    FailFastIntervalInt binSearch := by
  intro args n pool result
  constructor
  · intro e hf
    simp [builtinIntervalIntSig.vecEvalInt, hf.vecEvalArg]
  · intro c i e hc hi hf
    simp only [builtinIntervalIntSig.vecEvalInt, hc]
    obtain ⟨h1, h2, h3⟩ := intervalIntRows_fail binSearch args c i e hi hf
      c.Int64s.length 0 ⟨none, c, [.eval 0]⟩ (Nat.zero_le _)
      (by simpa [Column.Int64s] using hi) (fun _ _ => rfl)
    rw [List.range_eq_range']
    exact ⟨h1, by simpa using h2, h3⟩

theorem intervalRealRows_fail {F : Type}
    (binSearch : F → List (Expr F) → Nat → Except Error Int)
    (args : List (Expr F)) (c : Column F) (i : Nat) (e : Error)
    (hi : i < c.data.length)
    (hf : FirstSearchFailure c.IsNull (targetSearchReal binSearch args c) i e)
    (len a : Nat) (s : Progress) (ha : a ≤ i) (hlen : i < a + len) :
    (intervalRealRows binSearch args c (List.range' a len) s).err = some e ∧
    (intervalRealRows binSearch args c (List.range' a len) s).log
      = s.log ++ searches c a (i - a) ++ [.binSearch i] ∧
    ∀ r, i ≤ r →
      (intervalRealRows binSearch args c (List.range' a len) s).result.row r
        = s.result.row r := by
  induction len generalizing a s with
  | zero => omega
  | succ len ih =>
    rw [List.range'_succ]
    unfold intervalRealRows
    have hda : a < c.data.length := by omega
    obtain ⟨v, hv⟩ : ∃ v, c.data[a]? = some v := ⟨_, List.getElem?_eq_getElem hda⟩
    by_cases hai : a = i
    · subst hai
      obtain ⟨hnn, hse, -⟩ := hf
      have hb : binSearch v (List.drop 1 args) a = Except.error e := by
        simpa [targetSearchReal, hv] using hse
      rw [hnn, hv]
      simp only [Bool.false_eq_true, if_false, hb]
      refine ⟨trivial, by simp [searches_zero], ?_⟩
      intro r _
      trivial
    · have hlt : a < i := by omega
      have hsub : i - a = (i - (a + 1)) + 1 := by omega
      by_cases hn : c.IsNull a = true
      · rw [if_pos hn]
        obtain ⟨h1, h2, h3⟩ := ih (a + 1)
          { s with result := { s.result with data := s.result.data.set a (-1) } }
          (by omega) (by omega)
        refine ⟨h1, ?_, ?_⟩
        · rw [h2, hsub, searches_succ, hn]
          simp
        · intro r hr
          have hne : ¬ a = r := by omega
          rw [h3 r hr]
          simp [Column.row_eq, List.getElem?_set, hne]
      · rw [if_neg hn, hv]
        have hn2 : c.IsNull a = false := by simpa using hn
        obtain ⟨idx, hidx⟩ := hf.2.2 a hlt hn2
        have hb : binSearch v (List.drop 1 args) a = Except.ok idx := by
          simpa [targetSearchReal, hv] using hidx
        simp only [hb]
        obtain ⟨h1, h2, h3⟩ := ih (a + 1)
          { s with result := { s.result with data := s.result.data.set a idx }
                   log := s.log ++ [.binSearch a] }
          (by omega) (by omega)
        refine ⟨h1, ?_, ?_⟩
        · rw [h2, hsub, searches_succ, hn2]
          simp
        · intro r hr
          have hne : ¬ a = r := by omega
          rw [h3 r hr]
          simp [Column.row_eq, List.getElem?_set, hne]

theorem intervalReal_failFast {F : Type}
    (binSearch : F → List (Expr F) → Nat → Except Error Int) :
    FailFastIntervalReal binSearch := by
  intro args n pool result
  refine ⟨?_, ?_, ?_⟩
  · intro h0
    simp [builtinIntervalRealSig.vecEvalInt, Pool.get_of_capacity_zero pool h0]
  · intro e hp hf
    obtain ⟨b0, hg, -⟩ := Pool.get_ok pool 0 hp
    have e1 : pool.get = (Except.ok b0, (pool.get).2) := by rw [← hg]
    simp only [builtinIntervalRealSig.vecEvalInt]
    rw [e1]
    simp [hf.vecEvalArg]
  · intro c i e hp hc hin hi hf
    obtain ⟨b0, hg, -⟩ := Pool.get_ok pool 0 hp
    have e1 : pool.get = (Except.ok b0, (pool.get).2) := by rw [← hg]
    simp only [builtinIntervalRealSig.vecEvalInt]
    rw [e1]
    simp only [hc]
    obtain ⟨h1, h2, h3⟩ := intervalRealRows_fail binSearch args c i e hi hf n 0
      ⟨none, result.Resize 0 n false, [.get 0, .eval 0]⟩ (Nat.zero_le _) (by omega)
    rw [List.range_eq_range']
    refine ⟨h1, ?_, h3⟩
    rw [h2]
    simp

/-- C11: for every vectorized signature of the file a failure is fatal and
fail-fast.  In the order in which the call takes its steps, when a scratch
lease fails the call returns the error of the pool, and when operand `j` is
the first operand whose batch evaluation fails, with `e`, the call returns
exactly `e`; in both cases the events of the call end with the failing step,
followed only by the release of what was leased before: no later lease and
no evaluation of an operand after `j`.  In the `INTERVAL` signatures, when
the boundary search fails first at row `i` the call returns that error, no
row after `i` is searched and the rows from `i` on are not written. -/
theorem failure_is_fail_fast :
    ((∀ (D : Type) (Compare : D → D → Int),
        FailFastFixed (builtinGreatestDecimalSig.vecEvalDecimal Compare)) ∧
      (∀ (D : Type) (Compare : D → D → Int),
        FailFastFixed (builtinLeastDecimalSig.vecEvalDecimal Compare)) ∧
      FailFastFixed builtinGreatestIntSig.vecEvalInt ∧
      FailFastFixed builtinLeastIntSig.vecEvalInt ∧
      FailFastFixed builtinGreatestRealSig.vecEvalReal ∧
      FailFastFixed builtinLeastRealSig.vecEvalReal) ∧
    (FailFastString builtinGreatestStringSig.vecEvalString ∧
      FailFastString builtinLeastStringSig.vecEvalString) ∧
    ((∀ K, FailFastCompare (builtinLTIntSig.vecEvalInt K)) ∧
      (∀ K, FailFastCompare (builtinLEIntSig.vecEvalInt K)) ∧
      (∀ K, FailFastCompare (builtinGTIntSig.vecEvalInt K))) ∧
    ((∀ binSearch, FailFastIntervalInt binSearch) ∧
      (∀ (F : Type) (binSearch : F → List (Expr F) → Nat → Except Error Int),
        FailFastIntervalReal binSearch)) :=
  ⟨⟨fun _ Compare => reduceFixed_failFast (greatestDecimalStep Compare),
      fun _ Compare => reduceFixed_failFast (mergeStep (fun v cur => decide (Compare v cur < 0))),
      reduceFixed_failFast (mergeStep (fun v cur : Int => decide (v > cur))),
      reduceFixed_failFast (mergeStep (fun v cur : Int => decide (v < cur))),
      reduceFixed_failFast (mergeStep (fun v cur : Float => decide (v > cur))),
      reduceFixed_failFast (mergeStep (fun v cur : Float => decide (v < cur)))⟩,
    ⟨reduceString_failFast _, reduceString_failFast _⟩,
    ⟨fun K => compareInt_failFast vecResOfLT K, fun K => compareInt_failFast vecResOfLE K,
      fun K => compareInt_failFast vecResOfGT K⟩,
    ⟨intervalInt_failFast, fun _ binSearch => intervalReal_failFast binSearch⟩⟩

/-- The second scenario of `FailFastFixed` at a call of
`builtinGreatestIntSig.vecEvalInt` whose operand 1 is the first to fail: the
call returns that error after `eval 0` and `eval 1`, and operand 2 is not
evaluated. -/
theorem failure_is_fail_fast_witness :
    ((Pool.ofFresh 1 : Pool Int).CanLease 1 ∧
      FirstFailure (failingSecondArgs ⟨"boom"⟩) 1 ⟨"boom"⟩) ∧
    ((builtinGreatestIntSig.vecEvalInt (failingSecondArgs ⟨"boom"⟩) 2 (Pool.ofFresh 1)
        Column.empty).err = some ⟨"boom"⟩ ∧
      (builtinGreatestIntSig.vecEvalInt (failingSecondArgs ⟨"boom"⟩) 2 (Pool.ofFresh 1)
        Column.empty).log = [.get 0] ++ evals 0 (1 + 1) ++ [.put 0]) :=
  have h1 : (Pool.ofFresh 1 : Pool Int).CanLease 1 := by simp [Pool.CanLease, Pool.ofFresh]
  have h2 : FirstFailure (failingSecondArgs ⟨"boom"⟩) 1 ⟨"boom"⟩ :=
    ⟨⟨Expr.failing ⟨"boom"⟩, rfl, rfl⟩, fun k hk => by
      have hk0 : k = 0 := by omega
      subst hk0
      exact ⟨_, _, rfl, rfl⟩⟩
  ⟨⟨h1, h2⟩,
    (failure_is_fail_fast.1.2.2.1 (failingSecondArgs ⟨"boom"⟩) 2 (Pool.ofFresh 1)
      Column.empty).2 1 ⟨"boom"⟩ h1 h2⟩

/-! ## Leases and releases are balanced -/

theorem count_put_leaseEvents (log : List Event) (k : Nat) :
    (leaseEvents log).count (Event.put k) = log.count (Event.put k) := by
  induction log with
  | nil => rfl
  | cons ev log ih =>
    cases ev <;> simp [leaseEvents, List.filter_cons, Event.isLease, List.count_cons] at ih ⊢

theorem mem_get_leaseEvents (log : List Event) (k : Nat) :
    Event.get k ∈ leaseEvents log ↔ Event.get k ∈ log := by
  simp [leaseEvents, List.mem_filter, Event.isLease]

theorem balanced_of_leaseEvents {α β : Type} (pool : Pool β) (out : Outcome α β)
    (pat : List Event) (hl : out.pool.leased = pool.leased)
    (hc : out.pool.capacity = pool.capacity) (hpat : leaseEvents out.log = pat)
    (hok : ∀ k, pat.count (Event.put k)
      = if Event.get k ∈ pat ∧ k < pool.capacity then 1 else 0) :
    Balanced pool out := by
  refine ⟨hl, hc, ?_⟩
  intro k
  have h := hok k
  rw [← hpat] at h
  rw [← count_put_leaseEvents]
  simpa only [mem_get_leaseEvents] using h

theorem pattern_none (cap k : Nat) :
    ([] : List Event).count (Event.put k)
      = if Event.get k ∈ ([] : List Event) ∧ k < cap then 1 else 0 := by
  simp

theorem pattern_failed_first (k : Nat) :
    [Event.get 0].count (Event.put k)
      = if Event.get k ∈ [Event.get 0] ∧ k < 0 then 1 else 0 := by
  simp

theorem pattern_one (m k : Nat) :
    [Event.get 0, Event.put 0].count (Event.put k)
      = if Event.get k ∈ [Event.get 0, Event.put 0] ∧ k < m + 1 then 1 else 0 := by
  rcases k with _ | k
  · simp
  · simp

theorem pattern_failed_second (k : Nat) :
    [Event.get 0, Event.get 1, Event.put 0].count (Event.put k)
      = if Event.get k ∈ [Event.get 0, Event.get 1, Event.put 0] ∧ k < 1 then 1 else 0 := by
  rcases k with _ | _ | k
  · simp
  · simp
  · simp

theorem pattern_two (m k : Nat) :
    [Event.get 0, Event.get 1, Event.put 1, Event.put 0].count (Event.put k)
      = if Event.get k ∈ [Event.get 0, Event.get 1, Event.put 1, Event.put 0] ∧ k < m + 2
        then 1 else 0 := by
  rcases k with _ | _ | k
  · simp
  · simp
  · simp

theorem Pool.put_leased {α : Type} (p : Pool α) (b : Column α) :
    (p.put b).leased = p.leased - 1 := rfl

theorem Pool.put_capacity {α : Type} (p : Pool α) (b : Column α) :
    (p.put b).capacity = p.capacity + 1 := by
  simp [Pool.put, Pool.capacity]
  omega

theorem reduceLoop_leaseEvents {α : Type} (step : Column α → Column α → Column α)
    (args : List (Expr α)) (j : Nat) (s : Body α) :
    leaseEvents (reduceLoop step args j s).log = leaseEvents s.log := by
  induction args generalizing j s with
  | nil => rfl
  | cons a rest ih =>
    cases ha : a.VecEval with
    | error err => simp [reduceLoop, ha, leaseEvents, List.filter_append, Event.isLease]
    | ok c =>
      simp only [reduceLoop, ha]
      rw [ih]
      simp [leaseEvents, List.filter_append, Event.isLease]

theorem reduceFixed_keepsBalance {α : Type} (step : Nat → Column α → Column α → Column α) :
    KeepsBalance (fun args n pool result => reduceFixed (step n) args pool result) := by
  intro args n pool result
  rcases Nat.eq_zero_or_pos pool.capacity with h0 | hpos
  · refine balanced_of_leaseEvents pool _ [Event.get 0] ?_ ?_ ?_ (by rw [h0]; exact pattern_failed_first)
    · simp [reduceFixed, Pool.get_of_capacity_zero pool h0]
    · simp [reduceFixed, Pool.get_of_capacity_zero pool h0]
    · simp [reduceFixed, Pool.get_of_capacity_zero pool h0, leaseEvents, Event.isLease]
  · obtain ⟨m, hm⟩ : ∃ m, pool.capacity = m + 1 := ⟨pool.capacity - 1, by omega⟩
    obtain ⟨buf, hg, hcap, -, hl⟩ := Pool.get_capacity pool m hm
    refine balanced_of_leaseEvents pool _ [Event.get 0, Event.put 0] ?_ ?_ ?_
      (by rw [hm]; exact pattern_one m)
    · simp only [reduceFixed]
      rw [hg]
      simp only [Pool.put_leased, hl]
      omega
    · simp only [reduceFixed]
      rw [hg]
      simp only [Pool.put_capacity, hcap, hm]
    · simp only [reduceFixed]
      rw [hg]
      simp only
      cases h0 : vecEvalArg args 0 with
      | error err => simp [leaseEvents, Event.isLease]
      | ok c =>
        simp only
        have := reduceLoop_leaseEvents (step n) (args.drop 1) 1
          ⟨none, c, buf, [.get 0, .eval 0]⟩
        simp only [leaseEvents, List.filter_append] at this ⊢
        rw [this]
        simp [Event.isLease]

theorem stringLoop_leaseEvents (keepSrc : List Nat → List Nat → Bool) (n : Nat)
    (args : List (Expr (List Nat))) (j : Nat) (s : StringState) :
    leaseEvents (stringLoop keepSrc n args j s).log = leaseEvents s.log := by
  induction args generalizing j s with
  | nil => rfl
  | cons a rest ih =>
    cases ha : a.VecEval with
    | error err => simp [stringLoop, ha, leaseEvents, List.filter_append, Event.isLease]
    | ok c =>
      simp only [stringLoop, ha]
      rw [ih]
      simp [stringIter, leaseEvents, List.filter_append, Event.isLease]

theorem stringFinish_leaseEvents (k : Nat) (s : StringState) :
    leaseEvents (stringFinish k s).log = leaseEvents s.log := by
  unfold stringFinish
  cases hs : s.err with
  | some e => rfl
  | none =>
    by_cases hk : k % 2 = 0
    · simp [hk, leaseEvents, List.filter_append, Event.isLease]
    · simp [hk]

theorem reduceString_keepsBalance (keepSrc : List Nat → List Nat → Bool) :
    KeepsBalance (reduceString keepSrc) := by
  intro args n pool result
  cases h0 : vecEvalArg args 0 with
  | error err =>
    refine balanced_of_leaseEvents pool _ [] ?_ ?_ ?_ (pattern_none _)
    · simp [reduceString, h0]
    · simp [reduceString, h0]
    · simp [reduceString, h0, leaseEvents, Event.isLease]
  | ok c =>
    rcases Nat.eq_zero_or_pos pool.capacity with hz | hpos
    · refine balanced_of_leaseEvents pool _ [Event.get 0] ?_ ?_ ?_
        (by rw [hz]; exact pattern_failed_first)
      · simp [reduceString, h0, Pool.get_of_capacity_zero pool hz]
      · simp [reduceString, h0, Pool.get_of_capacity_zero pool hz]
      · simp [reduceString, h0, Pool.get_of_capacity_zero pool hz, leaseEvents, Event.isLease]
    · obtain ⟨m, hm⟩ : ∃ m, pool.capacity = m + 1 := ⟨pool.capacity - 1, by omega⟩
      obtain ⟨b1, hg1, hcap1, -, hl1⟩ := Pool.get_capacity pool m hm
      rcases Nat.eq_zero_or_pos m with hmz | hmpos
      · subst hmz
        refine balanced_of_leaseEvents pool _ [Event.get 0, Event.get 1, Event.put 0] ?_ ?_ ?_
          (by rw [hm]; exact pattern_failed_second)
        · simp only [reduceString, h0]
          rw [hg1]
          simp only
          rw [Pool.get_of_capacity_zero _ hcap1]
          simp only [Pool.put_leased, hl1]
          omega
        · simp only [reduceString, h0]
          rw [hg1]
          simp only
          rw [Pool.get_of_capacity_zero _ hcap1]
          simp only [Pool.put_capacity, hcap1, hm]
        · simp only [reduceString, h0]
          rw [hg1]
          simp only
          rw [Pool.get_of_capacity_zero _ hcap1]
          simp [leaseEvents, Event.isLease]
      · obtain ⟨m2, hm2⟩ : ∃ m2, m = m2 + 1 := ⟨m - 1, by omega⟩
        subst hm2
        obtain ⟨b2, hg2, hcap2, -, hl2⟩ := Pool.get_capacity (pool.get).2 m2 hcap1
        refine balanced_of_leaseEvents pool _
          [Event.get 0, Event.get 1, Event.put 1, Event.put 0] ?_ ?_ ?_
          (by rw [hm]; exact pattern_two m2)
        · simp only [reduceString, h0]
          rw [hg1]
          simp only
          rw [hg2]
          simp only [Pool.put_leased, hl2, hl1]
          omega
        · simp only [reduceString, h0]
          rw [hg1]
          simp only
          rw [hg2]
          simp only [Pool.put_capacity, hcap2, hm]
        · simp only [reduceString, h0]
          rw [hg1]
          simp only
          rw [hg2]
          simp only
          have h1 := stringFinish_leaseEvents args.length
            (stringLoop keepSrc n (args.drop 1) 1
              ⟨none, ⟨c, b1, b2⟩, .result, .buf1, .buf2, [.eval 0, .get 0, .get 1]⟩)
          rw [stringLoop_leaseEvents] at h1
          simp only [leaseEvents, List.filter_append] at h1 ⊢
          rw [h1]
          simp [Event.isLease]

theorem compareInt_keepsBalance (vecResOf : List Int → List Int) (K : CompareKernels) :
    KeepsBalance (compareInt vecResOf K) := by
  intro args n pool result
  rcases Nat.eq_zero_or_pos pool.capacity with hz | hpos
  · refine balanced_of_leaseEvents pool _ [Event.get 0] ?_ ?_ ?_
      (by rw [hz]; exact pattern_failed_first)
    · simp [compareInt, Pool.get_of_capacity_zero pool hz]
    · simp [compareInt, Pool.get_of_capacity_zero pool hz]
    · simp [compareInt, Pool.get_of_capacity_zero pool hz, leaseEvents, Event.isLease]
  · obtain ⟨m, hm⟩ : ∃ m, pool.capacity = m + 1 := ⟨pool.capacity - 1, by omega⟩
    obtain ⟨b1, hg1, hcap1, -, hl1⟩ := Pool.get_capacity pool m hm
    cases h0 : vecEvalArg args 0 with
    | error err =>
      refine balanced_of_leaseEvents pool _ [Event.get 0, Event.put 0] ?_ ?_ ?_
        (by rw [hm]; exact pattern_one m)
      · simp only [compareInt]
        rw [hg1]
        simp only [h0, Pool.put_leased, hl1]
        omega
      · simp only [compareInt]
        rw [hg1]
        simp only [h0, Pool.put_capacity, hcap1, hm]
      · simp only [compareInt]
        rw [hg1]
        simp [h0, leaseEvents, Event.isLease]
    | ok c0 =>
      rcases Nat.eq_zero_or_pos m with hmz | hmpos
      · subst hmz
        refine balanced_of_leaseEvents pool _ [Event.get 0, Event.get 1, Event.put 0] ?_ ?_ ?_
          (by rw [hm]; exact pattern_failed_second)
        · simp only [compareInt]
          rw [hg1]
          simp only [h0]
          rw [Pool.get_of_capacity_zero _ hcap1]
          simp only [Pool.put_leased, hl1]
          omega
        · simp only [compareInt]
          rw [hg1]
          simp only [h0]
          rw [Pool.get_of_capacity_zero _ hcap1]
          simp only [Pool.put_capacity, hcap1, hm]
        · simp only [compareInt]
          rw [hg1]
          simp only [h0]
          rw [Pool.get_of_capacity_zero _ hcap1]
          simp [leaseEvents, Event.isLease]
      · obtain ⟨m2, hm2⟩ : ∃ m2, m = m2 + 1 := ⟨m - 1, by omega⟩
        subst hm2
        obtain ⟨b2, hg2, hcap2, -, hl2⟩ := Pool.get_capacity (pool.get).2 m2 hcap1
        refine balanced_of_leaseEvents pool _
          [Event.get 0, Event.get 1, Event.put 1, Event.put 0] ?_ ?_ ?_
          (by rw [hm]; exact pattern_two m2)
        · simp only [compareInt]
          rw [hg1]
          simp only [h0]
          rw [hg2]
          cases h1 : vecEvalArg args 1 with
          | error err => simp only [Pool.put_leased, hl2, hl1]; omega
          | ok c1 => simp only [Pool.put_leased, hl2, hl1]; omega
        · simp only [compareInt]
          rw [hg1]
          simp only [h0]
          rw [hg2]
          cases h1 : vecEvalArg args 1 with
          | error err => simp only [Pool.put_capacity, hcap2, hm]
          | ok c1 => simp only [Pool.put_capacity, hcap2, hm]
        · simp only [compareInt]
          rw [hg1]
          simp only [h0]
          rw [hg2]
          cases h1 : vecEvalArg args 1 with
          | error err => simp [leaseEvents, Event.isLease]
          | ok c1 => simp [leaseEvents, Event.isLease]

theorem intervalIntRows_leaseEvents
    (binSearch : Int → Bool → List (Expr Int) → Nat → Except Error Int)
    (args : List (Expr Int)) (rows : List Nat) (s : Progress) :
    leaseEvents (intervalIntRows binSearch args rows s).log = leaseEvents s.log := by
  induction rows generalizing s with
  | nil => rfl
  | cons i rows ih =>
    unfold intervalIntRows
    cases hv : s.result.data[i]? with
    | none => exact ih s
    | some v =>
      simp only
      by_cases hn : s.result.IsNull i = true
      · rw [if_pos hn, ih]
      · rw [if_neg hn]
        cases hb : binSearch v (hasUnsignedFlag args 0) (List.drop 1 args) i with
        | error err => simp [leaseEvents, List.filter_append, Event.isLease]
        | ok idx =>
          simp only
          rw [ih]
          simp [leaseEvents, List.filter_append, Event.isLease]

theorem intervalRealRows_leaseEvents {F : Type}
    (binSearch : F → List (Expr F) → Nat → Except Error Int)
    (args : List (Expr F)) (buf : Column F) (rows : List Nat) (s : Progress) :
    leaseEvents (intervalRealRows binSearch args buf rows s).log = leaseEvents s.log := by
  induction rows generalizing s with
  | nil => rfl
  | cons i rows ih =>
    unfold intervalRealRows
    by_cases hn : buf.IsNull i = true
    · rw [if_pos hn, ih]
    · rw [if_neg hn]
      cases hv : buf.data[i]? with
      | none => exact ih s
      | some v =>
        simp only
        cases hb : binSearch v (List.drop 1 args) i with
        | error err => simp [leaseEvents, List.filter_append, Event.isLease]
        | ok idx =>
          simp only
          rw [ih]
          simp [leaseEvents, List.filter_append, Event.isLease]

theorem intervalInt_keepsBalance
    (binSearch : Int → Bool → List (Expr Int) → Nat → Except Error Int) :
    KeepsBalance (builtinIntervalIntSig.vecEvalInt binSearch) := by
  intro args n pool result
  refine balanced_of_leaseEvents pool _ [] ?_ ?_ ?_ (pattern_none _)
  · cases h0 : vecEvalArg args 0 <;> simp [builtinIntervalIntSig.vecEvalInt, h0]
  · cases h0 : vecEvalArg args 0 <;> simp [builtinIntervalIntSig.vecEvalInt, h0]
  · cases h0 : vecEvalArg args 0 with
    | error err => simp [builtinIntervalIntSig.vecEvalInt, h0, leaseEvents, Event.isLease]
    | ok c =>
      simp only [builtinIntervalIntSig.vecEvalInt, h0]
      rw [intervalIntRows_leaseEvents]
      simp [leaseEvents, Event.isLease]

theorem intervalReal_keepsBalance {F : Type}
    (binSearch : F → List (Expr F) → Nat → Except Error Int) :
    KeepsBalance (builtinIntervalRealSig.vecEvalInt binSearch) := by
  intro args n pool result
  rcases Nat.eq_zero_or_pos pool.capacity with hz | hpos
  · refine balanced_of_leaseEvents pool _ [Event.get 0] ?_ ?_ ?_
      (by rw [hz]; exact pattern_failed_first)
    · simp [builtinIntervalRealSig.vecEvalInt, Pool.get_of_capacity_zero pool hz]
    · simp [builtinIntervalRealSig.vecEvalInt, Pool.get_of_capacity_zero pool hz]
    · simp [builtinIntervalRealSig.vecEvalInt, Pool.get_of_capacity_zero pool hz, leaseEvents,
        Event.isLease]
  · obtain ⟨m, hm⟩ : ∃ m, pool.capacity = m + 1 := ⟨pool.capacity - 1, by omega⟩
    obtain ⟨b1, hg1, hcap1, -, hl1⟩ := Pool.get_capacity pool m hm
    refine balanced_of_leaseEvents pool _ [Event.get 0, Event.put 0] ?_ ?_ ?_
      (by rw [hm]; exact pattern_one m)
    · simp only [builtinIntervalRealSig.vecEvalInt]
      rw [hg1]
      cases h0 : vecEvalArg args 0 with
      | error err => simp only [Pool.put_leased, hl1]; omega
      | ok c => simp only [Pool.put_leased, hl1]; omega
    · simp only [builtinIntervalRealSig.vecEvalInt]
      rw [hg1]
      cases h0 : vecEvalArg args 0 with
      | error err => simp only [Pool.put_capacity, hcap1, hm]
      | ok c => simp only [Pool.put_capacity, hcap1, hm]
    · simp only [builtinIntervalRealSig.vecEvalInt]
      rw [hg1]
      cases h0 : vecEvalArg args 0 with
      | error err => simp [leaseEvents, Event.isLease]
      | ok c =>
        simp only
        have h1 := intervalRealRows_leaseEvents binSearch args c (List.range n)
          ⟨none, result.Resize 0 n false, [.get 0, .eval 0]⟩
        simp only [leaseEvents, List.filter_append] at h1 ⊢
        rw [h1]
        simp [Event.isLease]

/-- C12: with the buffer pool as explicit state, every vectorized signature
of the file keeps lease and release balanced on every exit path (success,
failure of a lease, failure of an operand evaluation or of the boundary
search): when the call returns, the number of outstanding leases and the
number of columns the pool can lend are what they were before the call, and
every column the call leased has been released exactly once, a lease that
failed or did not take place being released never. -/
theorem leases_are_balanced :
    ((∀ (D : Type) (Compare : D → D → Int),
        KeepsBalance (builtinGreatestDecimalSig.vecEvalDecimal Compare)) ∧
      (∀ (D : Type) (Compare : D → D → Int),
        KeepsBalance (builtinLeastDecimalSig.vecEvalDecimal Compare)) ∧
      KeepsBalance builtinGreatestIntSig.vecEvalInt ∧
      KeepsBalance builtinLeastIntSig.vecEvalInt ∧
      KeepsBalance builtinGreatestRealSig.vecEvalReal ∧
      KeepsBalance builtinLeastRealSig.vecEvalReal) ∧
    (KeepsBalance builtinGreatestStringSig.vecEvalString ∧
      KeepsBalance builtinLeastStringSig.vecEvalString) ∧
    ((∀ K, KeepsBalance (builtinLTIntSig.vecEvalInt K)) ∧
      (∀ K, KeepsBalance (builtinLEIntSig.vecEvalInt K)) ∧
      (∀ K, KeepsBalance (builtinGTIntSig.vecEvalInt K))) ∧
    ((∀ binSearch, KeepsBalance (builtinIntervalIntSig.vecEvalInt binSearch)) ∧
      (∀ (F : Type) (binSearch : F → List (Expr F) → Nat → Except Error Int),
        KeepsBalance (builtinIntervalRealSig.vecEvalInt binSearch))) :=
  ⟨⟨fun _ Compare => reduceFixed_keepsBalance (greatestDecimalStep Compare),
      fun _ Compare =>
        reduceFixed_keepsBalance (mergeStep (fun v cur => decide (Compare v cur < 0))),
      reduceFixed_keepsBalance (mergeStep (fun v cur : Int => decide (v > cur))),
      reduceFixed_keepsBalance (mergeStep (fun v cur : Int => decide (v < cur))),
      reduceFixed_keepsBalance (mergeStep (fun v cur : Float => decide (v > cur))),
      reduceFixed_keepsBalance (mergeStep (fun v cur : Float => decide (v < cur)))⟩,
    ⟨reduceString_keepsBalance _, reduceString_keepsBalance _⟩,
    ⟨fun K => compareInt_keepsBalance vecResOfLT K, fun K => compareInt_keepsBalance vecResOfLE K,
      fun K => compareInt_keepsBalance vecResOfGT K⟩,
    ⟨intervalInt_keepsBalance, fun _ binSearch => intervalReal_keepsBalance binSearch⟩⟩

/-! ## The parity of the string reductions -/

theorem stringLoop_pointers (keepSrc : List Nat → List Nat → Bool) (n : Nat)
    (args : List (Expr (List Nat))) (cols : List (Column (List Nat)))
    (hargs : args.map (·.VecEval) = cols.map Except.ok) (j : Nat) (s : StringState) :
    (stringLoop keepSrc n args j s).err = s.err ∧
    (stringLoop keepSrc n args j s).src = (if cols.length % 2 = 0 then s.src else s.dst) ∧
    (stringLoop keepSrc n args j s).dst = (if cols.length % 2 = 0 then s.dst else s.src) ∧
    (stringLoop keepSrc n args j s).log = s.log ++ evals j cols.length := by
  induction args generalizing cols j s with
  | nil =>
    cases cols with
    | nil => simp [stringLoop, evals]
    | cons c cols => simp at hargs
  | cons a args ih =>
    cases cols with
    | nil => simp at hargs
    | cons c cols =>
      simp only [List.map_cons, List.cons.injEq] at hargs
      obtain ⟨ha, hrest⟩ := hargs
      obtain ⟨h1, h2, h3, h4⟩ := ih cols hrest (j + 1) (stringIter keepSrc n j c s)
      simp only [stringLoop, ha, List.length_cons]
      have e1 : (stringIter keepSrc n j c s).src = s.dst := rfl
      have e2 : (stringIter keepSrc n j c s).dst = s.src := rfl
      have e3 : (stringIter keepSrc n j c s).err = s.err := rfl
      have e4 : (stringIter keepSrc n j c s).log = s.log ++ [.eval j] := rfl
      rw [h1, h2, h3, h4, e1, e2, e3, e4, evals_succ]
      by_cases hp : cols.length % 2 = 0
      · have : ¬ (cols.length + 1) % 2 = 0 := by omega
        simp [hp, this]
      · have : (cols.length + 1) % 2 = 0 := by omega
        simp [hp, this]

theorem copyConstruct_not_mem_evals (a len : Nat) : Event.copyConstruct ∉ evals a len := by
  simp [evals]

theorem reduceString_parity (keepSrc : List Nat → List Nat → Bool) (n : Nat)
    (args : List (Expr (List Nat))) (cols : List (Column (List Nat)))
    (pool : Pool (List Nat)) (result : Column (List Nat)) (h : Heap) (log : List Event)
    (hk : 1 ≤ cols.length) (hargs : args.map (·.VecEval) = cols.map Except.ok)
    (hpool : pool.CanLease 2) :
    (reduceString keepSrc args n pool result).err = none ∧
    ((stringLoop keepSrc n (args.drop 1) 1 (stringStart h log)).src = Ref.buf2 ↔
      (args.length - 1) % 2 = 1) ∧
    ((stringLoop keepSrc n (args.drop 1) 1 (stringStart h log)).src = Ref.result ↔
      (args.length - 1) % 2 = 0) ∧
    (Event.copyConstruct ∈ (reduceString keepSrc args n pool result).log ↔
      (args.length - 1) % 2 = 1) := by
  cases cols with
  | nil => simp at hk
  | cons c0 cols =>
    cases args with
    | nil => simp at hargs
    | cons a args =>
      simp only [List.map_cons, List.cons.injEq] at hargs
      obtain ⟨ha, hrest⟩ := hargs
      have hlen : args.length = cols.length := by
        have := congrArg List.length hrest
        simpa using this
      obtain ⟨b1, hg1, hp1⟩ := Pool.get_ok pool 1 hpool
      obtain ⟨b2, hg2, -⟩ := Pool.get_ok (pool.get).2 0 hp1
      have e1 : pool.get = (Except.ok b1, (pool.get).2) := by rw [← hg1]
      have e2 : (pool.get).2.get = (Except.ok b2, ((pool.get).2.get).2) := by rw [← hg2]
      obtain ⟨p1, p2, -, -⟩ := stringLoop_pointers keepSrc n args cols hrest 1 (stringStart h log)
      obtain ⟨q1, -, -, q4⟩ := stringLoop_pointers keepSrc n args cols hrest 1
        ⟨none, ⟨c0, b1, b2⟩, .result, .buf1, .buf2, [.eval 0, .get 0, .get 1]⟩
      simp only [List.drop_succ_cons, List.drop_zero, List.length_cons, Nat.add_sub_cancel, hlen]
      refine ⟨?_, ?_, ?_, ?_⟩
      · simp only [reduceString, vecEvalArg_zero, ha]
        rw [e1]
        simp only
        rw [e2]
        simp only [stringFinish_err, List.drop_succ_cons, List.drop_zero]
        exact q1
      · rw [p2]
        by_cases hp : cols.length % 2 = 0
        · simp [hp, stringStart]
        · have : cols.length % 2 = 1 := by omega
          simp [hp, this, stringStart]
      · rw [p2]
        by_cases hp : cols.length % 2 = 0
        · simp [hp, stringStart]
        · simp [hp, stringStart]
      · simp only [reduceString, vecEvalArg_zero, ha]
        rw [e1]
        simp only
        rw [e2]
        simp only [List.drop_succ_cons, List.drop_zero, List.length_cons, hlen]
        unfold stringFinish
        rw [q1]
        simp only
        by_cases hp : (cols.length + 1) % 2 = 0
        · have : cols.length % 2 = 1 := by omega
          simp [hp, this]
        · have : ¬ cols.length % 2 = 1 := by omega
          simp only [hp, if_false, q4, this, iff_false]
          simp [copyConstruct_not_mem_evals]

/-- C13, as stated, fails: with three operands the number of reduction steps
is 2, even, and the deep copy does not fire; with two operands it is 1, odd,
and the deep copy fires. -/
theorem copy_back_parity_is_not_even :
    ((sampleStringCols.map Expr.ofColumn).length - 1) % 2 = 0 ∧
    Event.copyConstruct ∉ (builtinGreatestStringSig.vecEvalString
      (sampleStringCols.map Expr.ofColumn) 2 (Pool.ofFresh 2) Column.empty).log ∧
    Event.copyConstruct ∉ (builtinLeastStringSig.vecEvalString
      (sampleStringCols.map Expr.ofColumn) 2 (Pool.ofFresh 2) Column.empty).log ∧
    (firstCallArgs.length - 1) % 2 = 1 ∧
    Event.copyConstruct ∈ (builtinGreatestStringSig.vecEvalString firstCallArgs 1
      (Pool.ofFresh 2) Column.empty).log ∧
    Event.copyConstruct ∈ (builtinLeastStringSig.vecEvalString firstCallArgs 1
      (Pool.ofFresh 2) Column.empty).log := by
  decide

/-- C13, amended: in the String `GREATEST`/`LEAST` ping-pong algorithm, for
`k ≥ 1` operands that evaluate and two successful leases, after the loop the
running best (the column `src` points to) is the scratch column `buf2` rather
than `result`, and the final deep copy into `result` fires, exactly when the
number of reduction steps taken (the number of operands minus one) is odd,
that is when `len(b.args)%2 == 0`; when it is even the running best is in
`result` and no copy is made. -/
theorem copy_back_iff_odd_steps (n : Nat) (args : List (Expr (List Nat)))
    (cols : List (Column (List Nat))) (pool : Pool (List Nat)) (result : Column (List Nat))
    (h : Heap) (log : List Event)
    (hk : 1 ≤ cols.length) (hargs : args.map (·.VecEval) = cols.map Except.ok)
    (hpool : pool.CanLease 2) :
    ((builtinGreatestStringSig.vecEvalString args n pool result).err = none ∧
      ((stringLoop (fun srcStr argStr => decide (CompareString srcStr argStr > 0)) n
          (args.drop 1) 1 (stringStart h log)).src = Ref.buf2 ↔ (args.length - 1) % 2 = 1) ∧
      ((stringLoop (fun srcStr argStr => decide (CompareString srcStr argStr > 0)) n
          (args.drop 1) 1 (stringStart h log)).src = Ref.result ↔ (args.length - 1) % 2 = 0) ∧
      (Event.copyConstruct ∈ (builtinGreatestStringSig.vecEvalString args n pool result).log ↔
        (args.length - 1) % 2 = 1)) ∧
    ((builtinLeastStringSig.vecEvalString args n pool result).err = none ∧
      ((stringLoop (fun srcStr argStr => decide (CompareString srcStr argStr < 0)) n
          (args.drop 1) 1 (stringStart h log)).src = Ref.buf2 ↔ (args.length - 1) % 2 = 1) ∧
      ((stringLoop (fun srcStr argStr => decide (CompareString srcStr argStr < 0)) n
          (args.drop 1) 1 (stringStart h log)).src = Ref.result ↔ (args.length - 1) % 2 = 0) ∧
      (Event.copyConstruct ∈ (builtinLeastStringSig.vecEvalString args n pool result).log ↔
        (args.length - 1) % 2 = 1)) :=
  ⟨reduceString_parity _ n args cols pool result h log hk hargs hpool,
    reduceString_parity _ n args cols pool result h log hk hargs hpool⟩

/-- The hypotheses of `copy_back_iff_odd_steps` hold for the two operands of
`firstCallArgs` on a fresh pool: one step, and the copy fires. -/
theorem copy_back_iff_odd_steps_witness :
    (1 ≤ [Column.ofRows [] [some [97]], Column.ofRows ([] : List Nat) [some [98]]].length ∧
      firstCallArgs.map (·.VecEval)
        = [Column.ofRows [] [some [97]], Column.ofRows [] [some [98]]].map Except.ok ∧
      (Pool.ofFresh 2 : Pool (List Nat)).CanLease 2) ∧
    Event.copyConstruct ∈
      (builtinGreatestStringSig.vecEvalString firstCallArgs 1 (Pool.ofFresh 2) Column.empty).log :=
  have h1 : 1 ≤ [Column.ofRows [] [some [97]],
      Column.ofRows ([] : List Nat) [some [98]]].length := by decide
  have h2 : firstCallArgs.map (·.VecEval)
      = [Column.ofRows [] [some [97]], Column.ofRows [] [some [98]]].map Except.ok := rfl
  have h3 : (Pool.ofFresh 2 : Pool (List Nat)).CanLease 2 := by
    simp [Pool.CanLease, Pool.ofFresh]
  ⟨⟨h1, h2, h3⟩,
    (copy_back_iff_odd_steps 1 firstCallArgs _ (Pool.ofFresh 2) Column.empty
      ⟨Column.empty, Column.empty, Column.empty⟩ [] h1 h2 h3).1.2.2.2.mpr (by decide)⟩

/-! ## Null rows stay null across the fold -/

theorem isNull_true_iff {α : Type} (c : Column α) (i : Nat) :
    c.IsNull i = true ↔ c.nulls[i]? = some true := by
  unfold Column.IsNull
  cases h : c.nulls[i]? with
  | none => simp
  | some b => simp

theorem mergeStep_null_row {α : Type} (better : α → α → Bool) (n : Nat)
    (buf result : Column α) (i : Nat) (hnull : result.IsNull i = true) :
    (mergeStep better n buf result).row i = (some true, result.data[i]?) := by
  have hn : result.nulls[i]? = some true := (isNull_true_iff result i).mp hnull
  have hm : (result.MergeNulls [buf]).row i = (some true, result.data[i]?) := by
    rw [Column.mergeNulls_one, Column.row_eq]
    simp [Column.orNulls_getElem?, hn]
  unfold mergeStep
  rw [updateRows_row, hm]
  by_cases hi : i < n
  · simp [hi]
  · simp [hi]

theorem greatestDecimalStep_null_row {α : Type} (Compare : α → α → Int) (n : Nat)
    (buf result : Column α) (i : Nat) (hnull : result.IsNull i = true) :
    (greatestDecimalStep Compare n buf result).row i = (some true, result.data[i]?) := by
  have hn : result.nulls[i]? = some true := (isNull_true_iff result i).mp hnull
  have hr : result.row i = (some true, result.data[i]?) := by rw [Column.row_eq, hn]
  rw [greatestDecimalStep_row, hr]
  by_cases hi : i < n
  · simp [hi]
  · simp [hi]

theorem reduceLoop_single_null {α : Type} (step : Column α → Column α → Column α)
    (hstep : ∀ buf result i, result.IsNull i = true →
      (step buf result).row i = (some true, result.data[i]?))
    (a : Expr α) (j : Nat) (s : Body α) (i : Nat) (hnull : s.result.IsNull i = true) :
    (reduceLoop step [a] j s).result.IsNull i = true ∧
    (reduceLoop step [a] j s).result.data[i]? = s.result.data[i]? := by
  cases ha : a.VecEval with
  | error err =>
    simp only [reduceLoop, ha]
    exact ⟨hnull, trivial⟩
  | ok c =>
    simp only [reduceLoop, ha]
    have h := hstep c s.result i hnull
    rw [Column.row_eq] at h
    have h1 := congrArg Prod.fst h
    have h2 := congrArg Prod.snd h
    simp only at h1 h2
    exact ⟨(isNull_true_iff _ i).mpr h1, h2⟩

/-- C14: null-ness is monotone across the fold of the fixed-width
`GREATEST`/`LEAST` signatures.  Processing operand `j` alone is
`reduceLoop step [a] j`, with `step` the bulk step (`MergeNulls`, then the
row loop; Integer, Real and `LEAST` over Decimal, for any comparison
`better`) or the inline step of `GREATEST` over Decimal.  For every row `i`,
if `result` is null at row `i` before operand `j` is processed then it is
null at row `i` afterwards, whatever operand `j` is or holds at row `i`, and
the value stored at that row is the one stored before. -/
theorem null_rows_stay_null {α : Type} (better : α → α → Bool) (Compare : α → α → Int)
    (n : Nat) (a : Expr α) (j : Nat) (s : Body α) (i : Nat)
    (hnull : s.result.IsNull i = true) :
    ((reduceLoop (mergeStep better n) [a] j s).result.IsNull i = true ∧
      (reduceLoop (mergeStep better n) [a] j s).result.data[i]? = s.result.data[i]?) ∧
    ((reduceLoop (greatestDecimalStep Compare n) [a] j s).result.IsNull i = true ∧
      (reduceLoop (greatestDecimalStep Compare n) [a] j s).result.data[i]?
        = s.result.data[i]?) :=
  ⟨reduceLoop_single_null _ (mergeStep_null_row better n) a j s i hnull,
    reduceLoop_single_null _ (greatestDecimalStep_null_row Compare n) a j s i hnull⟩

/-- The hypothesis of `null_rows_stay_null` holds at row 1 of a `result`
holding `(3, NULL)` with stored value 0 at the null row; folding in an
operand holding `(2, 9)` leaves the row null with the stored 0. -/
theorem null_rows_stay_null_witness :
    (Column.ofRows (0 : Int) [some 3, none]).IsNull 1 = true ∧
    ((reduceLoop (mergeStep (fun v cur : Int => decide (v > cur)) 2)
        [Expr.ofColumn (Column.ofRows 0 [some 2, some 9])] 1
        ⟨none, Column.ofRows 0 [some 3, none], Column.empty, []⟩).result.IsNull 1 = true ∧
      (reduceLoop (mergeStep (fun v cur : Int => decide (v > cur)) 2)
        [Expr.ofColumn (Column.ofRows 0 [some 2, some 9])] 1
        ⟨none, Column.ofRows 0 [some 3, none], Column.empty, []⟩).result.data[1]?
        = (Column.ofRows (0 : Int) [some 3, none]).data[1]?) :=
  have h : (Column.ofRows (0 : Int) [some 3, none]).IsNull 1 = true := by decide
  ⟨h, (null_rows_stay_null (fun v cur : Int => decide (v > cur)) sampleCompare 2
    (Expr.ofColumn (Column.ofRows 0 [some 2, some 9])) 1
    ⟨none, Column.ofRows 0 [some 3, none], Column.empty, []⟩ 1 h).1⟩

/-! ## Independence of the argument order -/

theorem reduceFixed_extremum {α : Type} (better : α → α → Bool) (le : α → α → Prop)
    (hrefl : ∀ a, le a a) (htrans : ∀ a b c, le a b → le b c → le a c)
    (hyes : ∀ v cur, better v cur = true → le cur v)
    (hno : ∀ v cur, better v cur = false → le v cur)
    (n : Nat) (args : List (Expr α)) (cols : List (Column α)) (hk : 1 ≤ cols.length)
    (hargs : Evaluates args cols n) (pool : Pool α) (hpool : pool.CanLease 1)
    (result : Column α) (i : Nat) (hi : i < n) :
    (reduceFixed (mergeStep better n) args pool result).err = none ∧
    (reduceFixed (mergeStep better n) args pool result).result.IsNull i = anyNull cols i ∧
    (anyNull cols i = false →
      ∃ m, (reduceFixed (mergeStep better n) args pool result).result.data[i]? = some m ∧
        m ∈ rowValues cols i ∧ ∀ v ∈ rowValues cols i, le v m) := by
  cases cols with
  | nil => simp at hk
  | cons c0 cols =>
    obtain ⟨hev, hrows⟩ := hargs
    have hc0 : c0.HasRows n := hrows c0 (List.mem_cons_self _ _)
    have hrest : ∀ d ∈ cols, d.HasRows n := fun d hd => hrows d (List.mem_cons_of_mem _ hd)
    obtain ⟨x, hx⟩ : ∃ x, c0.data[i]? = some x :=
      ⟨_, List.getElem?_eq_getElem (by rw [hc0.2]; exact hi)⟩
    have hany : anyNull (c0 :: cols) i = (c0.IsNull i || anyNull cols i) := by simp [anyNull]
    have hvals : rowValues (c0 :: cols) i = x :: rowValues cols i := by simp [rowValues, hx]
    obtain ⟨he, hr⟩ := reduceFixed_ok (mergeStep better n) args c0 cols hev pool hpool result
    obtain ⟨-, hf⟩ := fold_rows _ n _ (mergeStep_foldsRows better n).picks cols hrest c0 hc0
    obtain ⟨hnull, hval⟩ := hf i x hx
    obtain ⟨hmem, hle⟩ := foldBest_extremum better le hrefl htrans hyes hno x (rowValues cols i)
    refine ⟨he, by rw [hr, hnull, hany], ?_⟩
    intro hnn
    rw [hany] at hnn
    refine ⟨_, by rw [hr]; exact hval hnn, by rw [hvals]; exact hmem, ?_⟩
    intro v hv
    rw [hvals] at hv
    exact hle v hv

theorem anyNull_perm {α : Type} (cols cols2 : List (Column α)) (h : cols2.Perm cols)
    (i : Nat) : anyNull cols2 i = anyNull cols i := by
  rw [Bool.eq_iff_iff, anyNull_iff, anyNull_iff]
  constructor
  · rintro ⟨c, hc, hn⟩
    exact ⟨c, h.mem_iff.mp hc, hn⟩
  · rintro ⟨c, hc, hn⟩
    exact ⟨c, h.mem_iff.mpr hc, hn⟩

theorem mem_rowValues_perm {α : Type} (cols cols2 : List (Column α)) (h : cols2.Perm cols)
    (i : Nat) (v : α) : v ∈ rowValues cols2 i ↔ v ∈ rowValues cols i := by
  rw [mem_rowValues, mem_rowValues]
  constructor
  · rintro ⟨c, hc, hn⟩
    exact ⟨c, h.mem_iff.mp hc, hn⟩
  · rintro ⟨c, hc, hn⟩
    exact ⟨c, h.mem_iff.mpr hc, hn⟩

theorem reduceFixed_perm {α : Type} (better : α → α → Bool) (le : α → α → Prop)
    (hrefl : ∀ a, le a a) (htrans : ∀ a b c, le a b → le b c → le a c)
    (hanti : ∀ a b, le a b → le b a → a = b)
    (hyes : ∀ v cur, better v cur = true → le cur v)
    (hno : ∀ v cur, better v cur = false → le v cur)
    (n : Nat) (args args2 : List (Expr α)) (cols cols2 : List (Column α))
    (hk : 1 ≤ cols.length) (hperm : cols2.Perm cols)
    (hargs : Evaluates args cols n) (hargs2 : Evaluates args2 cols2 n)
    (pool pool2 : Pool α) (hpool : pool.CanLease 1) (hpool2 : pool2.CanLease 1)
    (result result2 : Column α) (i : Nat) (hi : i < n) :
    (reduceFixed (mergeStep better n) args pool result).result.IsNull i
      = (reduceFixed (mergeStep better n) args2 pool2 result2).result.IsNull i ∧
    ((reduceFixed (mergeStep better n) args pool result).result.IsNull i = false →
      (reduceFixed (mergeStep better n) args pool result).result.data[i]?
        = (reduceFixed (mergeStep better n) args2 pool2 result2).result.data[i]?) := by
  have hk2 : 1 ≤ cols2.length := by rw [hperm.length_eq]; exact hk
  obtain ⟨-, hn1, hv1⟩ := reduceFixed_extremum better le hrefl htrans hyes hno n args cols hk
    hargs pool hpool result i hi
  obtain ⟨-, hn2, hv2⟩ := reduceFixed_extremum better le hrefl htrans hyes hno n args2 cols2 hk2
    hargs2 pool2 hpool2 result2 i hi
  have hany := anyNull_perm cols cols2 hperm i
  refine ⟨by rw [hn1, hn2, hany], ?_⟩
  intro hnn
  rw [hn1] at hnn
  obtain ⟨m1, hm1, hmem1, hle1⟩ := hv1 hnn
  obtain ⟨m2, hm2, hmem2, hle2⟩ := hv2 (by rw [hany]; exact hnn)
  have h12 : le m1 m2 := hle2 m1 ((mem_rowValues_perm cols cols2 hperm i m1).mpr hmem1)
  have h21 : le m2 m1 := hle1 m2 ((mem_rowValues_perm cols cols2 hperm i m2).mp hmem2)
  rw [hm1, hm2, hanti m1 m2 h12 h21]

/-- C15: Integer `GREATEST` and `LEAST` are independent of the argument
order: for `k ≥ 1` operand columns `cols` of `n` rows and any permutation
`cols2` of them (the operands `args2` evaluating to `cols2`), the successful
calls of `builtinGreatestIntSig.vecEvalInt` (resp.
`builtinLeastIntSig.vecEvalInt`) on the two orders yield the same null flag at
every row `i < n` and the same value at every non-null row. -/
theorem int_greatest_least_order_independent (n : Nat) (args args2 : List (Expr Int))
    (cols cols2 : List (Column Int)) (pool pool2 : Pool Int) (result result2 : Column Int)
    (i : Nat) (hk : 1 ≤ cols.length) (hperm : cols2.Perm cols)
    (hargs : Evaluates args cols n) (hargs2 : Evaluates args2 cols2 n)
    (hpool : pool.CanLease 1) (hpool2 : pool2.CanLease 1) (hi : i < n) :
    ((builtinGreatestIntSig.vecEvalInt args n pool result).result.IsNull i
        = (builtinGreatestIntSig.vecEvalInt args2 n pool2 result2).result.IsNull i ∧
      ((builtinGreatestIntSig.vecEvalInt args n pool result).result.IsNull i = false →
        (builtinGreatestIntSig.vecEvalInt args n pool result).result.data[i]?
          = (builtinGreatestIntSig.vecEvalInt args2 n pool2 result2).result.data[i]?)) ∧
    ((builtinLeastIntSig.vecEvalInt args n pool result).result.IsNull i
        = (builtinLeastIntSig.vecEvalInt args2 n pool2 result2).result.IsNull i ∧
      ((builtinLeastIntSig.vecEvalInt args n pool result).result.IsNull i = false →
        (builtinLeastIntSig.vecEvalInt args n pool result).result.data[i]?
          = (builtinLeastIntSig.vecEvalInt args2 n pool2 result2).result.data[i]?)) :=
  ⟨reduceFixed_perm (fun v cur : Int => decide (v > cur)) (fun a b => a ≤ b)
      (fun a => le_refl a) (fun _ _ _ => le_trans) (fun _ _ => le_antisymm)
      (fun v cur h => by
        have : v > cur := by simpa using h
        omega)
      (fun v cur h => by
        have : ¬ v > cur := by simpa using h
        omega)
      n args args2 cols cols2 hk hperm hargs hargs2 pool pool2 hpool hpool2 result result2 i hi,
    reduceFixed_perm (fun v cur : Int => decide (v < cur)) (fun a b => b ≤ a)
      (fun a => le_refl a) (fun _ _ _ h1 h2 => le_trans h2 h1) (fun _ _ h1 h2 => le_antisymm h2 h1)
      (fun v cur h => by
        have : v < cur := by simpa using h
        omega)
      (fun v cur h => by
        have : ¬ v < cur := by simpa using h
        omega)
      n args args2 cols cols2 hk hperm hargs hargs2 pool pool2 hpool hpool2 result result2 i hi⟩

/-- The hypotheses of `int_greatest_least_order_independent` hold for the
columns `(3, -1)`, `(2, NULL)` and their reversal, at row 0. -/
theorem int_greatest_least_order_independent_witness :
    (1 ≤ sampleIntCols.length ∧ sampleIntCols.reverse.Perm sampleIntCols ∧
      Evaluates (sampleIntCols.map Expr.ofColumn) sampleIntCols 2 ∧
      Evaluates (sampleIntCols.reverse.map Expr.ofColumn) sampleIntCols.reverse 2 ∧
      (Pool.ofFresh 1 : Pool Int).CanLease 1 ∧ 0 < 2) ∧
    (builtinGreatestIntSig.vecEvalInt (sampleIntCols.map Expr.ofColumn) 2 (Pool.ofFresh 1)
        Column.empty).result.IsNull 0
      = (builtinGreatestIntSig.vecEvalInt (sampleIntCols.reverse.map Expr.ofColumn) 2
        (Pool.ofFresh 1) Column.empty).result.IsNull 0 :=
  have h1 : 1 ≤ sampleIntCols.length := by decide
  have h2 : sampleIntCols.reverse.Perm sampleIntCols := List.reverse_perm _
  have h3 : Evaluates (sampleIntCols.map Expr.ofColumn) sampleIntCols 2 := ⟨rfl, by decide⟩
  have h4 : Evaluates (sampleIntCols.reverse.map Expr.ofColumn) sampleIntCols.reverse 2 :=
    ⟨rfl, by decide⟩
  have h5 : (Pool.ofFresh 1 : Pool Int).CanLease 1 := by simp [Pool.CanLease, Pool.ofFresh]
  ⟨⟨h1, h2, h3, h4, h5, by decide⟩,
    (int_greatest_least_order_independent 2 (sampleIntCols.map Expr.ofColumn)
      (sampleIntCols.reverse.map Expr.ofColumn) sampleIntCols sampleIntCols.reverse
      (Pool.ofFresh 1) (Pool.ofFresh 1) Column.empty Column.empty 0 h1 h2 h3 h4 h5 h5
      (by decide)).1.1⟩

/-! ## The dispatch of `vecCompareInt` -/

/-- C16: `vecCompareInt` dispatches once on the pair of signedness flags and
is exhaustive: for each of the four combinations of `isUnsigned0` and
`isUnsigned1` the data of `result` becomes what exactly one delta kernel
writes, run once on the whole columns, and it is the kernel that reads the
left column as unsigned iff `isUnsigned0` and the right column as unsigned
iff `isUnsigned1` (UU, UI, IU, II); no combination leaves `result`
unwritten. -/
theorem vecCompareInt_dispatch (K : CompareKernels) (largs rargs result : Column Int) :
    vecCompareInt K true true largs rargs result
      = { result with data := K.VecCompareUU largs.Uint64s rargs.Uint64s result.Int64s } ∧
    vecCompareInt K true false largs rargs result
      = { result with data := K.VecCompareUI largs.Uint64s rargs.Int64s result.Int64s } ∧
    vecCompareInt K false true largs rargs result
      = { result with data := K.VecCompareIU largs.Int64s rargs.Uint64s result.Int64s } ∧
    vecCompareInt K false false largs rargs result
      = { result with data := K.VecCompareII largs.Int64s rargs.Int64s result.Int64s } :=
  ⟨rfl, rfl, rfl, rfl⟩

/-! ## Signedness and Integer `GREATEST` / `LEAST` -/

theorem reduceLoop_reflag {α : Type} (step : Column α → Column α → Column α)
    (g : Expr α → Bool) (args : List (Expr α)) (j : Nat) (s : Body α) :
    reduceLoop step (args.map fun a => { a with unsigned := g a }) j s
      = reduceLoop step args j s := by
  induction args generalizing j s with
  | nil => rfl
  | cons a rest ih =>
    simp only [List.map_cons, reduceLoop]
    cases ha : a.VecEval with
    | error err => rfl
    | ok c => exact ih _ _

theorem reduceFixed_reflag {α : Type} (step : Column α → Column α → Column α)
    (g : Expr α → Bool) (args : List (Expr α)) (pool : Pool α) (result : Column α) :
    reduceFixed step (args.map fun a => { a with unsigned := g a }) pool result
      = reduceFixed step args pool result := by
  have h0 : vecEvalArg (args.map fun a => { a with unsigned := g a }) 0 = vecEvalArg args 0 := by
    cases args <;> simp [vecEvalArg]
  have h1 : (args.map fun a => ({ a with unsigned := g a } : Expr α)).drop 1
      = (args.drop 1).map fun a => { a with unsigned := g a } := by
    cases args <;> simp
  simp only [reduceFixed, h0, h1, reduceLoop_reflag]

/-- C17: Integer `GREATEST`/`LEAST` ignore the signedness flag of the
operands and compare as signed 64-bit integers: setting the flags of the
operands to anything changes nothing of what a call returns; and for the two
operands flagged unsigned that hold the bit pattern `0xFFFFFFFFFFFFFFFF` and
the value 1, `builtinGreatestIntSig.vecEvalInt` returns 1, the smaller of the
two as unsigned integers, and `builtinLeastIntSig.vecEvalInt` returns the
pattern `0xFFFFFFFFFFFFFFFF`, the larger. -/
theorem int_greatest_least_ignore_unsigned :
    (∀ (g : Expr Int → Bool) (args : List (Expr Int)) (n : Nat) (pool : Pool Int)
        (result : Column Int),
      builtinGreatestIntSig.vecEvalInt (args.map fun a => { a with unsigned := g a }) n pool
          result = builtinGreatestIntSig.vecEvalInt args n pool result ∧
      builtinLeastIntSig.vecEvalInt (args.map fun a => { a with unsigned := g a }) n pool
          result = builtinLeastIntSig.vecEvalInt args n pool result) ∧
    (unsignedPairArgs.map (·.unsigned) = [true, true] ∧
      toUint64 (-1) = 0xFFFFFFFFFFFFFFFF ∧ toUint64 1 = 1 ∧ toUint64 1 < toUint64 (-1) ∧
      (builtinGreatestIntSig.vecEvalInt unsignedPairArgs 1 (Pool.ofFresh 1)
        Column.empty).err = none ∧
      (builtinGreatestIntSig.vecEvalInt unsignedPairArgs 1 (Pool.ofFresh 1)
        Column.empty).result = ⟨[false], [1]⟩ ∧
      (builtinLeastIntSig.vecEvalInt unsignedPairArgs 1 (Pool.ofFresh 1)
        Column.empty).err = none ∧
      (builtinLeastIntSig.vecEvalInt unsignedPairArgs 1 (Pool.ofFresh 1)
        Column.empty).result = ⟨[false], [-1]⟩) := by
  refine ⟨fun g args n pool result => ⟨reduceFixed_reflag _ g args pool result,
    reduceFixed_reflag _ g args pool result⟩, rfl, ?_, ?_, ?_, ?_, ?_, ?_, ?_⟩
  · simp [toUint64]
  · simp [toUint64]
  · simp [toUint64]
  · decide
  · decide
  · decide
  · decide

/-! ## `<=` and `>` are complements -/

theorem compareInt_nulls (vecResOf : List Int → List Int) (K : CompareKernels)
    (args : List (Expr Int)) (c0 c1 : Column Int) (n : Nat)
    (hargs : Evaluates args [c0, c1] n) (pool : Pool Int) (hpool : pool.CanLease 2)
    (result : Column Int) :
    (compareInt vecResOf K args n pool result).result.nulls
      = ((vecCompareInt K (hasUnsignedFlag args 0) (hasUnsignedFlag args 1) c0 c1
          (result.Resize 0 n false)).MergeNulls [c0, c1]).nulls := by
  obtain ⟨-, hr⟩ := compareInt_ok vecResOf K args c0 c1 n hargs.1 pool hpool result
  rw [hr]

/-- C18: Integer `<=` and `>` are exact complements: for every pair of
operand columns of `n` rows, every pair of signedness flags and every row
`i < n`, null or not, with delta kernels that meet their contract, the value
`builtinLEIntSig.vecEvalInt` stores at row `i` and the value
`builtinGTIntSig.vecEvalInt` stores at row `i` add up to 1, each is 0 or 1,
and the two results carry the same null flags. -/
theorem le_gt_are_complements (K : CompareKernels) (args : List (Expr Int))
    (c0 c1 : Column Int) (n i : Nat) (pool : Pool Int) (result : Column Int)
    (hK : K.Correct) (hargs : Evaluates args [c0, c1] n) (hpool : pool.CanLease 2)
    (hi : i < n) :
    (∃ x y : Int,
      (builtinLEIntSig.vecEvalInt K args n pool result).result.data[i]? = some x ∧
      (builtinGTIntSig.vecEvalInt K args n pool result).result.data[i]? = some y ∧
      x + y = 1 ∧ (x = 0 ∨ x = 1) ∧ (y = 0 ∨ y = 1)) ∧
    (builtinLEIntSig.vecEvalInt K args n pool result).result.nulls
      = (builtinGTIntSig.vecEvalInt K args n pool result).result.nulls := by
  have hc0 : c0.HasRows n := hargs.2 c0 (by simp)
  have hc1 : c1.HasRows n := hargs.2 c1 (by simp)
  obtain ⟨a, ha⟩ : ∃ a, c0.data[i]? = some a :=
    ⟨_, List.getElem?_eq_getElem (by rw [hc0.2]; exact hi)⟩
  obtain ⟨b, hb⟩ : ∃ b, c1.data[i]? = some b :=
    ⟨_, List.getElem?_eq_getElem (by rw [hc1.2]; exact hi)⟩
  obtain ⟨d1, hd1, hs1⟩ := compareInt_row (fun d => if d ≤ 0 then 1 else 0) K hK args c0 c1 n i
    a b hargs pool hpool result ha hb
  obtain ⟨d2, hd2, hs2⟩ := compareInt_row (fun d => if d > 0 then 1 else 0) K hK args c0 c1 n i
    a b hargs pool hpool result ha hb
  have hsign : Int.sign d1 = Int.sign d2 := by rw [hs1, hs2]
  have hiff := (sign_eq_cases d1 d2 hsign).2.1
  constructor
  · refine ⟨if d1 ≤ 0 then 1 else 0, if d2 > 0 then 1 else 0, hd1, hd2, ?_, ?_, ?_⟩
    · by_cases h1 : d1 ≤ 0
      · have h2 : ¬ d2 > 0 := by have := hiff.mp h1; omega
        simp [h1, h2]
      · have h2 : d2 > 0 := by
          by_contra hc
          exact h1 (hiff.mpr (by omega))
        simp [h1, h2]
    · by_cases h1 : d1 ≤ 0
      · simp [h1]
      · simp [h1]
    · by_cases h2 : d2 > 0
      · simp [h2]
      · simp [h2]
  · unfold builtinLEIntSig.vecEvalInt builtinGTIntSig.vecEvalInt
    rw [compareInt_nulls vecResOfLE K args c0 c1 n hargs pool hpool result,
      compareInt_nulls vecResOfGT K args c0 c1 n hargs pool hpool result]

/-- The hypotheses of `le_gt_are_complements` hold at row 1 of the sample,
where the right operand is null. -/
theorem le_gt_are_complements_witness :
    (signKernels.Correct ∧ Evaluates sampleCompareArgs sampleCompareCols 3 ∧
      (Pool.ofFresh 2 : Pool Int).CanLease 2 ∧ 1 < 3) ∧
    (builtinLEIntSig.vecEvalInt signKernels sampleCompareArgs 3 (Pool.ofFresh 2)
        Column.empty).result.nulls
      = (builtinGTIntSig.vecEvalInt signKernels sampleCompareArgs 3 (Pool.ofFresh 2)
        Column.empty).result.nulls :=
  have h1 : Evaluates sampleCompareArgs sampleCompareCols 3 := ⟨rfl, by decide⟩
  have h2 : (Pool.ofFresh 2 : Pool Int).CanLease 2 := by simp [Pool.CanLease, Pool.ofFresh]
  ⟨⟨signKernels_correct, h1, h2, by decide⟩,
    (le_gt_are_complements signKernels sampleCompareArgs
      (Column.ofRows 0 [some (-1), some 0, some 5])
      (Column.ofRows 0 [some 9223372036854775807, none, some 7]) 3 1 (Pool.ofFresh 2)
      Column.empty signKernels_correct h1 h2 (by decide)).2⟩

/-! ## The inline and the bulk null handling -/

theorem Column.nulls_getElem?_of_hasRows {α : Type} (c : Column α) (n i : Nat)
    (h : c.HasRows n) : c.nulls[i]? = if i < n then some (c.IsNull i) else none := by
  by_cases hi : i < n
  · have hl : i < c.nulls.length := by rw [h.1]; exact hi
    simp [hi, Column.IsNull, List.getElem?_eq_getElem hl]
  · simp only [hi, if_false]
    exact List.getElem?_eq_none (by rw [h.1]; omega)

theorem Column.eq_of_fields {α : Type} (a b : Column α) (h1 : a.nulls = b.nulls)
    (h2 : a.data = b.data) : a = b := by
  cases a; cases b
  simp only at h1 h2
  rw [h1, h2]

theorem foldsRows_unique {α : Type} (better : α → α → Bool) (n : Nat)
    (step1 step2 : Column α → Column α → Column α) (h1 : FoldsRows better n step1)
    (h2 : FoldsRows better n step2) (buf result : Column α) (hb : buf.HasRows n)
    (hr : result.HasRows n) : step1 buf result = step2 buf result := by
  obtain ⟨r1, f1⟩ := h1 buf result hb hr
  obtain ⟨r2, f2⟩ := h2 buf result hb hr
  have hrow : ∀ i, i < n → ∃ v cur, buf.data[i]? = some v ∧ result.data[i]? = some cur := by
    intro i hi
    exact ⟨_, _, List.getElem?_eq_getElem (by rw [hb.2]; exact hi),
      List.getElem?_eq_getElem (by rw [hr.2]; exact hi)⟩
  apply Column.eq_of_fields
  · apply List.ext_getElem?
    intro i
    rw [Column.nulls_getElem?_of_hasRows _ n i r1, Column.nulls_getElem?_of_hasRows _ n i r2]
    by_cases hi : i < n
    · obtain ⟨v, cur, hv, hcur⟩ := hrow i hi
      simp only [hi, if_true]
      rw [(f1 i v cur hv hcur).1, (f2 i v cur hv hcur).1]
    · simp [hi]
  · apply List.ext_getElem?
    intro i
    by_cases hi : i < n
    · obtain ⟨v, cur, hv, hcur⟩ := hrow i hi
      rw [(f1 i v cur hv hcur).2, (f2 i v cur hv hcur).2]
    · rw [List.getElem?_eq_none (by rw [r1.2]; omega),
        List.getElem?_eq_none (by rw [r2.2]; omega)]

/-- C19: the inline per-row null handling of
`builtinGreatestDecimalSig.vecEvalDecimal` (skip the row if `result` is null,
else mark `result` null if `buf` is null) is equivalent to the bulk form of
the other fixed-width reductions (`result.MergeNulls(buf)`, then skipping the
null rows): for every `result` and `buf` column of the `n` rows of the batch,
one fold step of either form yields the same column, that is the same null
flags and the same stored values at every row. -/
theorem greatest_decimal_inline_eq_bulk {α : Type} (Compare : α → α → Int) (n : Nat)
    (buf result : Column α) (hb : buf.HasRows n) (hr : result.HasRows n) :
    greatestDecimalStep Compare n buf result = greatestDecimalBulkStep Compare n buf result :=
  foldsRows_unique (fun v cur => decide (Compare v cur > 0)) n
    (greatestDecimalStep Compare n) (greatestDecimalBulkStep Compare n)
    (greatestDecimalStep_foldsRows Compare n)
    (mergeStep_foldsRows (fun v cur => decide (Compare v cur > 0)) n) buf result hb hr

/-- The hypotheses of `greatest_decimal_inline_eq_bulk` hold for a `result`
holding `(3, NULL, 1)` and a `buf` holding `(NULL, 4, 2)`. -/
theorem greatest_decimal_inline_eq_bulk_witness :
    ((Column.ofRows (0 : Int) [none, some 4, some 2]).HasRows 3 ∧
      (Column.ofRows (0 : Int) [some 3, none, some 1]).HasRows 3) ∧
    greatestDecimalStep sampleCompare 3 (Column.ofRows 0 [none, some 4, some 2])
        (Column.ofRows 0 [some 3, none, some 1])
      = greatestDecimalBulkStep sampleCompare 3 (Column.ofRows 0 [none, some 4, some 2])
        (Column.ofRows 0 [some 3, none, some 1]) :=
  have h1 : (Column.ofRows (0 : Int) [none, some 4, some 2]).HasRows 3 := by decide
  have h2 : (Column.ofRows (0 : Int) [some 3, none, some 1]).HasRows 3 := by decide
  ⟨⟨h1, h2⟩, greatest_decimal_inline_eq_bulk sampleCompare 3 _ _ h1 h2⟩

end Expression
